import Mathlib

/-!
Registry tool: getters, version export and import, manifest controller, worker pool.

A shallow embedding of parts of the `registry` command line tool:

* `core/get.go`: the `Get...` helpers that look a resource up and hand it to a handler;
* `patch/version.go`: `NewApiVersion`, `versionName`, `applyApiVersionPatch`;
* `patch/project.go`: the export functions and the `Run` methods of the export tasks;
* `cmd/check/rules/rule102/rule102.go`: the rule on the recommended deployment of an Api;
* `cmd/check/rules/rule110/rule110.go`: the rule on the mime type of contents;
* `controller/controller-error-path_test.go`: the constants of `TestControllerErrors`;
* the manifest controller and the worker pool, whose code is not among the sources
  and which are modelled from the specification.

Go strings are Lean `String`s; functions that inspect characters work on `String.data`.
Go `error` values are strings, `nil` is `none`. Remote calls are transitions on a store
state `σ`: a call takes the request and the state and gives the response and the new state.
-/

namespace Registry

/-- Go `error` values; `nil` is modelled by `Option.none` or by `Except.ok`. -/
abbrev Error := String

/-- Go `string`, under a name that the `String` methods of the name types do not shadow. -/
abbrev Text := String

/-- The error of a response, `nil` when there is none. -/
def errorOf {α : Type} : Except Error α → Option Error
  | .error e => some e
  | .ok _ => none

/-! ## Text helpers -/

/-- Split a character list at every occurrence of `c` (the behaviour of `strings.Split`
with a one-character separator: `n` separators give `n + 1` pieces). -/
def splitOn (c : Char) : List Char → List (List Char)
  | [] => [[]]
  | x :: xs =>
    if x = c then [] :: splitOn c xs
    else match splitOn c xs with
      | [] => [[x]]
      | p :: ps => (x :: p) :: ps

/-- The pieces of a string between `/` separators. -/
def pieces (s : String) : List String :=
  (splitOn '/' s.data).map String.mk

/-- Remove the leading `pre` from `s`, if it is there. -/
def stripPrefix? : List Char → List Char → Option (List Char)
  | [], s => some s
  | _ :: _, [] => none
  | p :: ps, x :: xs => if p = x then stripPrefix? ps xs else none

/-- Go `strings.TrimPrefix`. -/
def TrimPrefix (s pre : String) : String :=
  match stripPrefix? pre.data s.data with
  | some r => String.mk r
  | none => s

/-- Join strings with a separator (Go `strings.Join`). -/
def joinWith (sep : String) : List String → String
  | [] => ""
  | [x] => x
  | x :: y :: rest => x ++ sep ++ joinWith sep (y :: rest)

/-! ## Resource names (package `names`) -/

namespace names

/-- Modelled from the spec: the package `server/registry/names` is not among the sources.
The characters of an identifier are those of the pattern that the test of rule 101 quotes
from the parse error of a version name, `[A-Za-z0-9-.]`. -/
def idChar (c : Char) : Bool :=
  c.isAlphanum || c = '-' || c = '.'

/-- Modelled from the spec: an identifier of the missing `names` package is one non-empty
name segment of identifier characters, so it holds no `/`. -/
def validID (s : String) : Bool :=
  !s.data.isEmpty && s.data.all idChar

/-- Project name `projects/P`. -/
structure Project where
  ProjectID : String
  deriving DecidableEq, Repr

/-- Api name `projects/P/locations/global/apis/A`. -/
structure Api where
  ProjectID : String
  ApiID : String
  deriving DecidableEq, Repr

/-- Version name `projects/P/locations/global/apis/A/versions/V`. -/
structure Version where
  ProjectID : String
  ApiID : String
  VersionID : String
  deriving DecidableEq, Repr

/-- Spec name `projects/P/locations/global/apis/A/versions/V/specs/S`. -/
structure Spec where
  ProjectID : String
  ApiID : String
  VersionID : String
  SpecID : String
  deriving DecidableEq, Repr

/-- Spec revision name: a spec name followed by `@` and the revision. -/
structure SpecRevision where
  ProjectID : String
  ApiID : String
  VersionID : String
  SpecID : String
  RevisionID : String
  deriving DecidableEq, Repr

/-- Deployment name `projects/P/locations/global/apis/A/deployments/D`. -/
structure Deployment where
  ProjectID : String
  ApiID : String
  DeploymentID : String
  deriving DecidableEq, Repr

/-- Deployment revision name: a deployment name followed by `@` and the revision. -/
structure DeploymentRevision where
  ProjectID : String
  ApiID : String
  DeploymentID : String
  RevisionID : String
  deriving DecidableEq, Repr

/-- Artifact name: the name of the parent resource, then `/artifacts/X`. -/
structure Artifact where
  parentName : String
  projectID : String
  ArtifactID : String
  deriving DecidableEq, Repr

/-- Modelled from the spec: `Project.String` of the missing `names` package. -/
def Project.String (p : Project) : String :=
  "projects/" ++ p.ProjectID

/-- Modelled from the spec: `Api.String` of the missing `names` package. -/
def Api.String (a : Api) : String :=
  "projects/" ++ a.ProjectID ++ "/locations/global/apis/" ++ a.ApiID

/-- Modelled from the spec: `Version.String` of the missing `names` package. -/
def Version.String (v : Version) : String :=
  "projects/" ++ v.ProjectID ++ "/locations/global/apis/" ++ v.ApiID ++ "/versions/" ++ v.VersionID

/-- Modelled from the spec: `Spec.String` of the missing `names` package. -/
def Spec.String (s : Spec) : String :=
  "projects/" ++ s.ProjectID ++ "/locations/global/apis/" ++ s.ApiID ++ "/versions/" ++ s.VersionID
    ++ "/specs/" ++ s.SpecID

/-- Modelled from the spec: `SpecRevision.String` of the missing `names` package. -/
def SpecRevision.String (s : SpecRevision) : String :=
  "projects/" ++ s.ProjectID ++ "/locations/global/apis/" ++ s.ApiID ++ "/versions/" ++ s.VersionID
    ++ "/specs/" ++ s.SpecID ++ "@" ++ s.RevisionID

/-- Modelled from the spec: `Deployment.String` of the missing `names` package. -/
def Deployment.String (d : Deployment) : String :=
  "projects/" ++ d.ProjectID ++ "/locations/global/apis/" ++ d.ApiID ++ "/deployments/" ++ d.DeploymentID

/-- Modelled from the spec: `DeploymentRevision.String` of the missing `names` package. -/
def DeploymentRevision.String (d : DeploymentRevision) : String :=
  "projects/" ++ d.ProjectID ++ "/locations/global/apis/" ++ d.ApiID ++ "/deployments/" ++ d.DeploymentID
    ++ "@" ++ d.RevisionID

/-- Modelled from the spec: `Artifact.String` of the missing `names` package. -/
def Artifact.String (a : Artifact) : String :=
  a.parentName ++ "/artifacts/" ++ a.ArtifactID

/-- The Api a version belongs to. -/
def Version.Api (v : Version) : Api :=
  { ProjectID := v.ProjectID, ApiID := v.ApiID }

/-- Modelled from the spec: `Version.Parent`, the name of the version's Api. -/
def Version.Parent (v : Version) : Text :=
  v.Api.String

/-- Modelled from the spec: `Api.Version`, the version of this Api with the given ID. -/
def Api.Version (a : Api) (id : Text) : Version :=
  { ProjectID := a.ProjectID, ApiID := a.ApiID, VersionID := id }

/-- Modelled from the spec: `Version.Spec`, the spec of this version with the given ID. -/
def Version.Spec (v : Version) (id : Text) : Spec :=
  { ProjectID := v.ProjectID, ApiID := v.ApiID, VersionID := v.VersionID, SpecID := id }

/-- Modelled from the spec: `Version.Artifact`, the artifact of this version with the given ID. -/
def Version.Artifact (v : Version) (id : Text) : Artifact :=
  { parentName := v.String, projectID := v.ProjectID, ArtifactID := id }

/-- Modelled from the spec: `Project.Api`, the Api of this project with the given ID. -/
def Project.Api (p : Project) (id : Text) : Api :=
  { ProjectID := p.ProjectID, ApiID := id }

/-- Modelled from the spec: `Project.Artifact`, the artifact of this project with the
given ID; its parent is the location of the project. -/
def Project.Artifact (p : Project) (id : Text) : Artifact :=
  { parentName := "projects/" ++ p.ProjectID ++ "/locations/global", projectID := p.ProjectID,
    ArtifactID := id }

/-- Modelled from the spec: `Api.Deployment`, the deployment of this Api with the given ID. -/
def Api.Deployment (a : Api) (id : Text) : Deployment :=
  { ProjectID := a.ProjectID, ApiID := a.ApiID, DeploymentID := id }

/-- Modelled from the spec: `Api.Artifact`, the artifact of this Api with the given ID. -/
def Api.Artifact (a : Api) (id : Text) : Artifact :=
  { parentName := a.String, projectID := a.ProjectID, ArtifactID := id }

/-- Modelled from the spec: `Spec.Artifact`, the artifact of this spec with the given ID. -/
def Spec.Artifact (s : Spec) (id : Text) : Artifact :=
  { parentName := s.String, projectID := s.ProjectID, ArtifactID := id }

/-- Modelled from the spec: `Deployment.Artifact`, the artifact of this deployment with
the given ID. -/
def Deployment.Artifact (d : Deployment) (id : Text) : Artifact :=
  { parentName := d.String, projectID := d.ProjectID, ArtifactID := id }

/-- Modelled from the spec: `Artifact.ProjectID`, the project the artifact lives in. -/
def Artifact.ProjectID (a : Artifact) : Text :=
  a.projectID

/-- Modelled from the spec: `Deployment.Api`, the Api a deployment belongs to. -/
def Deployment.Api (d : Deployment) : Api :=
  { ProjectID := d.ProjectID, ApiID := d.ApiID }

/-- Modelled from the spec: `ParseApi` of the missing `names` package. A valid Api name is
`projects/P/locations/global/apis/A` with identifiers `P` and `A`. The text of the error
is not modelled. -/
def ParseApi (name : String) : Except Error Api :=
  match pieces name with
  | ["projects", p, "locations", "global", "apis", a] =>
    if validID p && validID a then .ok { ProjectID := p, ApiID := a }
    else .error ("invalid api name " ++ name)
  | _ => .error ("invalid api name " ++ name)

/-- Modelled from the spec: `ParseVersion` of the missing `names` package. A valid version
name is `projects/P/locations/global/apis/A/versions/V` with identifiers `P`, `A`, `V`.
The text of the error is not modelled. -/
def ParseVersion (name : String) : Except Error Version :=
  match pieces name with
  | ["projects", p, "locations", "global", "apis", a, "versions", v] =>
    if validID p && validID a && validID v then
      .ok { ProjectID := p, ApiID := a, VersionID := v }
    else .error ("invalid version name " ++ name)
  | _ => .error ("invalid version name " ++ name)

/-- Modelled from the spec: `ParseDeployment` of the missing `names` package. A valid
deployment name is `projects/P/locations/global/apis/A/deployments/D` with identifiers `P`,
`A`, `D`. The text of the error is not modelled. -/
def ParseDeployment (name : String) : Except Error Deployment :=
  match pieces name with
  | ["projects", p, "locations", "global", "apis", a, "deployments", d] =>
    if validID p && validID a && validID d then
      .ok { ProjectID := p, ApiID := a, DeploymentID := d }
    else .error ("invalid deployment name " ++ name)
  | _ => .error ("invalid deployment name " ++ name)

/-- Modelled from the spec: `ExportableName` of the missing `names` package, the name
relative to its project (`apis/A` for the Api `projects/P/locations/global/apis/A`). -/
def ExportableName (name projectID : String) : String :=
  TrimPrefix name ("projects/" ++ projectID ++ "/locations/global/")

end names

/-! ## Messages (package `rpc`), with the fields the sources use -/

namespace rpc

/-- Project message. -/
structure Project where
  Name : String
  DisplayName : String
  Description : String
  deriving DecidableEq, Repr

/-- Api message. -/
structure Api where
  Name : String
  DisplayName : String
  Description : String
  RecommendedVersion : String
  RecommendedDeployment : String
  deriving DecidableEq, Repr

/-- ApiVersion message. -/
structure ApiVersion where
  Name : String
  DisplayName : String
  Description : String
  State : String
  PrimarySpec : String
  Labels : List (String × String)
  Annotations : List (String × String)
  deriving DecidableEq, Repr

/-- ApiSpec message; `Contents` is a byte slice, `none` when it is `nil`. -/
structure ApiSpec where
  Name : String
  Filename : String
  MimeType : String
  Contents : Option (List Nat)
  deriving DecidableEq, Repr

/-- ApiDeployment message. -/
structure ApiDeployment where
  Name : String
  DisplayName : String
  Description : String
  deriving DecidableEq, Repr

/-- Artifact message; `Contents` is a byte slice, `none` when it is `nil`. -/
structure Artifact where
  Name : String
  MimeType : String
  Contents : Option (List Nat)
  deriving DecidableEq, Repr

/-- The body returned by the two contents requests. -/
structure HttpBody where
  ContentType : String
  Data : Option (List Nat)
  deriving DecidableEq, Repr

/-- Request of `UpdateApiVersion`. -/
structure UpdateApiVersionRequest where
  ApiVersion : ApiVersion
  AllowMissing : Bool
  deriving DecidableEq, Repr

end rpc

/-! ## Clients -/

/-- The admin client: one remote call, a transition on the store state `σ`. -/
structure AdminClient (σ : Type) where
  GetProject : String → σ → Except Error rpc.Project × σ

/-- The registry client: each remote call is a transition on the store state `σ`,
taking the request (for the getters, the `Name` field of the request). -/
structure RegistryClient (σ : Type) where
  GetApi : String → σ → Except Error rpc.Api × σ
  GetApiVersion : String → σ → Except Error rpc.ApiVersion × σ
  GetApiSpec : String → σ → Except Error rpc.ApiSpec × σ
  GetApiDeployment : String → σ → Except Error rpc.ApiDeployment × σ
  GetArtifact : String → σ → Except Error rpc.Artifact × σ
  GetApiSpecContents : String → σ → Except Error rpc.HttpBody × σ
  GetArtifactContents : String → σ → Except Error rpc.HttpBody × σ
  UpdateApiVersion : rpc.UpdateApiVersionRequest → σ → Except Error rpc.ApiVersion × σ

/-! ## `core/get.go` -/

namespace core

/-- A handler receives the resource and may act on the state; it returns an error or `nil`. -/
abbrev Handler (σ α : Type) := α → σ → Option Error × σ

/-- What a getter did: the error it returned, the state it left, and the resources on
which it invoked the handler, in order. -/
structure GetResult (σ α : Type) where
  err : Option Error
  state : σ
  handled : List α

/-- The statement `return handler(x)`: one invocation of the handler. -/
def invoke {σ α : Type} (handler : Handler σ α) (x : α) (s : σ) : GetResult σ α :=
  { err := (handler x s).1, state := (handler x s).2, handled := [x] }

/-- The statement `return err` before the handler is reached. -/
def failed {σ α : Type} (e : Error) (s : σ) : GetResult σ α :=
  { err := some e, state := s, handled := [] }

/-- `FetchSpecContents`: fills `Contents` and `MimeType` of a spec that has no contents. -/
def FetchSpecContents {σ : Type} (client : RegistryClient σ) (spec : rpc.ApiSpec) (s : σ) :
    Option Error × rpc.ApiSpec × σ :=
  if spec.Contents ≠ none then (none, spec, s)
  else
    match client.GetApiSpecContents spec.Name s with
    | (.error e, s1) => (some e, spec, s1)
    | (.ok contents, s1) =>
      (none, { spec with Contents := contents.Data, MimeType := contents.ContentType }, s1)

/-- `FetchArtifactContents`: fills `Contents` and `MimeType` of an artifact without contents. -/
def FetchArtifactContents {σ : Type} (client : RegistryClient σ) (artifact : rpc.Artifact) (s : σ) :
    Option Error × rpc.Artifact × σ :=
  if artifact.Contents ≠ none then (none, artifact, s)
  else
    match client.GetArtifactContents artifact.Name s with
    | (.error e, s1) => (some e, artifact, s1)
    | (.ok contents, s1) =>
      (none, { artifact with Contents := contents.Data, MimeType := contents.ContentType }, s1)

/-- `GetProject`. -/
def GetProject {σ : Type} (client : AdminClient σ) (name : names.Project)
    (handler : Handler σ rpc.Project) (s : σ) : GetResult σ rpc.Project :=
  match client.GetProject name.String s with
  | (.error e, s1) => failed e s1
  | (.ok project, s1) => invoke handler project s1

/-- `GetAPI`. -/
def GetAPI {σ : Type} (client : RegistryClient σ) (name : names.Api)
    (handler : Handler σ rpc.Api) (s : σ) : GetResult σ rpc.Api :=
  match client.GetApi name.String s with
  | (.error e, s1) => failed e s1
  | (.ok api, s1) => invoke handler api s1

/-- `GetDeployment`. -/
def GetDeployment {σ : Type} (client : RegistryClient σ) (name : names.Deployment)
    (handler : Handler σ rpc.ApiDeployment) (s : σ) : GetResult σ rpc.ApiDeployment :=
  match client.GetApiDeployment name.String s with
  | (.error e, s1) => failed e s1
  | (.ok deployment, s1) => invoke handler deployment s1

/-- `GetDeploymentRevision`. -/
def GetDeploymentRevision {σ : Type} (client : RegistryClient σ) (name : names.DeploymentRevision)
    (handler : Handler σ rpc.ApiDeployment) (s : σ) : GetResult σ rpc.ApiDeployment :=
  match client.GetApiDeployment name.String s with
  | (.error e, s1) => failed e s1
  | (.ok deployment, s1) => invoke handler deployment s1

/-- `GetVersion`. -/
def GetVersion {σ : Type} (client : RegistryClient σ) (name : names.Version)
    (handler : Handler σ rpc.ApiVersion) (s : σ) : GetResult σ rpc.ApiVersion :=
  match client.GetApiVersion name.String s with
  | (.error e, s1) => failed e s1
  | (.ok version, s1) => invoke handler version s1

/-- The common tail of `GetSpec` and `GetSpecRevision` after the lookup succeeded. -/
def specTail {σ : Type} (client : RegistryClient σ) (getContents : Bool)
    (handler : Handler σ rpc.ApiSpec) (spec : rpc.ApiSpec) (s1 : σ) : GetResult σ rpc.ApiSpec :=
  if getContents then
    match FetchSpecContents client spec s1 with
    | (some e, _, s2) => failed e s2
    | (none, spec2, s2) => invoke handler spec2 s2
  else invoke handler spec s1

/-- `GetSpec`. -/
def GetSpec {σ : Type} (client : RegistryClient σ) (name : names.Spec) (getContents : Bool)
    (handler : Handler σ rpc.ApiSpec) (s : σ) : GetResult σ rpc.ApiSpec :=
  match client.GetApiSpec name.String s with
  | (.error e, s1) => failed e s1
  | (.ok spec, s1) => specTail client getContents handler spec s1

/-- `GetSpecRevision`. -/
def GetSpecRevision {σ : Type} (client : RegistryClient σ) (name : names.SpecRevision)
    (getContents : Bool) (handler : Handler σ rpc.ApiSpec) (s : σ) : GetResult σ rpc.ApiSpec :=
  match client.GetApiSpec name.String s with
  | (.error e, s1) => failed e s1
  | (.ok spec, s1) => specTail client getContents handler spec s1

/-- `GetArtifact`. -/
def GetArtifact {σ : Type} (client : RegistryClient σ) (name : names.Artifact)
    (getContents : Bool) (handler : Handler σ rpc.Artifact) (s : σ) : GetResult σ rpc.Artifact :=
  match client.GetArtifact name.String s with
  | (.error e, s1) => failed e s1
  | (.ok artifact, s1) =>
    if getContents then
      match FetchArtifactContents client artifact s1 with
      | (some e, _, s2) => failed e s2
      | (none, artifact2, s2) => invoke handler artifact2 s2
    else invoke handler artifact s1

end core

/-! ## Export models (package `models`), with the fields the sources use -/

namespace models

/-- Metadata of an exported resource. -/
structure Metadata where
  Name : String
  Parent : String
  Labels : List (String × String)
  Annotations : List (String × String)
  deriving DecidableEq, Repr

/-- Header of an exported resource. -/
structure Header where
  ApiVersion : String
  Kind : String
  Metadata : Metadata
  deriving DecidableEq, Repr

/-- Exported artifact; its data is a YAML node, kept as text. -/
structure Artifact where
  Header : Header
  Data : String
  deriving DecidableEq, Repr

/-- Exported spec; the data part is built by `NewApiSpec`, outside the sources, and is
kept as text. -/
structure ApiSpec where
  Header : Header
  Data : String
  deriving DecidableEq, Repr

/-- Data of an exported version; a `nil` slice is the empty list. -/
structure ApiVersionData where
  DisplayName : String
  Description : String
  State : String
  PrimarySpec : String
  ApiSpecs : List ApiSpec
  Artifacts : List Artifact
  deriving DecidableEq, Repr

/-- Exported version. -/
structure ApiVersion where
  Header : Header
  Data : ApiVersionData
  deriving DecidableEq, Repr

end models

/-! ## `patch/version.go` -/

namespace patch

/-- The calls `NewApiVersion` and `applyApiVersionPatch` make, recorded where they are made. -/
inductive Event where
  | UpdateApiVersion (req : rpc.UpdateApiVersionRequest)
  | ListSpecs (name : String)
  | NewApiSpec (message : rpc.ApiSpec) (nested : Bool)
  | collectChildArtifacts (name : String)
  | applyApiSpecPatch (spec : models.ApiSpec) (parent : String) (filename : String)
  | applyArtifactPatch (artifact : models.Artifact) (parent : String)
  deriving DecidableEq, Repr

/-- The store state together with the calls made so far, oldest first. -/
structure World (σ : Type) where
  state : σ
  trace : List Event

/-- What `version.go` uses and the sources do not define: the registry client, the
package constant `RegistryV1`, `core.ListSpecs` (the messages it visits, then the error of
the listing itself, if any), and the sibling functions of package `patch`. -/
structure Env (σ : Type) where
  client : RegistryClient σ
  RegistryV1 : String
  ListSpecs : String → σ → (List rpc.ApiSpec × Option Error) × σ
  NewApiSpec : rpc.ApiSpec → Bool → σ → Except Error models.ApiSpec × σ
  collectChildArtifacts : String → σ → Except Error (List models.Artifact) × σ
  applyApiSpecPatch : models.ApiSpec → String → String → σ → Option Error × σ
  applyArtifactPatch : models.Artifact → String → σ → Option Error × σ

/-- Run a call on the state and record it. -/
def record {σ α : Type} (ev : Event) (f : σ → α × σ) (w : World σ) : α × World σ :=
  ((f w.state).1, { state := (f w.state).2, trace := w.trace ++ [ev] })

/-- The callback `NewApiVersion` passes to `core.ListSpecs`, run over the visited messages:
each spec is converted, the three inferable fields are unset, and the spec is appended;
the first conversion error ends the listing. -/
def visitSpecs {σ : Type} (env : Env σ) :
    List rpc.ApiSpec → List models.ApiSpec → World σ → Except Error (List models.ApiSpec) × World σ
  | [], specs, w => (.ok specs, w)
  | message :: rest, specs, w =>
    match record (.NewApiSpec message true) (env.NewApiSpec message true) w with
    | (.error e, w1) => (.error e, w1)
    | (.ok spec, w1) =>
      let spec1 : models.ApiSpec :=
        { spec with
          Header :=
            { ApiVersion := "", Kind := "",
              Metadata := { spec.Header.Metadata with Parent := "" } } }
      visitSpecs env rest (specs ++ [spec1]) w1

/-- The model `NewApiVersion` returns on success. -/
def versionModel {σ : Type} (env : Env σ) (versionName : names.Version) (message : rpc.ApiVersion)
    (specs : List models.ApiSpec) (artifacts : List models.Artifact) : models.ApiVersion :=
  { Header :=
      { ApiVersion := env.RegistryV1
        Kind := "Version"
        Metadata :=
          { Name := versionName.VersionID
            Parent := names.ExportableName versionName.Parent versionName.ProjectID
            Labels := message.Labels
            Annotations := message.Annotations } }
    Data :=
      { DisplayName := message.DisplayName
        Description := message.Description
        State := message.State
        PrimarySpec := message.PrimarySpec
        ApiSpecs := specs
        Artifacts := artifacts } }

/-- `NewApiVersion`. -/
def NewApiVersion {σ : Type} (env : Env σ) (message : rpc.ApiVersion) (nested : Bool)
    (w : World σ) : Except Error models.ApiVersion × World σ :=
  match names.ParseVersion message.Name with
  | .error e => (.error e, w)
  | .ok versionName =>
    if nested then
      match record (.ListSpecs (versionName.Spec "-").String)
          (env.ListSpecs (versionName.Spec "-").String) w with
      | ((messages, listErr), w1) =>
        match visitSpecs env messages [] w1 with
        | (.error e, w2) => (.error e, w2)
        | (.ok specs, w2) =>
          match listErr with
          | some e => (.error e, w2)
          | none =>
            match record (.collectChildArtifacts (versionName.Artifact "-").String)
                (env.collectChildArtifacts (versionName.Artifact "-").String) w2 with
            | (.error e, w3) => (.error e, w3)
            | (.ok artifacts, w3) => (.ok (versionModel env versionName message specs artifacts), w3)
    else (.ok (versionModel env versionName message [] []), w)

/-- `versionName`. -/
def versionName (parent : String) (metadata : models.Metadata) : Except Error names.Version :=
  let parent1 := if metadata.Parent ≠ "" then parent ++ "/" ++ metadata.Parent else parent
  match names.ParseApi parent1 with
  | .error e => .error e
  | .ok api => .ok (api.Version metadata.Name)

/-- The loop over `version.Data.ApiSpecs` in `applyApiVersionPatch`. -/
def applySpecPatches {σ : Type} (env : Env σ) (parent : String) :
    List models.ApiSpec → World σ → Option Error × World σ
  | [], w => (none, w)
  | specPatch :: rest, w =>
    match record (.applyApiSpecPatch specPatch parent "")
        (env.applyApiSpecPatch specPatch parent "") w with
    | (some e, w1) => (some e, w1)
    | (none, w1) => applySpecPatches env parent rest w1

/-- The loop over `version.Data.Artifacts` in `applyApiVersionPatch`. -/
def applyArtifactPatches {σ : Type} (env : Env σ) (parent : String) :
    List models.Artifact → World σ → Option Error × World σ
  | [], w => (none, w)
  | artifactPatch :: rest, w =>
    match record (.applyArtifactPatch artifactPatch parent)
        (env.applyArtifactPatch artifactPatch parent) w with
    | (some e, w1) => (some e, w1)
    | (none, w1) => applyArtifactPatches env parent rest w1

/-- The request `applyApiVersionPatch` builds. -/
def updateRequest (name : names.Version) (version : models.ApiVersion) :
    rpc.UpdateApiVersionRequest :=
  { ApiVersion :=
      { Name := name.String
        DisplayName := version.Data.DisplayName
        Description := version.Data.Description
        State := version.Data.State
        PrimarySpec := version.Data.PrimarySpec
        Labels := version.Header.Metadata.Labels
        Annotations := version.Header.Metadata.Annotations }
    AllowMissing := true }

/-- `applyApiVersionPatch`. -/
def applyApiVersionPatch {σ : Type} (env : Env σ) (version : models.ApiVersion) (parent : String)
    (w : World σ) : Option Error × World σ :=
  match versionName parent version.Header.Metadata with
  | .error e => (some e, w)
  | .ok name =>
    match record (.UpdateApiVersion (updateRequest name version))
        (env.client.UpdateApiVersion (updateRequest name version)) w with
    | (.error e, w1) => (some e, w1)
    | (.ok _, w1) =>
      match applySpecPatches env name.String version.Data.ApiSpecs w1 with
      | (some e, w2) => (some e, w2)
      | (none, w2) => applyArtifactPatches env name.String version.Data.Artifacts w2

end patch

/-! ## `patch/version.go`: calls issued in order -/

namespace patch

/-- What a recorded call of `version.go` does when it is made in a state: the error it
returns, if any, and the state it leaves. -/
def Event.perform {σ : Type} (env : Env σ) : Event → σ → Option Error × σ
  | .UpdateApiVersion req, s =>
    (errorOf (env.client.UpdateApiVersion req s).1, (env.client.UpdateApiVersion req s).2)
  | .ListSpecs name, s => ((env.ListSpecs name s).1.2, (env.ListSpecs name s).2)
  | .NewApiSpec message nested, s =>
    (errorOf (env.NewApiSpec message nested s).1, (env.NewApiSpec message nested s).2)
  | .collectChildArtifacts name, s =>
    (errorOf (env.collectChildArtifacts name s).1, (env.collectChildArtifacts name s).2)
  | .applyApiSpecPatch spec parent filename, s => env.applyApiSpecPatch spec parent filename s
  | .applyArtifactPatch artifact parent, s => env.applyArtifactPatch artifact parent s

/-- The reading of "issue these calls in this order, stop at the first error and return
it": each call is made in the state the calls before it have left, a failing call is the
last one made, and nothing is undone. -/
def issueInOrder {σ : Type} (env : Env σ) : List Event → World σ → Option Error × World σ
  | [], w => (none, w)
  | ev :: rest, w =>
    match ev.perform env w.state with
    | (some e, s1) => (some e, { state := s1, trace := w.trace ++ [ev] })
    | (none, s1) => issueInOrder env rest { state := s1, trace := w.trace ++ [ev] }

/-- The state after the given calls have all been made, one after the other, whatever they
return. -/
def stateAfter {σ : Type} (env : Env σ) : List Event → σ → σ
  | [], s => s
  | ev :: rest, s => stateAfter env rest (ev.perform env s).2

/-- The calls `applyApiVersionPatch` is to issue for a version named `name`: the update of
the version, then the patches of the nested specs in declared order, then the patches of
the nested artifacts in declared order, each under the full name of the version. -/
def patchCalls (name : names.Version) (version : models.ApiVersion) : List Event :=
  Event.UpdateApiVersion (updateRequest name version)
    :: (version.Data.ApiSpecs.map (fun spec => Event.applyApiSpecPatch spec name.String "")
      ++ version.Data.Artifacts.map (fun artifact => Event.applyArtifactPatch artifact name.String))

/-- The calls the callback of `NewApiVersion` is to issue for the messages a listing visits:
one conversion of each message, in the order of the visit. -/
def conversionCalls (messages : List rpc.ApiSpec) : List Event :=
  messages.map (fun m => Event.NewApiSpec m true)

/-- The spec `NewApiVersion` keeps for a converted nested spec: the three fields that can be
inferred are unset. -/
def inferable (spec : models.ApiSpec) : models.ApiSpec :=
  { spec with
    Header :=
      { ApiVersion := "", Kind := "",
        Metadata := { spec.Header.Metadata with Parent := "" } } }

end patch

/-! ## The manifest controller (modelled from the specification)

The controller sources are not available: only its error-path test is. The definitions of
this section follow the specification of the pattern matcher, the manifest validator, the
dependency resolver and the action builder. -/

namespace controller

/-- Modelled from the spec: the types of name segment of the data model. The code of the
controller is missing; a revision qualifier is kept inside the identifier it qualifies. -/
inductive Kind where
  | project
  | location
  | api
  | version
  | spec
  | deployment
  | artifact
  deriving DecidableEq, Repr

/-- Modelled from the spec: the error taxonomy of the controller, whose code is missing. -/
inductive ErrorKind where
  | InvalidPattern
  | UnresolvedReference
  | StructuralMismatch
  | NotFound
  deriving DecidableEq, Repr

/-- Modelled from the spec: a pattern segment of the missing pattern matcher is a literal
or the single-segment wildcard. -/
inductive Segment where
  | literal (id : String)
  | wildcard
  deriving DecidableEq, Repr

/-- Modelled from the spec: a concrete Resource Name of the missing controller, an ordered
sequence of typed segments that are all literals. -/
abbrev ResourceName := List (Kind × String)

/-- Modelled from the spec: a parsed pattern of the missing pattern matcher, a leading
back-reference (if any) followed by typed segments. -/
structure ParsedPattern where
  ref : Option Kind
  segments : List (Kind × Segment)
  deriving DecidableEq, Repr

/-- The message `rpc.Dependency`, as the test builds it. -/
structure Dependency where
  Pattern : String
  deriving DecidableEq, Repr

/-- The message `rpc.GeneratedResource`, as the test builds it. -/
structure GeneratedResource where
  Pattern : String
  Dependencies : List Dependency
  Action : String
  deriving DecidableEq, Repr

/-- Modelled from the spec: the Action of the missing action builder. -/
structure Action where
  target : ResourceName
  command : String
  dependencies : List ResourceName
  deriving DecidableEq, Repr

/-- Modelled from the spec: the store behind the missing listing collaborator, the concrete
resources in listing order. -/
abbrev Store := List ResourceName

/-- Modelled from the spec: the collection word that introduces a segment of each type in
the missing pattern matcher. -/
def collectionName : Kind → String
  | .project => "projects"
  | .location => "locations"
  | .api => "apis"
  | .version => "versions"
  | .spec => "specs"
  | .deployment => "deployments"
  | .artifact => "artifacts"

/-- Modelled from the spec: the segment type a collection word stands for in the missing
pattern matcher. -/
def collectionKind (word : String) : Option Kind :=
  if word = "projects" then some .project
  else if word = "locations" then some .location
  else if word = "apis" then some .api
  else if word = "versions" then some .version
  else if word = "specs" then some .spec
  else if word = "deployments" then some .deployment
  else if word = "artifacts" then some .artifact
  else none

/-- Modelled from the spec: the component kind a reference keyword names in the missing
pattern matcher (`$resource.spec` names the spec); other keywords are unrecognized. -/
def keywordKind (keyword : String) : Option Kind :=
  if keyword = "project" then some .project
  else if keyword = "location" then some .location
  else if keyword = "api" then some .api
  else if keyword = "version" then some .version
  else if keyword = "spec" then some .spec
  else if keyword = "deployment" then some .deployment
  else if keyword = "artifact" then some .artifact
  else none

/-- Modelled from the spec: segment parsing of the missing pattern matcher. The pieces come
in pairs, a collection word and an identifier; `-` is the wildcard; a malformed segment is
an `InvalidPattern` error. -/
def parseSegments : List String → Except ErrorKind (List (Kind × Segment))
  | [] => .ok []
  | [_] => .error .InvalidPattern
  | word :: id :: rest =>
    match collectionKind word with
    | none => .error .InvalidPattern
    | some k =>
      if id = "" ∨ '$' ∈ id.data then .error .InvalidPattern
      else
        match parseSegments rest with
        | .error e => .error e
        | .ok segs => .ok ((k, if id = "-" then Segment.wildcard else Segment.literal id) :: segs)

/-- Modelled from the spec: `Parse` of the missing pattern matcher. The pattern is split at
its separators; a first piece that starts with `$resource` is a back-reference and must be
`$resource.<kind>` for a known kind, otherwise the pattern is an `InvalidPattern`. -/
def Parse (pattern : String) : Except ErrorKind ParsedPattern :=
  match pieces pattern with
  | [] => .error .InvalidPattern
  | first :: rest =>
    match stripPrefix? "$resource".data first.data with
    | some ('.' :: keyword) =>
      match keywordKind (String.mk keyword) with
      | none => .error .InvalidPattern
      | some k =>
        match parseSegments rest with
        | .error e => .error e
        | .ok segs => .ok { ref := some k, segments := segs }
    | some _ => .error .InvalidPattern
    | none =>
      match parseSegments (first :: rest) with
      | .error e => .error e
      | .ok segs => .ok { ref := none, segments := segs }

/-- Modelled from the spec: the fixed hierarchical order of segment types in the missing
controller, as the child types each type admits. -/
def childOf : Kind → Kind → Bool
  | .project, .location => true
  | .location, .api => true
  | .location, .artifact => true
  | .api, .version => true
  | .api, .deployment => true
  | .api, .artifact => true
  | .version, .spec => true
  | .version, .artifact => true
  | .spec, .artifact => true
  | .deployment, .artifact => true
  | _, _ => false

/-- Modelled from the spec: the check of the missing validator that segment types follow
the hierarchical order below a segment of type `parent`. -/
def ordered : Kind → List Kind → Bool
  | _, [] => true
  | parent, k :: ks => childOf parent k && ordered k ks

/-- Modelled from the spec: the scope of the missing listing collaborator, the project and
location that project-relative patterns live under. -/
def scope (projectID : String) : List (Kind × Segment) :=
  [(.project, .literal projectID), (.location, .literal "global")]

/-- Modelled from the spec: the shape of a target pattern in the missing validator: the
pattern of the resource the artifact is generated for (what `$resource` stands for), and
the identifier of the artifact to generate. -/
structure TargetShape where
  anchor : List (Kind × Segment)
  artifactID : String
  deriving DecidableEq, Repr

/-- Modelled from the spec: the target check of the missing validator. The target pattern
is syntactically valid, has no back-reference, follows the hierarchical order and
terminates in an artifact segment. -/
def targetShape (projectID pattern : String) : Except ErrorKind TargetShape :=
  match Parse pattern with
  | .error e => .error e
  | .ok p =>
    match p.ref with
    | some _ => .error .StructuralMismatch
    | none =>
      if ordered .location (p.segments.map Prod.fst) = true then
        match p.segments.getLast? with
        | some (.artifact, .literal id) =>
          .ok { anchor := scope projectID ++ p.segments.dropLast, artifactID := id }
        | _ => .error .StructuralMismatch
      else .error .StructuralMismatch

/-- Modelled from the spec: the kinds up to and including `k` in a sequence of kinds, for
the missing validator. -/
def kindsUpTo (k : Kind) : List Kind → List Kind
  | [] => []
  | k2 :: rest => if k2 = k then [k2] else k2 :: kindsUpTo k rest

/-- Modelled from the spec: the component kinds of a pattern read relative to a target of
the given kinds, for the missing validator. -/
def patternKinds (anchorKinds : List Kind) (p : ParsedPattern) : List Kind :=
  match p.ref with
  | none => [Kind.project, Kind.location] ++ p.segments.map Prod.fst
  | some k => kindsUpTo k anchorKinds ++ p.segments.map Prod.fst

/-- Modelled from the spec: the dependency check of the missing validator. The pattern is
syntactically valid, its back-reference names a component of the target shape and its
segments follow the hierarchical order. -/
def checkDependency (shape : Option TargetShape) (d : Dependency) : List ErrorKind :=
  match Parse d.Pattern with
  | .error e => [e]
  | .ok p =>
    match p.ref with
    | none =>
      if ordered .location (p.segments.map Prod.fst) = true then [] else [.StructuralMismatch]
    | some k =>
      (match shape with
        | none => []
        | some sh => if k ∈ sh.anchor.map Prod.fst then [] else [ErrorKind.UnresolvedReference])
      ++ (if ordered k (p.segments.map Prod.fst) = true then [] else [.StructuralMismatch])

/-- Modelled from the spec: the characters that continue a back-reference expression
inside an Action template of the missing action builder: the characters of an identifier
and the separator of a pattern. -/
def referenceChar (c : Char) : Bool :=
  names.idChar c || c = '/'

/-- Modelled from the spec: a part of an Action template of the missing action builder, a
character of plain text or a back-reference expression. -/
inductive Part where
  | text (c : Char)
  | reference (expr : String)
  deriving DecidableEq, Repr

/-- Modelled from the spec: the scan of an Action template in the missing action builder.
Every occurrence of `$resource` in the template starts a back-reference expression, which
runs as far as the characters of a pattern go, wherever in the template it stands. The
first argument is the expression that is being read, if any. -/
def partsFrom : Option (List Char) → List Char → List Part
  | none, [] => []
  | some expr, [] => [.reference (String.mk expr)]
  | none, c :: cs =>
    if (stripPrefix? "$resource".data (c :: cs)).isSome = true then partsFrom (some [c]) cs
    else .text c :: partsFrom none cs
  | some expr, c :: cs =>
    if referenceChar c = true then partsFrom (some (expr ++ [c])) cs
    else if (stripPrefix? "$resource".data (c :: cs)).isSome = true then
      .reference (String.mk expr) :: partsFrom (some [c]) cs
    else .reference (String.mk expr) :: .text c :: partsFrom none cs

/-- Modelled from the spec: the parts of an Action template of the missing action builder,
in order. -/
def parts (action : String) : List Part :=
  partsFrom none action.data

/-- Modelled from the spec: the successfully parsed dependency patterns, for the missing
validator. -/
def parsedDependencies : List Dependency → List ParsedPattern
  | [] => []
  | d :: rest =>
    match Parse d.Pattern with
    | .error _ => parsedDependencies rest
    | .ok p => p :: parsedDependencies rest

/-- Modelled from the spec: the action check of the missing validator. A back-reference in
the Action template is syntactically valid and names a component of the target shape or
of a declared dependency pattern. -/
def checkActionPart (shape : Option TargetShape) (deps : List ParsedPattern) :
    Part → List ErrorKind
  | .text _ => []
  | .reference expr =>
    match Parse expr with
    | .error e => [e]
    | .ok p =>
      match p.ref, shape with
      | some k, some sh =>
        if k ∈ sh.anchor.map Prod.fst ∨
            ∃ d ∈ deps, k ∈ patternKinds (sh.anchor.map Prod.fst) d then []
        else [.UnresolvedReference]
      | _, _ => []

/-- Modelled from the spec: `Validate` of the missing validator. Every check is reported;
validation does not stop at the first failure. -/
def Validate (projectID : String) (entry : GeneratedResource) : List ErrorKind :=
  let shape := (targetShape projectID entry.Pattern).toOption
  (match targetShape projectID entry.Pattern with
    | .error e => [e]
    | .ok _ => [])
  ++ (entry.Dependencies.map (checkDependency shape)).flatten
  ++ ((parts entry.Action).map
        (checkActionPart shape (parsedDependencies entry.Dependencies))).flatten

/-- Modelled from the spec: `Match` of the missing pattern matcher. The segment types agree
in number and kind; a wildcard matches any literal, a literal only itself. -/
def Match : List (Kind × Segment) → ResourceName → Bool
  | [], [] => true
  | (k, seg) :: ps, (k2, id) :: ns =>
    decide (k = k2) &&
    (match seg with
      | .wildcard => true
      | .literal l => decide (l = id)) &&
    Match ps ns
  | _, _ => false

/-- Modelled from the spec: the listing collaborator the controller uses (its code is
missing), the stored resources that match a pattern, in listing order. -/
def ListMatching (store : Store) (pattern : List (Kind × Segment)) : List ResourceName :=
  store.filter (fun name => Match pattern name)

/-- Modelled from the spec: extraction of the requested component from a concrete name in
the missing pattern matcher: the name up to and including its segment of kind `k`. -/
def referenced (k : Kind) : ResourceName → Except ErrorKind ResourceName
  | [] => .error .UnresolvedReference
  | (k2, id) :: rest =>
    if k2 = k then .ok [(k2, id)]
    else
      match referenced k rest with
      | .error e => .error e
      | .ok r => .ok ((k2, id) :: r)

/-- Modelled from the spec: a concrete name as the fully literal pattern equal to it, in
the missing pattern matcher. -/
def literalPattern (name : ResourceName) : List (Kind × Segment) :=
  name.map (fun seg => (seg.1, Segment.literal seg.2))

/-- Modelled from the spec: `Resolve` of the missing pattern matcher, the substitution of
the back-reference of a pattern by the component of the resource being generated for. -/
def Resolve (projectID : String) (p : ParsedPattern) (resource : ResourceName) :
    Except ErrorKind (List (Kind × Segment)) :=
  match p.ref with
  | none => .ok (scope projectID ++ p.segments)
  | some k =>
    match referenced k resource with
    | .error e => .error e
    | .ok base => .ok (literalPattern base ++ p.segments)

/-- Modelled from the spec: the concrete name a pattern without wildcards denotes, in the
missing pattern matcher. -/
def concrete? : List (Kind × Segment) → Option ResourceName
  | [] => some []
  | (k, .literal id) :: rest =>
    match concrete? rest with
    | none => none
    | some r => some ((k, id) :: r)
  | (_, .wildcard) :: _ => none

/-- Modelled from the spec: resolution of one dependency pattern for one target in the
missing dependency resolver. After substitution a concrete name must exist in the store
(`NotFound` otherwise); a pattern that still has a wildcard is listed. -/
def resolveDependency (store : Store) (projectID : String) (resource : ResourceName)
    (d : Dependency) : Except ErrorKind (List ResourceName) :=
  match Parse d.Pattern with
  | .error e => .error e
  | .ok p =>
    match Resolve projectID p resource with
    | .error e => .error e
    | .ok pattern =>
      match concrete? pattern with
      | some name => if name ∈ store then .ok [name] else .error .NotFound
      | none => .ok (ListMatching store pattern)

/-- Modelled from the spec: resolution of the dependencies of one target in declaration
order in the missing dependency resolver; the first error is returned. -/
def resolveDependencies (store : Store) (projectID : String) (resource : ResourceName) :
    List Dependency → Except ErrorKind (List ResourceName)
  | [] => .ok []
  | d :: rest =>
    match resolveDependency store projectID resource d with
    | .error e => .error e
    | .ok found =>
      match resolveDependencies store projectID resource rest with
      | .error e => .error e
      | .ok more => .ok (found ++ more)

/-- Modelled from the spec: the text of a pattern or name in the missing action builder. -/
def render (pattern : List (Kind × Segment)) : String :=
  joinWith "/" (pattern.map (fun seg =>
    collectionName seg.1 ++ "/" ++
      (match seg.2 with
        | .literal id => id
        | .wildcard => "-")))

/-- Modelled from the spec: the component of kind `k` among the dependency names, for the
missing action builder: the first dependency, in order, that has one. -/
def referencedIn (k : Kind) : List ResourceName → Except ErrorKind ResourceName
  | [] => .error .UnresolvedReference
  | name :: rest =>
    match referenced k name with
    | .ok r => .ok r
    | .error _ => referencedIn k rest

/-- Modelled from the spec: substitution of one part of the Action template in the missing
action builder, from the target's and the dependencies' concrete names; plain text is
kept. -/
def substitutePart (resource : ResourceName) (dependencies : List ResourceName) :
    Part → Except ErrorKind (List Char)
  | .text c => .ok [c]
  | .reference expr =>
    match Parse expr with
    | .error e => .error e
    | .ok p =>
      match p.ref with
      | none => .error .InvalidPattern
      | some k =>
        match referenced k resource with
        | .ok base => .ok (render (literalPattern base ++ p.segments)).data
        | .error _ =>
          match referencedIn k dependencies with
          | .error e => .error e
          | .ok base => .ok (render (literalPattern base ++ p.segments)).data

/-- Modelled from the spec: substitution of the parts of the Action template in order, in
the missing action builder. -/
def substituteParts (resource : ResourceName) (dependencies : List ResourceName) :
    List Part → Except ErrorKind (List Char)
  | [] => .ok []
  | part :: rest =>
    match substitutePart resource dependencies part with
    | .error e => .error e
    | .ok cs =>
      match substituteParts resource dependencies rest with
      | .error e => .error e
      | .ok more => .ok (cs ++ more)

/-- Modelled from the spec: the missing action builder, which folds a resolved target and
its resolved dependencies into an Action. -/
def buildAction (store : Store) (projectID : String) (entry : GeneratedResource)
    (artifactID : String) (resource : ResourceName) : Except ErrorKind Action :=
  match resolveDependencies store projectID resource entry.Dependencies with
  | .error e => .error e
  | .ok dependencies =>
    match substituteParts resource dependencies (parts entry.Action) with
    | .error e => .error e
    | .ok command =>
      .ok { target := resource ++ [(Kind.artifact, artifactID)]
            command := String.mk command
            dependencies := dependencies }

/-- Modelled from the spec: the actions of the targets in listing order, in the missing
dependency resolver; the first error fails the whole entry. -/
def buildActions (store : Store) (projectID : String) (entry : GeneratedResource)
    (artifactID : String) : List ResourceName → Except ErrorKind (List Action)
  | [] => .ok []
  | resource :: rest =>
    match buildAction store projectID entry artifactID resource with
    | .error e => .error e
    | .ok a =>
      match buildActions store projectID entry artifactID rest with
      | .error e => .error e
      | .ok more => .ok (a :: more)

/-- Modelled from the spec: `processManifestResource` (the `Resolve` of the dependency
resolver), whose code is missing. The entry is validated first and the first defect is
returned; otherwise the target pattern is expanded against the store and one Action is
built for each target. -/
def processManifestResource (store : Store) (projectID : String) (entry : GeneratedResource) :
    Except ErrorKind (List Action) :=
  match Validate projectID entry with
  | e :: _ => .error e
  | [] =>
    match targetShape projectID entry.Pattern with
    | .error e => .error e
    | .ok shape =>
      buildActions store projectID entry shape.artifactID (ListMatching store shape.anchor)

end controller

/-! ## `patch/project.go`: export of a project into a directory of YAML files -/

namespace models

/-- Exported Api; the data part is built by `NewApi`, outside the sources, and is kept as
text. -/
structure Api where
  Header : Header
  Data : String
  deriving DecidableEq, Repr

/-- Exported deployment; the data part is built by `NewApiDeployment`, outside the sources,
and is kept as text. -/
structure ApiDeployment where
  Header : Header
  Data : String
  deriving DecidableEq, Repr

end models

namespace patch

/-- The export tasks of `project.go`: the message to export and the directory to export
into. The client each Go struct also holds is the one of the environment. -/
inductive Task where
  | exportAPITask (message : rpc.Api) (dir : String)
  | exportArtifactTask (message : rpc.Artifact) (dir : String)
  | exportVersionTask (message : rpc.ApiVersion) (dir : String)
  | exportSpecTask (message : rpc.ApiSpec) (dir : String)
  | exportDeploymentTask (message : rpc.ApiDeployment) (dir : String)
  deriving DecidableEq, Repr

/-- The `String` method of the export tasks. -/
def Task.String : Task → Text
  | .exportAPITask message _ => "export " ++ message.Name
  | .exportArtifactTask message _ => "export " ++ message.Name
  | .exportVersionTask message _ => "export " ++ message.Name
  | .exportSpecTask message _ => "export " ++ message.Name
  | .exportDeploymentTask message _ => "export " ++ message.Name

/-- What the functions of `project.go` do to the outside, recorded where it is done: the
calls of `version.go`, listings and lookups, conversions, log lines, directories made,
files written, and tasks sent to the task queue. -/
inductive Effect where
  | call (ev : Event)
  | ListAPIs (name : String)
  | ListVersions (name : String)
  | ListSpecs (name : String)
  | ListDeployments (name : String)
  | ListArtifacts (name : String)
  | GetArtifact (name : String)
  | GetApiSpecContents (name : String)
  | NewApi (message : rpc.Api) (nested : Bool)
  | NewArtifact (message : rpc.Artifact)
  | NewApiSpec (message : rpc.ApiSpec) (nested : Bool)
  | NewApiDeployment (message : rpc.ApiDeployment) (nested : Bool)
  | Infof (line : String)
  | Warnf (line : String)
  | MkdirAll (path : String) (perm : Nat)
  | WriteFile (path : String) (data : Option (List Nat)) (perm : Nat)
  | Submit (task : Task)
  deriving DecidableEq, Repr

/-- The state of the store and the file system together with the effects so far, oldest
first. -/
structure Session (σ : Type) where
  state : σ
  effects : List Effect

/-- What `project.go` uses and the sources do not define, on top of what `version.go`
uses: `filepath.Join` of two elements and `filepath.Dir`, `core.GUnzippedBytes` (its value
and its error), the listings of package `core` (the messages a listing visits, then the
error of the listing itself, if any), the conversions and `Encode` of package `patch`, and
`os.MkdirAll` and `os.WriteFile`. A byte slice is a list of numbers, `none` when `nil`. -/
structure ExportEnv (σ : Type) extends Env σ where
  Join : String → String → String
  Dir : String → String
  GUnzippedBytes : Option (List Nat) → Option (List Nat) × Option Error
  ListAPIs : String → σ → (List rpc.Api × Option Error) × σ
  ListVersions : String → σ → (List rpc.ApiVersion × Option Error) × σ
  ListDeployments : String → σ → (List rpc.ApiDeployment × Option Error) × σ
  ListArtifacts : String → σ → (List rpc.Artifact × Option Error) × σ
  NewApi : rpc.Api → Bool → σ → Except Error models.Api × σ
  NewArtifact : rpc.Artifact → σ → Except Error models.Artifact × σ
  NewApiDeployment : rpc.ApiDeployment → Bool → σ → Except Error models.ApiDeployment × σ
  EncodeApi : models.Api → Except Error (Option (List Nat))
  EncodeArtifact : models.Artifact → Except Error (Option (List Nat))
  EncodeVersion : models.ApiVersion → Except Error (Option (List Nat))
  EncodeSpec : models.ApiSpec → Except Error (Option (List Nat))
  EncodeDeployment : models.ApiDeployment → Except Error (Option (List Nat))
  MkdirAll : String → Nat → σ → Option Error × σ
  WriteFile : String → Option (List Nat) → Nat → σ → Option Error × σ

/-- Do something to the state and record it. -/
def perform {σ α : Type} (eff : Effect) (f : σ → α × σ) (w : Session σ) : α × Session σ :=
  ((f w.state).1, { state := (f w.state).2, effects := w.effects ++ [eff] })

/-- Record an effect that leaves the state alone: a log line or a task sent to the queue. -/
def note {σ : Type} (eff : Effect) (w : Session σ) : Session σ :=
  { state := w.state, effects := w.effects ++ [eff] }

/-- Run a function of `version.go` and record the calls it makes. -/
def viaVersion {σ α : Type} (f : World σ → α × World σ) (w : Session σ) : α × Session σ :=
  ((f { state := w.state, trace := [] }).1,
    { state := (f { state := w.state, trace := [] }).2.state
      effects := w.effects ++ (f { state := w.state, trace := [] }).2.trace.map Effect.call })

/-- A listing of package `core` with the callback the export functions pass: one task is
sent to the task queue for every message visited, and the callback returns `nil`, so the
error is that of the listing. -/
def listAndSubmit {σ α : Type} (eff : Effect) (list : σ → (List α × Option Error) × σ)
    (task : α → Task) (w : Session σ) : Option Error × Session σ :=
  ((list w.state).1.2,
    { state := (list w.state).2
      effects := w.effects ++ eff :: (list w.state).1.1.map (fun m => Effect.Submit (task m)) })

/-- The statement `if err := a; err != nil { return err }` followed by `b`. -/
def andThen {σ : Type} (a b : Session σ → Option Error × Session σ) (w : Session σ) :
    Option Error × Session σ :=
  match a w with
  | (some e, w1) => (some e, w1)
  | (none, w1) => b w1

/-- `ExportProject`. -/
def ExportProject {σ : Type} (env : ExportEnv σ) (projectName : names.Project) (root : String) :
    Session σ → Option Error × Session σ :=
  let root1 := env.Join root projectName.ProjectID
  andThen
    (listAndSubmit (.ListAPIs (projectName.Api "").String)
      (env.ListAPIs (projectName.Api "").String) (fun m => .exportAPITask m root1))
  (andThen
    (listAndSubmit (.ListArtifacts (projectName.Artifact "").String)
      (env.ListArtifacts (projectName.Artifact "").String) (fun m => .exportArtifactTask m root1))
  (andThen
    (listAndSubmit (.ListVersions ((projectName.Api "-").Version "-").String)
      (env.ListVersions ((projectName.Api "-").Version "-").String)
      (fun m => .exportVersionTask m root1))
  (andThen
    (listAndSubmit (.ListSpecs (((projectName.Api "-").Version "-").Spec "-").String)
      (env.ListSpecs (((projectName.Api "-").Version "-").Spec "-").String)
      (fun m => .exportSpecTask m root1))
  (andThen
    (listAndSubmit (.ListDeployments ((projectName.Api "-").Deployment "-").String)
      (env.ListDeployments ((projectName.Api "-").Deployment "-").String)
      (fun m => .exportDeploymentTask m root1))
  (andThen
    (listAndSubmit (.ListArtifacts ((projectName.Api "-").Artifact "").String)
      (env.ListArtifacts ((projectName.Api "-").Artifact "").String)
      (fun m => .exportArtifactTask m root1))
  (andThen
    (listAndSubmit (.ListArtifacts (((projectName.Api "-").Version "-").Artifact "").String)
      (env.ListArtifacts (((projectName.Api "-").Version "-").Artifact "").String)
      (fun m => .exportArtifactTask m root1))
  (andThen
    (listAndSubmit
      (.ListArtifacts ((((projectName.Api "-").Version "-").Spec "-").Artifact "").String)
      (env.ListArtifacts ((((projectName.Api "-").Version "-").Spec "-").Artifact "").String)
      (fun m => .exportArtifactTask m root1))
    (listAndSubmit (.ListArtifacts (((projectName.Api "-").Deployment "-").Artifact "").String)
      (env.ListArtifacts (((projectName.Api "-").Deployment "-").Artifact "").String)
      (fun m => .exportArtifactTask m root1)))))))))

/-- The part of `ExportAPI` after `if !recursive { return nil }`. -/
def exportAPIChildren {σ : Type} (env : ExportEnv σ) (apiName : names.Api) (root1 : String) :
    Session σ → Option Error × Session σ :=
  andThen
    (listAndSubmit (.ListVersions (apiName.Version "-").String)
      (env.ListVersions (apiName.Version "-").String) (fun m => .exportVersionTask m root1))
  (andThen
    (listAndSubmit (.ListSpecs ((apiName.Version "-").Spec "-").String)
      (env.ListSpecs ((apiName.Version "-").Spec "-").String) (fun m => .exportSpecTask m root1))
  (andThen
    (listAndSubmit (.ListDeployments (apiName.Deployment "-").String)
      (env.ListDeployments (apiName.Deployment "-").String)
      (fun m => .exportDeploymentTask m root1))
  (andThen
    (listAndSubmit (.ListArtifacts (apiName.Artifact "").String)
      (env.ListArtifacts (apiName.Artifact "").String) (fun m => .exportArtifactTask m root1))
  (andThen
    (listAndSubmit (.ListArtifacts ((apiName.Version "-").Artifact "").String)
      (env.ListArtifacts ((apiName.Version "-").Artifact "").String)
      (fun m => .exportArtifactTask m root1))
  (andThen
    (listAndSubmit (.ListArtifacts (((apiName.Version "-").Spec "-").Artifact "").String)
      (env.ListArtifacts (((apiName.Version "-").Spec "-").Artifact "").String)
      (fun m => .exportArtifactTask m root1))
    (listAndSubmit (.ListArtifacts ((apiName.Deployment "-").Artifact "").String)
      (env.ListArtifacts ((apiName.Deployment "-").Artifact "").String)
      (fun m => .exportArtifactTask m root1)))))))

/-- `ExportAPI`. -/
def ExportAPI {σ : Type} (env : ExportEnv σ) (apiName : names.Api) (recursive : Bool)
    (root : String) : Session σ → Option Error × Session σ :=
  let root1 := env.Join root apiName.ProjectID
  andThen
    (listAndSubmit (.ListAPIs apiName.String) (env.ListAPIs apiName.String)
      (fun m => .exportAPITask m root1))
    (fun w => if !recursive then (none, w) else exportAPIChildren env apiName root1 w)

/-- `ExportAPIVersion`. -/
def ExportAPIVersion {σ : Type} (env : ExportEnv σ) (versionName : names.Version)
    (recursive : Bool) (root : String) : Session σ → Option Error × Session σ :=
  let root1 := env.Join root versionName.ProjectID
  andThen
    (listAndSubmit (.ListVersions versionName.String) (env.ListVersions versionName.String)
      (fun m => .exportVersionTask m root1))
    (fun w =>
      if !recursive then (none, w)
      else
        andThen
          (listAndSubmit (.ListSpecs (versionName.Spec "-").String)
            (env.ListSpecs (versionName.Spec "-").String) (fun m => .exportSpecTask m root1))
        (andThen
          (listAndSubmit (.ListArtifacts (versionName.Artifact "").String)
            (env.ListArtifacts (versionName.Artifact "").String)
            (fun m => .exportArtifactTask m root1))
          (listAndSubmit (.ListArtifacts ((versionName.Spec "-").Artifact "").String)
            (env.ListArtifacts ((versionName.Spec "-").Artifact "").String)
            (fun m => .exportArtifactTask m root1))) w)

/-- `ExportAPISpec`. -/
def ExportAPISpec {σ : Type} (env : ExportEnv σ) (specName : names.Spec) (recursive : Bool)
    (root : String) : Session σ → Option Error × Session σ :=
  let root1 := env.Join root specName.ProjectID
  andThen
    (listAndSubmit (.ListSpecs specName.String) (env.ListSpecs specName.String)
      (fun m => .exportSpecTask m root1))
    (fun w =>
      if !recursive then (none, w)
      else
        listAndSubmit (.ListArtifacts (specName.Artifact "").String)
          (env.ListArtifacts (specName.Artifact "").String)
          (fun m => .exportArtifactTask m root1) w)

/-- `ExportAPIDeployment`. -/
def ExportAPIDeployment {σ : Type} (env : ExportEnv σ) (deploymentName : names.Deployment)
    (recursive : Bool) (root : String) : Session σ → Option Error × Session σ :=
  let root1 := env.Join root deploymentName.ProjectID
  andThen
    (listAndSubmit (.ListDeployments deploymentName.String)
      (env.ListDeployments deploymentName.String) (fun m => .exportDeploymentTask m root1))
    (fun w =>
      if !recursive then (none, w)
      else
        listAndSubmit (.ListArtifacts (deploymentName.Artifact "").String)
          (env.ListArtifacts (deploymentName.Artifact "").String)
          (fun m => .exportArtifactTask m root1) w)

/-- `ExportArtifact`: the artifact is looked up with `core.GetArtifact`, without its
contents, and the handler sends one task to the task queue. -/
def ExportArtifact {σ : Type} (env : ExportEnv σ) (artifactName : names.Artifact)
    (root : String) (w : Session σ) : Option Error × Session σ :=
  let root1 := env.Join root artifactName.ProjectID
  let got := core.GetArtifact env.client artifactName false
    (fun _ s => (none, s)) w.state
  (got.err,
    { state := got.state
      effects := w.effects ++ Effect.GetArtifact artifactName.String ::
        got.handled.map (fun m => Effect.Submit (.exportArtifactTask m root1)) })

/-- The tail shared by the `Run` methods: the directory of the file is made with mode
`0777` and the file is written. -/
def writeInDir {σ : Type} (env : ExportEnv σ) (filename : String) (bytes : Option (List Nat))
    (perm : Nat) (w : Session σ) : Option Error × Session σ :=
  match perform (.MkdirAll (env.Dir filename) 0o777) (env.MkdirAll (env.Dir filename) 0o777) w with
  | (some e, w1) => (some e, w1)
  | (none, w1) => perform (.WriteFile filename bytes perm) (env.WriteFile filename bytes perm) w1

/-- The method `Run` of `exportAPITask`. -/
def exportAPITask.Run {σ : Type} (env : ExportEnv σ) (message : rpc.Api) (dir : String)
    (w : Session σ) : Option Error × Session σ :=
  match perform (.NewApi message false) (env.NewApi message false) w with
  | (.error e, w1) => (some e, w1)
  | (.ok api, w1) =>
    match env.EncodeApi api with
    | .error e => (some e, w1)
    | .ok bytes =>
      writeInDir env (dir ++ "/apis/" ++ api.Header.Metadata.Name ++ "/info.yaml") bytes 0o644
        (note (.Infof ("Exported " ++ message.Name)) w1)

/-- The method `Run` of `exportArtifactTask`. -/
def exportArtifactTask.Run {σ : Type} (env : ExportEnv σ) (message : rpc.Artifact)
    (dir : String) (w : Session σ) : Option Error × Session σ :=
  match perform (.NewArtifact message) (env.NewArtifact message) w with
  | (.error e, w1) => (none, note (.Warnf ("Skipped " ++ message.Name ++ ": " ++ e)) w1)
  | (.ok artifact, w1) =>
    if artifact.Header.Kind = "Artifact" then
      (none, note (.Warnf ("Skipped " ++ message.Name)) w1)
    else
      match env.EncodeArtifact artifact with
      | .error e => (some e, w1)
      | .ok bytes =>
        writeInDir env
          (if artifact.Header.Metadata.Parent = "" then
            dir ++ "/artifacts/" ++ artifact.Header.Metadata.Name ++ ".yaml"
          else
            dir ++ "/" ++ artifact.Header.Metadata.Parent ++ "/artifacts/"
              ++ artifact.Header.Metadata.Name ++ ".yaml")
          bytes 0o777 (note (.Infof ("Exported " ++ message.Name)) w1)

/-- The method `Run` of `exportVersionTask`. -/
def exportVersionTask.Run {σ : Type} (env : ExportEnv σ) (message : rpc.ApiVersion)
    (dir : String) (w : Session σ) : Option Error × Session σ :=
  match viaVersion (NewApiVersion env.toEnv message false) w with
  | (.error e, w1) => (some e, w1)
  | (.ok version, w1) =>
    match env.EncodeVersion version with
    | .error e => (some e, w1)
    | .ok bytes =>
      writeInDir env
        (dir ++ "/" ++ version.Header.Metadata.Parent ++ "/versions/"
          ++ version.Header.Metadata.Name ++ "/info.yaml")
        bytes 0o644 (note (.Infof ("Exported " ++ message.Name)) w1)

/-- Go `strings.Contains`. -/
def Contains (s sub : String) : Bool :=
  (s.data.tails.any (fun t => (stripPrefix? sub.data t).isSome))

/-- The method `Run` of `exportSpecTask`. -/
def exportSpecTask.Run {σ : Type} (env : ExportEnv σ) (message : rpc.ApiSpec) (dir : String)
    (w : Session σ) : Option Error × Session σ :=
  match perform (.NewApiSpec message false) (env.NewApiSpec message false) w with
  | (.error e, w1) => (some e, w1)
  | (.ok spec, w1) =>
    match env.EncodeSpec spec with
    | .error e => (some e, w1)
    | .ok bytes =>
      let filename := dir ++ "/" ++ spec.Header.Metadata.Parent ++ "/specs/"
        ++ spec.Header.Metadata.Name ++ "/info.yaml"
      match writeInDir env filename bytes 0o644
          (note (.Infof ("Exported " ++ message.Name)) w1) with
      | (some e, w2) => (some e, w2)
      | (none, w2) =>
        if message.Filename = "" then (none, w2)
        else
          match perform (.GetApiSpecContents message.Name)
              (env.client.GetApiSpecContents message.Name) w2 with
          | (.error e, w3) => (some e, w3)
          | (.ok contents, w3) =>
            let data :=
              if Contains contents.ContentType "+gzip" = true then
                (env.GUnzippedBytes contents.Data).1
              else contents.Data
            perform (.WriteFile (env.Join (env.Dir filename) message.Filename) data 0o644)
              (env.WriteFile (env.Join (env.Dir filename) message.Filename) data 0o644) w3

/-- The method `Run` of `exportDeploymentTask`. -/
def exportDeploymentTask.Run {σ : Type} (env : ExportEnv σ) (message : rpc.ApiDeployment)
    (dir : String) (w : Session σ) : Option Error × Session σ :=
  match perform (.NewApiDeployment message false) (env.NewApiDeployment message false) w with
  | (.error e, w1) => (some e, w1)
  | (.ok deployment, w1) =>
    match env.EncodeDeployment deployment with
    | .error e => (some e, w1)
    | .ok bytes =>
      writeInDir env
        (dir ++ "/" ++ deployment.Header.Metadata.Parent ++ "/deployments/"
          ++ deployment.Header.Metadata.Name ++ "/info.yaml")
        bytes 0o644 (note (.Infof ("Exported " ++ message.Name)) w1)

/-- The method `Run` of a task of the task queue. -/
def Task.Run {σ : Type} (env : ExportEnv σ) : Task → Session σ → Option Error × Session σ
  | .exportAPITask message dir => exportAPITask.Run env message dir
  | .exportArtifactTask message dir => exportArtifactTask.Run env message dir
  | .exportVersionTask message dir => exportVersionTask.Run env message dir
  | .exportSpecTask message dir => exportSpecTask.Run env message dir
  | .exportDeploymentTask message dir => exportDeploymentTask.Run env message dir

/-- The directory an export task writes into. -/
def Task.dir : Task → Text
  | .exportAPITask _ dir => dir
  | .exportArtifactTask _ dir => dir
  | .exportVersionTask _ dir => dir
  | .exportSpecTask _ dir => dir
  | .exportDeploymentTask _ dir => dir

/-- The effects of one listing: the listing, then one task for every message visited. -/
def block {α : Type} (eff : Effect) (messages : List α) (task : α → Task) : List Effect :=
  eff :: messages.map (fun m => Effect.Submit (task m))

/-- The effects `f` adds are always the first part of the effects `full` gives for the state
`f` starts in. -/
def AddsPrefixOf {σ : Type} (f : Session σ → Option Error × Session σ)
    (full : σ → List Effect) : Prop :=
  ∀ w, ∃ done, (f w).2.effects = w.effects ++ done ∧ done <+: full w.state

/-- The log lines among some effects, in order. -/
def logLines : List Effect → List Effect
  | [] => []
  | .Infof line :: rest => .Infof line :: logLines rest
  | .Warnf line :: rest => .Warnf line :: logLines rest
  | _ :: rest => logLines rest

end patch

/-! ## `cmd/check/rules/rule102`: the recommended deployment of an Api -/

/-- Go `unicode.IsSpace`. -/
def isSpace (c : Char) : Bool :=
  c.toNat ∈ [0x09, 0x0A, 0x0B, 0x0C, 0x0D, 0x20, 0x85, 0xA0, 0x1680, 0x2028, 0x2029, 0x202F,
    0x205F, 0x3000] || (0x2000 ≤ c.toNat && c.toNat ≤ 0x200A)

/-- Go `strings.TrimSpace`. -/
def TrimSpace (s : String) : String :=
  String.mk ((s.data.dropWhile isSpace).reverse.dropWhile isSpace).reverse

namespace lint

/-- The severities of package `lint`, which is not among the sources; the rule and the
tests of the rules name `ERROR` and `INFO`. -/
inductive Severity where
  | ERROR
  | WARNING
  | INFO
  deriving DecidableEq, Repr

/-- A problem a rule reports, with the fields the rule fills. -/
structure Problem where
  Severity : Severity
  Message : String
  Suggestion : String
  deriving DecidableEq, Repr

/-- A rule on Api messages, with the fields the rule fills: the number and the name given
to `lint.NewRuleName`, the guard `OnlyIf`, and the check `ApplyToApi`, which may query the
registry. -/
structure ApiRule (σ : Type) where
  Name : Nat × String
  OnlyIf : rpc.Api → Bool
  ApplyToApi : rpc.Api → σ → List Problem × σ

/-- The problems a rule reports for an Api, as the tests of the rules apply a rule: the
check is run only if the guard holds. -/
def ApiRule.check {σ : Type} (rule : ApiRule σ) (a : rpc.Api) (s : σ) : List Problem × σ :=
  if rule.OnlyIf a = true then rule.ApplyToApi a s else ([], s)

end lint

namespace rule102

/-- The variable `ruleNum`. -/
def ruleNum : Nat := 102

/-- The variable `ruleName`. -/
def ruleName : Nat × String := (ruleNum, "api-recommended-deployment-ref")

/-- The rule `recommendedDeploymentRef`, the only rule that `AddRules` registers. `quote`
is the verb `%q` of `fmt`, and `client` the registry client of the context. A failed
`names.ParseApi` leaves the zero Api name. -/
def recommendedDeploymentRef {σ : Type} (quote : String → String) (client : RegistryClient σ) :
    lint.ApiRule σ where
  Name := ruleName
  OnlyIf := fun a => decide (TrimSpace a.RecommendedDeployment ≠ "")
  ApplyToApi := fun a s =>
    match names.ParseDeployment a.RecommendedDeployment with
    | .error err =>
      ([{ Severity := .ERROR
          Message := "recommended_deployment " ++ quote a.RecommendedDeployment
            ++ " is not a valid ApiDeployment name."
          Suggestion := "Parse error: " ++ err }], s)
    | .ok deploymentName =>
      let apiName : names.Api :=
        match names.ParseApi a.Name with
        | .ok n => n
        | .error _ => { ProjectID := "", ApiID := "" }
      if deploymentName.Api ≠ apiName then
        ([{ Severity := .ERROR
            Message := "recommended_deployment " ++ quote a.RecommendedDeployment
              ++ " is not a child of this Api."
            Suggestion := "Correct the recommended_deployment." }], s)
      else
        match client.GetApiDeployment a.RecommendedDeployment s with
        | (.error _, s1) =>
          ([{ Severity := .ERROR
              Message := "recommended_deployment " ++ quote a.RecommendedDeployment
                ++ " not found in registry."
              Suggestion := "Correct the recommended_deployment." }], s1)
        | (.ok _, s1) => ([], s1)

end rule102

/-! ## `cmd/check/rules/rule110`: the mime type of contents -/

namespace lint

/-- The resources a field rule is applied to; the rule tells an ApiSpec and an Artifact
from every other resource. -/
inductive Resource where
  | ApiSpec (spec : rpc.ApiSpec)
  | Artifact (artifact : rpc.Artifact)
  | other
  deriving DecidableEq, Repr

/-- A rule on the fields of a resource, with the fields the rule fills; the value of a
field is kept as text. -/
structure FieldRule where
  Name : Nat × String
  OnlyIf : Resource → String → Bool
  ApplyToField : Resource → String → String → List Problem

end lint

namespace rule110

/-- The variable `ruleNum`. -/
def ruleNum : Nat := 110

/-- The variable `ruleName`. -/
def ruleName : Nat × String := (ruleNum, "mime-type-detected-contents")

/-- The variable `allowPrefixes`. -/
def allowPrefixes : List String :=
  ["application/octet-stream", "application/x.", "application/x-", "application/vnd"]

/-- Go `strings.HasPrefix`. -/
def HasPrefix (s pre : String) : Bool :=
  (stripPrefix? pre.data s.data).isSome

/-- The Go library functions the rule calls: the verb `%q` of `fmt`,
`http.DetectContentType`, and the media type `mime.ParseMediaType` returns, or its error. -/
structure Library where
  quote : String → String
  DetectContentType : List Nat → String
  ParseMediaType : String → Except Error String

/-- The declared mime type and the contents that `ApplyToField` reads off the resource;
both are empty for a resource that is neither an ApiSpec nor an Artifact. -/
def declaredAndContents : lint.Resource → String × List Nat
  | .ApiSpec t => (t.MimeType, t.Contents.getD [])
  | .Artifact t => (t.MimeType, t.Contents.getD [])
  | .other => ("", [])

/-- The rule `mimeTypeContents`, the only rule that `AddRules` registers. A failed parse of
the detected type leaves the empty media type. -/
def mimeTypeContents (lib : Library) : lint.FieldRule where
  Name := ruleName
  OnlyIf := fun _ field => decide (field = "MimeType")
  ApplyToField := fun resource _ _ =>
    let declared := (declaredAndContents resource).1
    let contents := (declaredAndContents resource).2
    if contents.length = 0 then []
    else if allowPrefixes.any (fun p => HasPrefix declared p) = true then []
    else
      let detected := lib.DetectContentType contents
      if TrimSpace declared = "" then
        [{ Severity := .ERROR
           Message := "Empty mime_type."
           Suggestion := "Detected mime_type: " ++ lib.quote detected ++ "." }]
      else
        match lib.ParseMediaType declared with
        | .error err =>
          [{ Severity := .ERROR
             Message := "Unable to parse mime_type " ++ lib.quote declared ++ ": " ++ err ++ "."
             Suggestion := "" }]
        | .ok declaredType =>
          let detectedType :=
            match lib.ParseMediaType detected with
            | .ok t => t
            | .error _ => ""
          if declaredType ≠ detectedType then
            [{ Severity := .WARNING
               Message := "Unexpected mime_type " ++ lib.quote declared ++ " for contents."
               Suggestion := "Detected mime_type: " ++ lib.quote detected ++ "." }]
          else []

end rule110

/-! ## `controller/controller-error-path_test.go`: the set-up of `TestControllerErrors` -/

namespace controller.TestControllerErrors

/-- The constant `projectID`, which the test passes to `processManifestResource`. -/
def projectID : String := "controller-error-demo"

/-- The project the test deletes before it seeds the registry, and again when a scenario
is over. -/
def deleted : String := "projects/" ++ "controller-test"

/-- The names of the three specs of the slice `seed`. -/
def seed : List String :=
  ["projects/controller-test/locations/global/apis/petstore/versions/1.0.0/specs/openapi.yaml",
    "projects/controller-test/locations/global/apis/petstore/versions/1.0.1/specs/openapi.yaml",
    "projects/controller-test/locations/global/apis/petstore/versions/1.1.0/specs/openapi.yaml"]

end controller.TestControllerErrors

/-! ## The worker pool (modelled from the specification)

`core.WorkerPool` is called by the export tests, but its code is not among the sources.
The pool is modelled as a transition system: the scheduler picks the next event, and a run
of the pool is a list of events. -/

namespace pool

/-- Modelled from the spec: the Task contract of the missing executor, a description and a
run operation that may fail. The run operation acts on the world `σ` (the files and the
store) and is taken to be atomic. -/
structure Task (σ : Type) where
  description : String
  Run : σ → Option Error × σ

/-- Modelled from the spec: a worker of the missing executor is waiting for a task, is
running one, or has exited. -/
inductive Worker (σ : Type) where
  | idle
  | running (task : Task σ)
  | exited

/-- The task a worker is running, if any. -/
def Worker.task? {σ : Type} : Worker σ → Option (Task σ)
  | .running t => some t
  | _ => none

/-- Whether a worker has exited. -/
def Worker.isExited {σ : Type} : Worker σ → Bool
  | .exited => true
  | _ => false

/-- Modelled from the spec: the state of the missing executor. `submitted` and `completed`
record the history: the tasks submitted so far and the tasks whose run has returned, in
order; `log` is the logging side channel. -/
structure State (σ : Type) where
  workers : List (Worker σ)
  queue : List (Task σ)
  submitted : List (Task σ)
  completed : List (Task σ)
  log : List String
  world : σ
  draining : Bool
  cancelled : Bool
  waitReturned : Bool

/-- Modelled from the spec: what can happen in the missing executor. The caller submits a
task, calls `wait`, or sees `wait` return; a worker takes a task from the queue, finishes
the task it runs, or exits; the context is cancelled. -/
inductive Event (σ : Type) where
  | submit (task : Task σ)
  | dispatch (worker : Nat)
  | finish (worker : Nat)
  | exit (worker : Nat)
  | wait
  | cancel
  | waitReturn

/-- Whether the event is a cancellation of the context. -/
def Event.isCancel {σ : Type} : Event σ → Bool
  | .cancel => true
  | _ => false

/-- Modelled from the spec: `NewPool` of the missing executor, a pool of exactly
`concurrency` workers and an empty queue. -/
def WorkerPool {σ : Type} (world : σ) (concurrency : Nat) : State σ where
  workers := List.replicate concurrency Worker.idle
  queue := []
  submitted := []
  completed := []
  log := []
  world := world
  draining := false
  cancelled := false
  waitReturned := false

/-- Modelled from the spec: the log line of the missing executor for a finished task: a
failure is logged with the description of the task, a success is not logged. -/
def failureLine {σ : Type} (task : Task σ) : Option Error → List String
  | some e => [task.description ++ ": " ++ e]
  | none => []

/-- Modelled from the spec: one event of the missing executor; `none` when the event cannot
happen in the state.

* `submit` appends to the queue; it must come before the pool drains.
* `dispatch` gives the head of the queue to an idle worker, unless the context is cancelled.
* `finish` runs the task of a worker: the failure, if any, is logged and the worker is idle
  again.
* `exit` ends an idle worker once the pool drains and the queue is empty, or once the
  context is cancelled.
* `wait` starts draining; `waitReturn` happens once all workers have exited. -/
def step {σ : Type} (s : State σ) : Event σ → Option (State σ)
  | .submit task =>
    if s.draining = true then none
    else some { s with queue := s.queue ++ [task], submitted := s.submitted ++ [task] }
  | .dispatch i =>
    if s.cancelled = true then none
    else
      match s.workers[i]?, s.queue with
      | some .idle, task :: rest =>
        some { s with workers := s.workers.set i (.running task), queue := rest }
      | _, _ => none
  | .finish i =>
    match s.workers[i]? with
    | some (.running task) =>
      some { s with
        workers := s.workers.set i .idle
        world := (task.Run s.world).2
        completed := s.completed ++ [task]
        log := s.log ++ failureLine task (task.Run s.world).1 }
    | _ => none
  | .exit i =>
    match s.workers[i]? with
    | some .idle =>
      if s.cancelled = true ∨ (s.draining = true ∧ s.queue.isEmpty = true) then
        some { s with workers := s.workers.set i .exited }
      else none
    | _ => none
  | .wait => some { s with draining := true }
  | .cancel => some { s with cancelled := true }
  | .waitReturn =>
    if s.draining = true ∧ s.workers.all Worker.isExited = true then
      some { s with waitReturned := true }
    else none

/-- A run of the pool: the events in order; `none` when one of them cannot happen. -/
def exec {σ : Type} (s : State σ) : List (Event σ) → Option (State σ)
  | [] => some s
  | ev :: rest =>
    match step s ev with
    | none => none
    | some s1 => exec s1 rest

/-- The world after running the tasks one after the other. -/
def runAll {σ : Type} (world : σ) : List (Task σ) → σ
  | [] => world
  | task :: rest => runAll (task.Run world).2 rest

/-- The log lines of the tasks run one after the other: one line for each failure. -/
def failureLog {σ : Type} (world : σ) : List (Task σ) → List String
  | [] => []
  | task :: rest => failureLine task (task.Run world).1 ++ failureLog (task.Run world).2 rest

/-- The task with the same effect on the world and no failure. -/
def Task.quiet {σ : Type} (task : Task σ) : Task σ where
  description := task.description
  Run := fun w => (none, (task.Run w).2)

/-- The worker whose task, if any, is made quiet. -/
def Worker.quiet {σ : Type} : Worker σ → Worker σ
  | .idle => .idle
  | .running t => .running t.quiet
  | .exited => .exited

/-- The event whose task, if any, is made quiet. -/
def Event.quiet {σ : Type} : Event σ → Event σ
  | .submit t => .submit t.quiet
  | .dispatch i => .dispatch i
  | .finish i => .finish i
  | .exit i => .exit i
  | .wait => .wait
  | .cancel => .cancel
  | .waitReturn => .waitReturn

/-- The state in which every task is made quiet and nothing has been logged. -/
def State.quiet {σ : Type} (s : State σ) : State σ where
  workers := s.workers.map Worker.quiet
  queue := s.queue.map Task.quiet
  submitted := s.submitted.map Task.quiet
  completed := s.completed.map Task.quiet
  log := []
  world := s.world
  draining := s.draining
  cancelled := s.cancelled
  waitReturned := s.waitReturned

/-- The tasks that workers are running. -/
def runningTasks {σ : Type} (workers : List (Worker σ)) : List (Task σ) :=
  workers.filterMap Worker.task?

/-- The history invariant of the pool: the world and the log are those of the completed
tasks run one after the other from the initial world. -/
def History {σ : Type} (world : σ) (s : State σ) : Prop :=
  s.world = runAll world s.completed ∧ s.log = failureLog world s.completed

/-- The invariant that `wait` has returned only if the pool drains and every worker has
exited. -/
def Returned {σ : Type} (s : State σ) : Prop :=
  s.waitReturned = true → s.draining = true ∧ s.workers.all Worker.isExited = true

/-- The invariant of a pool of `concurrency` workers whose context is not cancelled: every
submitted task is completed, running or queued, and a worker has exited only when the
pool drains and the queue is empty. -/
def Uncancelled {σ : Type} (concurrency : Nat) (s : State σ) : Prop :=
  s.workers.length = concurrency ∧ s.cancelled = false ∧
  List.Perm s.submitted (s.completed ++ (runningTasks s.workers ++ s.queue)) ∧
  ((∃ w ∈ s.workers, w.isExited = true) → s.draining = true ∧ s.queue = [])

end pool

/-! ## Concrete inputs -/

namespace examples

/-- An admin client over a request counter that knows the project `demo`. -/
def admin : AdminClient Nat where
  GetProject := fun name n =>
    if name = "projects/demo" then (.ok ⟨name, "Demo", ""⟩, n + 1) else (.error "not found", n + 1)

/-- A registry client over a request counter: it knows the spec `openapi` of version `v1`
of the api `petstore` in the project `demo`, serves its contents, and accepts every
version update. -/
def client : RegistryClient Nat where
  GetApi := fun _ n => (.error "not found", n + 1)
  GetApiVersion := fun _ n => (.error "not found", n + 1)
  GetApiSpec := fun name n =>
    if name = "projects/demo/locations/global/apis/petstore/versions/v1/specs/openapi" then
      (.ok ⟨name, "openapi.yaml", "", none⟩, n + 1)
    else (.error "not found", n + 1)
  GetApiDeployment := fun _ n => (.error "not found", n + 1)
  GetArtifact := fun _ n => (.error "not found", n + 1)
  GetApiSpecContents := fun _ n => (.ok ⟨"application/x.openapi", some [111, 112]⟩, n + 1)
  GetArtifactContents := fun _ n => (.error "not found", n + 1)
  UpdateApiVersion := fun req n => (.ok req.ApiVersion, n + 1)

/-- The environment of `version.go` around `client`, with nothing to list. -/
def env : patch.Env Nat where
  client := client
  RegistryV1 := "apigeeregistry/v1"
  ListSpecs := fun _ n => (([], none), n + 1)
  NewApiSpec := fun _ _ n => (.error "no spec", n + 1)
  collectChildArtifacts := fun _ n => (.ok [], n + 1)
  applyApiSpecPatch := fun _ _ _ n => (none, n + 1)
  applyArtifactPatch := fun _ _ n => (none, n + 1)

/-- The version message `v1` of the api `petstore` in the project `demo`. -/
def version : rpc.ApiVersion where
  Name := "projects/demo/locations/global/apis/petstore/versions/v1"
  DisplayName := "Version one"
  Description := "The first version"
  State := "production"
  PrimarySpec := "openapi"
  Labels := [("team", "pets")]
  Annotations := []

/-- A handler that counts as one more request and succeeds. -/
def handler {α : Type} : core.Handler Nat α :=
  fun _ n => (none, n + 10)

/-- The first scenario of `TestControllerErrors`: the dependency refers to a spec, which a
version-level target does not have. -/
def nonExistingReference : controller.GeneratedResource where
  Pattern := "apis/-/versions/-/artifacts/lintstats-gnostic"
  Dependencies := [⟨"$resource.spec"⟩]
  Action := "registry compute lintstats $resource.spec --linter gnostic"

/-- The second scenario of `TestControllerErrors`: an unknown reference keyword. -/
def incorrectKeyword : controller.GeneratedResource where
  Pattern := "apis/-/versions/-/specs/-/artifacts/lint-gnostic"
  Dependencies := [⟨"$resource.apispec"⟩]
  Action := "registry compute lint $resource.apispec --linter gnostic"

/-- The third scenario of `TestControllerErrors`: the dependency is an artifact that no
version has. -/
def nonexistentDependency : controller.GeneratedResource where
  Pattern := "apis/-/versions/-/artifacts/lintstats-gnostic"
  Dependencies := [⟨"$resource.version/artifacts/lint-gnostic"⟩]
  Action := "registry compute lintstats $resource.version/artifacts/lint-gnostic --linter gnostic"

/-- An entry whose dependency pattern has no back-reference: it names the artifact
`lint-gnostic` of version `1.0.0` of the api `petstore`, whatever the target is. -/
def literalDependency : controller.GeneratedResource where
  Pattern := "apis/-/versions/-/artifacts/lintstats-gnostic"
  Dependencies := [⟨"apis/petstore/versions/1.0.0/artifacts/lint-gnostic"⟩]
  Action := "registry compute lintstats --linter gnostic"

/-- The fourth scenario of `TestControllerErrors`: the action refers to an artifact. -/
def incorrectActionReference : controller.GeneratedResource where
  Pattern := "apis/-/versions/-/specs/-/artifacts/lintstats-gnostic"
  Dependencies := [⟨"$resource.spec"⟩]
  Action := "registry compute lintstats $resource.artifact --linter gnostic"

/-- The fourth scenario of `TestControllerErrors` with the reference inside a word. -/
def embeddedActionReference : controller.GeneratedResource where
  Pattern := "apis/-/versions/-/specs/-/artifacts/lintstats-gnostic"
  Dependencies := [⟨"$resource.spec"⟩]
  Action := "registry compute lintstats --in=$resource.artifact --linter gnostic"

/-- The last scenario of `TestControllerErrors`: the action has a bare `$resource`. -/
def missingReference : controller.GeneratedResource where
  Pattern := "apis/-/artifacts/summary"
  Dependencies :=
    [⟨"$resource.api/versions/-/artifacts/complexity"⟩,
      ⟨"$resource.api/versions/-/artifacts/vocabulary"⟩]
  Action := "registry compute summary $resource"

/-- The end-to-end scenario of the specification. -/
def lintstats : controller.GeneratedResource where
  Pattern := "apis/-/versions/-/artifacts/lintstats-gnostic"
  Dependencies := [⟨"$resource.version"⟩]
  Action := "compute lintstats $resource.version --linter gnostic"

/-- The name of a version of the api `petstore`. -/
def petstoreVersion (projectID v : String) : controller.ResourceName :=
  [(.project, projectID), (.location, "global"), (.api, "petstore"), (.version, v)]

/-- The store the test seeds: three specs of `petstore`, with their parents. -/
def seeded (projectID : String) : controller.Store :=
  [ [(.project, projectID), (.location, "global"), (.api, "petstore")],
    petstoreVersion projectID "1.0.0",
    petstoreVersion projectID "1.0.1",
    petstoreVersion projectID "1.1.0",
    petstoreVersion projectID "1.0.0" ++ [(.spec, "openapi.yaml")],
    petstoreVersion projectID "1.0.1" ++ [(.spec, "openapi.yaml")],
    petstoreVersion projectID "1.1.0" ++ [(.spec, "openapi.yaml")] ]

/-- The action the end-to-end scenario expects for one version. -/
def lintstatsAction (projectID v : String) : controller.Action where
  target := petstoreVersion projectID v ++ [(.artifact, "lintstats-gnostic")]
  command :=
    "compute lintstats projects/" ++ projectID ++ "/locations/global/apis/petstore/versions/"
      ++ v ++ " --linter gnostic"
  dependencies := [petstoreVersion projectID v]

/-- An export task that writes one file; the world is the list of files written. -/
def writeTask (name file : String) : pool.Task (List String) where
  description := "export " ++ name
  Run := fun files => (none, files ++ [file])

/-- An export task that fails without writing. -/
def failTask (name : String) : pool.Task (List String) where
  description := "export " ++ name
  Run := fun files => (some "permission denied", files)

/-- A run of a pool of one worker: two tasks are submitted, `wait` is called, the worker
runs both tasks and exits, and `wait` returns. -/
def fullRun : List (pool.Event (List String)) :=
  [.submit (writeTask "apis/a" "a/info.yaml"), .submit (writeTask "apis/b" "b/info.yaml"),
    .wait, .dispatch 0, .finish 0, .dispatch 0, .finish 0, .exit 0, .waitReturn]

/-- The state at the end of `fullRun`. -/
def fullRunEnd : pool.State (List String) where
  workers := [.exited]
  queue := []
  submitted := [writeTask "apis/a" "a/info.yaml", writeTask "apis/b" "b/info.yaml"]
  completed := [writeTask "apis/a" "a/info.yaml", writeTask "apis/b" "b/info.yaml"]
  log := []
  world := ["a/info.yaml", "b/info.yaml"]
  draining := true
  cancelled := false
  waitReturned := true

/-- A run of a pool of one worker in which the context is cancelled before the worker has
taken a task: the worker exits and `wait` returns. -/
def cancelledRun : List (pool.Event (List String)) :=
  [.submit (writeTask "apis/a" "a/info.yaml"), .submit (writeTask "apis/b" "b/info.yaml"),
    .wait, .cancel, .exit 0, .waitReturn]

/-- The state at the end of `cancelledRun`. -/
def cancelledRunEnd : pool.State (List String) where
  workers := [.exited]
  queue := [writeTask "apis/a" "a/info.yaml", writeTask "apis/b" "b/info.yaml"]
  submitted := [writeTask "apis/a" "a/info.yaml", writeTask "apis/b" "b/info.yaml"]
  completed := []
  log := []
  world := []
  draining := true
  cancelled := true
  waitReturned := true

/-- A run of a pool of one worker in which the first task fails. -/
def failedRun : List (pool.Event (List String)) :=
  [.submit (failTask "apis/a"), .submit (writeTask "apis/b" "b/info.yaml"),
    .wait, .dispatch 0, .finish 0, .dispatch 0, .finish 0, .exit 0, .waitReturn]

/-- The state at the end of `failedRun`. -/
def failedRunEnd : pool.State (List String) where
  workers := [.exited]
  queue := []
  submitted := [failTask "apis/a", writeTask "apis/b" "b/info.yaml"]
  completed := [failTask "apis/a", writeTask "apis/b" "b/info.yaml"]
  log := ["export apis/a: permission denied"]
  world := ["b/info.yaml"]
  draining := true
  cancelled := false
  waitReturned := true

/-- The Api message `petstore` of the project `demo`. -/
def petstore : rpc.Api where
  Name := "projects/demo/locations/global/apis/petstore"
  DisplayName := "Petstore"
  Description := ""
  RecommendedVersion := ""
  RecommendedDeployment := ""

/-- The spec message `openapi` of version `v1` of `petstore`, stored in a file. -/
def openapi : rpc.ApiSpec where
  Name := "projects/demo/locations/global/apis/petstore/versions/v1/specs/openapi"
  Filename := "openapi.yaml"
  MimeType := "application/x.openapi+gzip"
  Contents := none

/-- An artifact message of the project `demo` that converts to a lifecycle. -/
def lifecycle : rpc.Artifact where
  Name := "projects/demo/locations/global/artifacts/lifecycle"
  MimeType := "application/octet-stream;type=google.cloud.apigeeregistry.v1.apihub.Lifecycle"
  Contents := none

/-- An artifact message of `petstore` that converts to the generic kind. -/
def blob : rpc.Artifact where
  Name := "projects/demo/locations/global/apis/petstore/artifacts/blob"
  MimeType := "application/octet-stream"
  Contents := none

/-- An artifact message that does not convert. -/
def broken : rpc.Artifact where
  Name := "projects/demo/locations/global/artifacts/broken"
  MimeType := ""
  Contents := none

/-- The header of an exported resource of the examples. -/
def header (kind name parent : String) : models.Header where
  ApiVersion := "apigeeregistry/v1"
  Kind := kind
  Metadata := { Name := name, Parent := parent, Labels := [], Annotations := [] }

/-- The environment of `project.go` over a counter of calls. Every listing of Apis visits
`petstore`, every listing of versions visits `v1`, every listing of artifacts visits
`lifecycle`; nothing else is listed. Directories and files are always written; a path is
joined with `/`, and the directory of a path is the path without its last piece. -/
def exportEnv : patch.ExportEnv Nat where
  toEnv :=
    { env with
      NewApiSpec := fun _ _ n => (.ok ⟨header "" "openapi" "apis/petstore/versions/v1", ""⟩, n + 1) }
  Join := fun a b => a ++ "/" ++ b
  Dir := fun p => joinWith "/" (pieces p).dropLast
  GUnzippedBytes := fun data => (data.map List.reverse, none)
  ListAPIs := fun _ n => (([petstore], none), n + 1)
  ListVersions := fun _ n => (([version], none), n + 1)
  ListDeployments := fun _ n => (([], none), n + 1)
  ListArtifacts := fun _ n => (([lifecycle], none), n + 1)
  NewApi := fun _ _ n => (.ok ⟨header "API" "petstore" "", ""⟩, n + 1)
  NewArtifact := fun message n =>
    if message = lifecycle then (.ok ⟨header "Lifecycle" "lifecycle" "", ""⟩, n + 1)
    else if message = blob then (.ok ⟨header "Artifact" "blob" "apis/petstore", ""⟩, n + 1)
    else (.error "unsupported", n + 1)
  NewApiDeployment := fun _ _ n => (.ok ⟨header "Deployment" "prod" "apis/petstore", ""⟩, n + 1)
  EncodeApi := fun _ => .ok (some [1])
  EncodeArtifact := fun _ => .ok (some [2])
  EncodeVersion := fun _ => .ok (some [3])
  EncodeSpec := fun _ => .ok (some [4])
  EncodeDeployment := fun _ => .ok (some [5])
  MkdirAll := fun _ _ n => (none, n + 1)
  WriteFile := fun _ _ _ n => (none, n + 1)

/-- What `ExportAPI` does for `petstore` with recursion in `exportEnv`. -/
def apiExport : List patch.Effect :=
  [.ListAPIs "projects/demo/locations/global/apis/petstore",
    .Submit (.exportAPITask petstore "out/demo"),
    .ListVersions "projects/demo/locations/global/apis/petstore/versions/-",
    .Submit (.exportVersionTask version "out/demo"),
    .ListSpecs "projects/demo/locations/global/apis/petstore/versions/-/specs/-",
    .ListDeployments "projects/demo/locations/global/apis/petstore/deployments/-",
    .ListArtifacts "projects/demo/locations/global/apis/petstore/artifacts/",
    .Submit (.exportArtifactTask lifecycle "out/demo"),
    .ListArtifacts "projects/demo/locations/global/apis/petstore/versions/-/artifacts/",
    .Submit (.exportArtifactTask lifecycle "out/demo"),
    .ListArtifacts "projects/demo/locations/global/apis/petstore/versions/-/specs/-/artifacts/",
    .Submit (.exportArtifactTask lifecycle "out/demo"),
    .ListArtifacts "projects/demo/locations/global/apis/petstore/deployments/-/artifacts/",
    .Submit (.exportArtifactTask lifecycle "out/demo")]

/-- What `ExportProject` does for the project `demo` in `exportEnv`. -/
def projectExport : List patch.Effect :=
  [.ListAPIs "projects/demo/locations/global/apis/",
    .Submit (.exportAPITask petstore "out/demo"),
    .ListArtifacts "projects/demo/locations/global/artifacts/",
    .Submit (.exportArtifactTask lifecycle "out/demo"),
    .ListVersions "projects/demo/locations/global/apis/-/versions/-",
    .Submit (.exportVersionTask version "out/demo"),
    .ListSpecs "projects/demo/locations/global/apis/-/versions/-/specs/-",
    .ListDeployments "projects/demo/locations/global/apis/-/deployments/-",
    .ListArtifacts "projects/demo/locations/global/apis/-/artifacts/",
    .Submit (.exportArtifactTask lifecycle "out/demo"),
    .ListArtifacts "projects/demo/locations/global/apis/-/versions/-/artifacts/",
    .Submit (.exportArtifactTask lifecycle "out/demo"),
    .ListArtifacts "projects/demo/locations/global/apis/-/versions/-/specs/-/artifacts/",
    .Submit (.exportArtifactTask lifecycle "out/demo"),
    .ListArtifacts "projects/demo/locations/global/apis/-/deployments/-/artifacts/",
    .Submit (.exportArtifactTask lifecycle "out/demo")]

/-- An Api whose recommended version is not the name of a version, and that recommends
no deployment. -/
def badVersionApi : rpc.Api where
  Name := "projects/demo/locations/global/apis/petstore"
  DisplayName := "Petstore"
  Description := ""
  RecommendedVersion := "bad"
  RecommendedDeployment := ""

/-- An Api whose recommended version is not the name of a version, and that recommends its
deployment `prod`. -/
def badVersionGoodDeploymentApi : rpc.Api where
  Name := "projects/demo/locations/global/apis/petstore"
  DisplayName := "Petstore"
  Description := ""
  RecommendedVersion := "bad"
  RecommendedDeployment := "projects/demo/locations/global/apis/petstore/deployments/prod"

/-- A registry client over a counter of calls that knows every deployment. -/
def deployed : RegistryClient Nat :=
  { client with GetApiDeployment := fun name n => (.ok ⟨name, "", ""⟩, n + 1) }

/-- A nested spec of an exported version: the three fields that can be inferred are unset. -/
def nestedSpec (name : String) : models.ApiSpec where
  Header :=
    { ApiVersion := "", Kind := ""
      Metadata := { Name := name, Parent := "", Labels := [], Annotations := [] } }
  Data := ""

/-- The environment of `version.go` in which the listing of specs visits `openapi`, every
spec converts, and the patch of a spec named `broken` fails. -/
def nestedEnv : patch.Env Nat :=
  { exportEnv.toEnv with
    ListSpecs := fun _ n => (([openapi], none), n + 1)
    applyApiSpecPatch := fun spec _ _ n =>
      if spec.Header.Metadata.Name = "broken" then (some "invalid spec", n + 1)
      else (none, n + 1) }

/-- A version model with three nested specs, the second of which is named `broken`, and
one nested artifact. -/
def nestedVersion : models.ApiVersion where
  Header := header "Version" "v1" "apis/petstore"
  Data :=
    { DisplayName := "Version one", Description := "", State := "", PrimarySpec := ""
      ApiSpecs := [nestedSpec "openapi", nestedSpec "broken", nestedSpec "later"]
      Artifacts := [⟨header "Lifecycle" "lifecycle" "", ""⟩] }

/-- A small library for the rule of the mime type: contents that start with `<?xml` are
detected as XML and everything else as a stream of bytes; the media type of a text is the
part before its first `;`, trimmed, and a blank text has none. -/
def library : rule110.Library where
  quote := fun s => "\"" ++ s ++ "\""
  DetectContentType := fun contents =>
    if contents.take 5 = [60, 63, 120, 109, 108] then "text/xml; charset=utf-8"
    else "application/octet-stream"
  ParseMediaType := fun s =>
    if TrimSpace s = "" then .error "mime: no media type"
    else .ok (TrimSpace (String.mk (s.data.takeWhile (fun c => c != ';'))))

/-- A spec message with XML contents and the given mime type. -/
def xmlSpec (mimeType : String) : rpc.ApiSpec where
  Name := "projects/demo/locations/global/apis/petstore/versions/v1/specs/wsdl"
  Filename := "petstore.wsdl"
  MimeType := mimeType
  Contents := some [60, 63, 120, 109, 108, 32]

/-- The environment `exportEnv` over a file system in which no directory can be made. -/
def readOnlyEnv : patch.ExportEnv Nat :=
  { exportEnv with MkdirAll := fun _ _ n => (some "permission denied", n + 1) }

/-- The environment of `version.go` in which the listing of specs visits `openapi` and no
spec converts. -/
def failingEnv : patch.Env Nat :=
  { env with ListSpecs := fun _ n => (([openapi], none), n + 1) }

end examples

/-! ## Lemmas on text -/

theorem splitOn_of_not_mem (c : Char) (a : List Char) (h : c ∉ a) : splitOn c a = [a] := by
  induction a with
  | nil => rfl
  | cons x xs ih =>
    have hx : x ≠ c := fun e => h (by simp [e])
    have hxs : c ∉ xs := fun e => h (by simp [e])
    simp [splitOn, hx, ih hxs]

theorem splitOn_append_sep (c : Char) (a rest : List Char) (h : c ∉ a) :
    splitOn c (a ++ c :: rest) = a :: splitOn c rest := by
  induction a with
  | nil => simp [splitOn]
  | cons x xs ih =>
    have hx : x ≠ c := fun e => h (by simp [e])
    have hxs : c ∉ xs := fun e => h (by simp [e])
    simp [splitOn, hx, ih hxs]

theorem splitOn_ne_nil (c : Char) (l : List Char) : splitOn c l ≠ [] := by
  cases l with
  | nil => simp [splitOn]
  | cons x xs =>
    unfold splitOn
    split
    · simp
    · split <;> simp

theorem intercalate_splitOn (c : Char) (l : List Char) :
    List.intercalate [c] (splitOn c l) = l := by
  induction l with
  | nil => rfl
  | cons x xs ih =>
    unfold splitOn
    split
    · rename_i h
      cases hs : splitOn c xs with
      | nil => exact absurd hs (splitOn_ne_nil c xs)
      | cons p ps =>
        rw [hs] at ih
        rw [← ih, h]
        simp [List.intercalate, List.intersperse]
    · cases hs : splitOn c xs with
      | nil => exact absurd hs (splitOn_ne_nil c xs)
      | cons p ps =>
        rw [hs] at ih
        rw [← ih]
        cases ps <;> simp [List.intercalate, List.intersperse]

theorem stripPrefix?_append (p r : List Char) : stripPrefix? p (p ++ r) = some r := by
  induction p with
  | nil => cases r <;> rfl
  | cons x xs ih => simp [stripPrefix?, ih]

theorem stripPrefix?_eq_some (p s r : List Char) (h : stripPrefix? p s = some r) :
    s = p ++ r := by
  induction p generalizing s with
  | nil => cases s <;> simp_all [stripPrefix?]
  | cons x xs ih =>
    cases s with
    | nil => simp [stripPrefix?] at h
    | cons y ys =>
      simp only [stripPrefix?] at h
      split at h
      · rename_i hxy
        rw [hxy, ih ys h]
        rfl
      · cases h

theorem splitOn_head (c : Char) (l a : List Char) (rest : List (List Char))
    (h : splitOn c l = a :: rest) : ∃ r, l = a ++ r := by
  induction l generalizing a rest with
  | nil =>
    simp [splitOn] at h
    exact ⟨[], by simp [h.1]⟩
  | cons x xs ih =>
    unfold splitOn at h
    split at h
    · simp at h
      exact ⟨x :: xs, by simp [← h.1]⟩
    · cases hs : splitOn c xs with
      | nil => exact absurd hs (splitOn_ne_nil c xs)
      | cons p ps =>
        rw [hs] at h
        simp at h
        obtain ⟨r, hr⟩ := ih p ps hs
        exact ⟨r, by rw [← h.1, hr]; rfl⟩

/-! ## Lemmas on resource names -/

theorem validID_segment (s : String) (h : names.validID s = true) :
    s.data ≠ [] ∧ '/' ∉ s.data := by
  simp only [names.validID, Bool.and_eq_true, Bool.not_eq_true', List.isEmpty_eq_false,
    List.all_eq_true] at h
  refine ⟨by simpa using h.1, ?_⟩
  intro hc
  have := h.2 '/' hc
  revert this
  decide

theorem pieces_api (P A : String) (hP : names.validID P = true) (hA : names.validID A = true) :
    pieces ("projects/" ++ P ++ "/locations/global/apis/" ++ A)
      = ["projects", P, "locations", "global", "apis", A] := by
  obtain ⟨_, hP⟩ := validID_segment P hP
  obtain ⟨_, hA⟩ := validID_segment A hA
  have e : ("projects/" ++ P ++ "/locations/global/apis/" ++ A).data
      = "projects".data ++ '/' :: (P.data ++ '/' :: ("locations".data ++ '/' ::
          ("global".data ++ '/' :: ("apis".data ++ '/' :: A.data)))) := by
    simp [String.data_append]
  rw [pieces, e]
  rw [splitOn_append_sep _ _ _ (by decide), splitOn_append_sep _ _ _ hP,
    splitOn_append_sep _ _ _ (by decide), splitOn_append_sep _ _ _ (by decide),
    splitOn_append_sep _ _ _ (by decide), splitOn_of_not_mem _ _ hA]
  rfl

theorem parseApi_string (a : names.Api) (hP : names.validID a.ProjectID = true)
    (hA : names.validID a.ApiID = true) : names.ParseApi a.String = .ok a := by
  simp [names.ParseApi, names.Api.String, pieces_api _ _ hP hA, hP, hA]

theorem pieces_version (P A V : String) (hP : names.validID P = true)
    (hA : names.validID A = true) (hV : names.validID V = true) :
    pieces ("projects/" ++ P ++ "/locations/global/apis/" ++ A ++ "/versions/" ++ V)
      = ["projects", P, "locations", "global", "apis", A, "versions", V] := by
  obtain ⟨_, hP⟩ := validID_segment P hP
  obtain ⟨_, hA⟩ := validID_segment A hA
  obtain ⟨_, hV⟩ := validID_segment V hV
  have e : ("projects/" ++ P ++ "/locations/global/apis/" ++ A ++ "/versions/" ++ V).data
      = "projects".data ++ '/' :: (P.data ++ '/' :: ("locations".data ++ '/' ::
          ("global".data ++ '/' :: ("apis".data ++ '/' :: (A.data ++ '/' ::
            ("versions".data ++ '/' :: V.data)))))) := by
    simp [String.data_append]
  rw [pieces, e]
  rw [splitOn_append_sep _ _ _ (by decide), splitOn_append_sep _ _ _ hP,
    splitOn_append_sep _ _ _ (by decide), splitOn_append_sep _ _ _ (by decide),
    splitOn_append_sep _ _ _ (by decide), splitOn_append_sep _ _ _ hA,
    splitOn_append_sep _ _ _ (by decide), splitOn_of_not_mem _ _ hV]
  rfl

/-- A name built from three identifiers parses back to them. -/
theorem parseVersion_string (v : names.Version) (hP : names.validID v.ProjectID = true)
    (hA : names.validID v.ApiID = true) (hV : names.validID v.VersionID = true) :
    names.ParseVersion v.String = .ok v := by
  simp [names.ParseVersion, names.Version.String, pieces_version _ _ _ hP hA hV, hP, hA, hV]

/-- A name that parses is the text of its parse, and its identifiers are valid. -/
theorem parseVersion_ok (name : String) (v : names.Version)
    (h : names.ParseVersion name = .ok v) :
    name = v.String ∧ names.validID v.ProjectID = true ∧ names.validID v.ApiID = true
      ∧ names.validID v.VersionID = true := by
  unfold names.ParseVersion at h
  split at h
  · rename_i p a vv hp
    split at h
    · rename_i hv
      simp only [Bool.and_eq_true] at hv
      cases h
      refine ⟨?_, hv.1.1, hv.1.2, hv.2⟩
      have hj := intercalate_splitOn '/' name.data
      have hd := congrArg (List.map String.data) hp
      simp only [pieces, List.map_map] at hd
      have hid : (String.data ∘ String.mk) = id := rfl
      rw [hid, List.map_id] at hd
      rw [hd] at hj
      apply String.ext
      rw [← hj]
      simp [names.Version.String, String.data_append, List.intercalate, List.intersperse]
    · cases h
  · cases h

theorem exportableName_parent (v : names.Version) :
    names.ExportableName v.Parent v.ProjectID = "apis/" ++ v.ApiID := by
  have e : v.Parent.data
      = ("projects/" ++ v.ProjectID ++ "/locations/global/").data ++ ("apis/" ++ v.ApiID).data := by
    simp [names.Version.Parent, names.Version.Api, names.Api.String, String.data_append]
  simp only [names.ExportableName, TrimPrefix]
  rw [e, stripPrefix?_append]

/-- An Api name that parses is the text of its parse, and its identifiers are valid. -/
theorem parseApi_ok (name : String) (a : names.Api) (h : names.ParseApi name = .ok a) :
    name = a.String ∧ names.validID a.ProjectID = true ∧ names.validID a.ApiID = true := by
  unfold names.ParseApi at h
  split at h
  · rename_i p q hp
    split at h
    · rename_i hv
      simp only [Bool.and_eq_true] at hv
      cases h
      refine ⟨?_, hv.1, hv.2⟩
      have hj := intercalate_splitOn '/' name.data
      have hd := congrArg (List.map String.data) hp
      simp only [pieces, List.map_map] at hd
      have hid : (String.data ∘ String.mk) = id := rfl
      rw [hid, List.map_id] at hd
      rw [hd] at hj
      apply String.ext
      rw [← hj]
      simp [names.Api.String, String.data_append, List.intercalate, List.intersperse]
    · cases h
  · cases h

/-- A string trims to the empty string exactly when all its characters are white space. -/
theorem trimSpace_eq_empty (s : String) :
    TrimSpace s = "" ↔ ∀ c ∈ s.data, isSpace c = true := by
  have h1 : TrimSpace s = ""
      ↔ ((s.data.dropWhile isSpace).reverse.dropWhile isSpace).reverse = [] := by
    constructor
    · intro h
      exact congrArg String.data h
    · intro h
      exact String.ext h
  rw [h1, List.reverse_eq_nil_iff, List.dropWhile_eq_nil_iff]
  constructor
  · intro h
    have h2 : ∀ x ∈ s.data.dropWhile isSpace, isSpace x = true := by
      intro x hx
      exact h x (List.mem_reverse.2 hx)
    have h3 := (List.dropWhile_eq_nil_iff (p := isSpace)).2 h2
    rw [List.dropWhile_idempotent] at h3
    exact List.dropWhile_eq_nil_iff.1 h3
  · intro h x hx
    exact h x ((List.dropWhile_sublist isSpace).subset (List.mem_reverse.1 hx))


/-- A message that starts with `Unable to parse mime_type` is not `Empty mime_type.`. -/
theorem rule110.unable_ne_empty (a : String) :
    "Unable to parse mime_type " ++ a ≠ "Empty mime_type." := by
  intro h
  have h1 := congrArg (fun s => s.data.head?) h
  have h2 : ("Unable to parse mime_type " ++ a).data.head? = some 'U' := by
    rw [String.data_append]
    rfl
  have h3 : ("Empty mime_type." : String).data.head? = some 'E' := rfl
  simp only [h2, h3] at h1
  exact absurd h1 (by decide)

/-- A message that starts with `Unexpected mime_type` is not `Empty mime_type.`. -/
theorem rule110.unexpected_ne_empty (a : String) :
    "Unexpected mime_type " ++ a ≠ "Empty mime_type." := by
  intro h
  have h1 := congrArg (fun s => s.data.head?) h
  have h2 : ("Unexpected mime_type " ++ a).data.head? = some 'U' := by
    rw [String.data_append]
    rfl
  have h3 : ("Empty mime_type." : String).data.head? = some 'E' := rfl
  simp only [h2, h3] at h1
  exact absurd h1 (by decide)

/-! ## Lemmas on the calls of `patch/version.go` -/

/-- Issuing two lists of calls one after the other is issuing the first, and the second
only if the first has not failed. -/
theorem patch.issueInOrder_append {σ : Type} (env : patch.Env σ) (a b : List patch.Event)
    (w : patch.World σ) :
    patch.issueInOrder env (a ++ b) w =
      match patch.issueInOrder env a w with
      | (some e, w1) => (some e, w1)
      | (none, w1) => patch.issueInOrder env b w1 := by
  induction a generalizing w with
  | nil => simp [patch.issueInOrder]
  | cons ev rest ih =>
    simp only [List.cons_append, patch.issueInOrder]
    rcases h : ev.perform env w.state with ⟨o, s1⟩
    cases o with
    | none => simp [ih]
    | some e => simp

/-- The loop over the nested specs issues their patches in order. -/
theorem patch.applySpecPatches_eq {σ : Type} (env : patch.Env σ) (parent : String)
    (specs : List models.ApiSpec) (w : patch.World σ) :
    patch.applySpecPatches env parent specs w =
      patch.issueInOrder env
        (specs.map (fun spec => patch.Event.applyApiSpecPatch spec parent "")) w := by
  induction specs generalizing w with
  | nil => rfl
  | cons spec rest ih =>
    rcases h : env.applyApiSpecPatch spec parent "" w.state with ⟨o, s1⟩
    cases o with
    | none =>
      simp [patch.applySpecPatches, patch.issueInOrder, patch.record, patch.Event.perform, h, ih]
    | some e =>
      simp [patch.applySpecPatches, patch.issueInOrder, patch.record, patch.Event.perform, h]

/-- The loop over the nested artifacts issues their patches in order. -/
theorem patch.applyArtifactPatches_eq {σ : Type} (env : patch.Env σ) (parent : String)
    (artifacts : List models.Artifact) (w : patch.World σ) :
    patch.applyArtifactPatches env parent artifacts w =
      patch.issueInOrder env
        (artifacts.map (fun artifact => patch.Event.applyArtifactPatch artifact parent)) w := by
  induction artifacts generalizing w with
  | nil => rfl
  | cons artifact rest ih =>
    rcases h : env.applyArtifactPatch artifact parent w.state with ⟨o, s1⟩
    cases o with
    | none =>
      simp [patch.applyArtifactPatches, patch.issueInOrder, patch.record, patch.Event.perform,
        h, ih]
    | some e =>
      simp [patch.applyArtifactPatches, patch.issueInOrder, patch.record, patch.Event.perform, h]

/-- With a name for the version, `applyApiVersionPatch` issues `patchCalls` in order. -/
theorem patch.applyApiVersionPatch_eq {σ : Type} (env : patch.Env σ)
    (version : models.ApiVersion) (parent : String) (name : names.Version)
    (hname : patch.versionName parent version.Header.Metadata = .ok name) (w : patch.World σ) :
    patch.applyApiVersionPatch env version parent w =
      patch.issueInOrder env (patch.patchCalls name version) w := by
  rcases h : env.client.UpdateApiVersion (patch.updateRequest name version) w.state with ⟨r, s1⟩
  cases r with
  | error e =>
    simp [patch.applyApiVersionPatch, hname, patch.patchCalls, patch.issueInOrder, patch.record,
      patch.Event.perform, h, errorOf]
  | ok v =>
    simp only [patch.applyApiVersionPatch, hname, patch.patchCalls, patch.issueInOrder,
      patch.record, patch.Event.perform, h, errorOf, patch.issueInOrder_append,
      patch.applySpecPatches_eq, patch.applyArtifactPatches_eq]

/-- The calls issued are the first `k` of the list, all of them when no call fails and at
least one when a call fails; the state is the one these `k` calls leave. -/
theorem patch.issueInOrder_trace {σ : Type} (env : patch.Env σ) (calls : List patch.Event)
    (w : patch.World σ) :
    ∃ k, k ≤ calls.length ∧
      (patch.issueInOrder env calls w).2.trace = w.trace ++ calls.take k ∧
      (patch.issueInOrder env calls w).2.state = patch.stateAfter env (calls.take k) w.state ∧
      ((patch.issueInOrder env calls w).1 = none → k = calls.length) ∧
      (∀ e, (patch.issueInOrder env calls w).1 = some e → 0 < k) := by
  induction calls generalizing w with
  | nil => exact ⟨0, by simp [patch.issueInOrder, patch.stateAfter]⟩
  | cons ev rest ih =>
    rcases h : ev.perform env w.state with ⟨o, s1⟩
    cases o with
    | none =>
      obtain ⟨k, hk, ht, hs, hn, he⟩ := ih { state := s1, trace := w.trace ++ [ev] }
      refine ⟨k + 1, by simpa using hk, ?_, ?_, ?_, ?_⟩
      · simp [patch.issueInOrder, h, ht]
      · simp [patch.issueInOrder, h, hs, patch.stateAfter]
      · intro hr
        simp only [patch.issueInOrder, h] at hr
        simp [hn hr]
      · intro e _
        exact Nat.succ_pos k
    | some e =>
      refine ⟨1, by simp, ?_, ?_, ?_, ?_⟩
      · simp [patch.issueInOrder, h]
      · simp [patch.issueInOrder, h, patch.stateAfter]
      · intro hr
        simp [patch.issueInOrder, h] at hr
      · intro _ _
        exact Nat.one_pos

/-- What the callback of `NewApiVersion` gives over the visited messages: on success the
converted specs, in the order of the messages, each with the three inferable fields unset,
after the specs collected before; on failure the conversion error of a visited message. -/
theorem patch.visitSpecs_spec {σ : Type} (env : patch.Env σ) (messages : List rpc.ApiSpec)
    (acc : List models.ApiSpec) (w : patch.World σ) :
    (∀ specs w1, patch.visitSpecs env messages acc w = (.ok specs, w1) →
      ∃ converted,
        List.Forall₂ (fun m c => ∃ s, (env.NewApiSpec m true s).1 = .ok c) messages converted ∧
        specs = acc ++ converted.map patch.inferable) ∧
    (∀ e w1, patch.visitSpecs env messages acc w = (.error e, w1) →
      ∃ m ∈ messages, ∃ s, (env.NewApiSpec m true s).1 = .error e) := by
  induction messages generalizing acc w with
  | nil =>
    constructor
    · intro specs w1 h
      simp only [patch.visitSpecs, Prod.mk.injEq, Except.ok.injEq] at h
      exact ⟨[], List.Forall₂.nil, by simp [h.1]⟩
    · intro e w1 h
      simp [patch.visitSpecs] at h
  | cons m rest ih =>
    rcases hc : env.NewApiSpec m true w.state with ⟨r, s1⟩
    cases r with
    | error e0 =>
      constructor
      · intro specs w1 h
        simp [patch.visitSpecs, patch.record, hc] at h
      · intro e w1 h
        simp only [patch.visitSpecs, patch.record, hc, Prod.mk.injEq, Except.error.injEq] at h
        exact ⟨m, List.mem_cons_self _ _, w.state, by rw [hc, ← h.1]⟩
    | ok c =>
      constructor
      · intro specs w1 h
        simp only [patch.visitSpecs, patch.record, hc] at h
        obtain ⟨converted, hf, hs⟩ := (ih _ _).1 specs w1 h
        refine ⟨c :: converted, List.Forall₂.cons ⟨w.state, by rw [hc]⟩ hf, ?_⟩
        rw [hs]
        simp [patch.inferable]
      · intro e w1 h
        simp only [patch.visitSpecs, patch.record, hc] at h
        obtain ⟨m1, hm, s, hs⟩ := (ih _ _).2 e w1 h
        exact ⟨m1, List.mem_cons_of_mem _ hm, s, hs⟩

/-! ## Lemmas on the log lines of `patch/project.go` -/

/-- The log lines of effects one after the other. -/
theorem patch.logLines_append (a b : List patch.Effect) :
    patch.logLines (a ++ b) = patch.logLines a ++ patch.logLines b := by
  induction a with
  | nil => rfl
  | cons eff rest ih => cases eff <;> simp [patch.logLines, ih]

/-- The calls of `version.go` are not log lines. -/
theorem patch.logLines_call (trace : List patch.Event) :
    patch.logLines (trace.map patch.Effect.call) = [] := by
  induction trace with
  | nil => rfl
  | cons ev rest ih => simp [patch.logLines, ih]

/-- The tail shared by the `Run` methods first makes the directory of the file, and logs
nothing. -/
theorem patch.writeInDir_effects {σ : Type} (env : patch.ExportEnv σ) (filename : String)
    (bytes : Option (List Nat)) (perm : Nat) (w : patch.Session σ) :
    ∃ rest, (patch.writeInDir env filename bytes perm w).2.effects =
        w.effects ++ patch.Effect.MkdirAll (env.Dir filename) 0o777 :: rest ∧
      patch.logLines rest = [] := by
  rcases h : env.MkdirAll (env.Dir filename) 0o777 w.state with ⟨o, s1⟩
  cases o with
  | none =>
    exact ⟨[.WriteFile filename bytes perm], by simp [patch.writeInDir, patch.perform, h], rfl⟩
  | some e => exact ⟨[], by simp [patch.writeInDir, patch.perform, h], rfl⟩

/-- Without nested resources `NewApiVersion` makes no call. -/
theorem patch.newApiVersion_flat_frame {σ : Type} (env : patch.Env σ) (message : rpc.ApiVersion)
    (w : patch.World σ) : (patch.NewApiVersion env message false w).2 = w := by
  simp only [patch.NewApiVersion]
  split <;> simp

/-- After the log line, the tail shared by the `Run` methods makes the directory, and logs
nothing more. -/
theorem patch.logged_write {σ : Type} (env : patch.ExportEnv σ) (filename : String)
    (bytes : Option (List Nat)) (perm : Nat) (line : String) (w : patch.Session σ) :
    ∃ rest,
      (patch.writeInDir env filename bytes perm (patch.note (.Infof line) w)).2.effects =
        w.effects ++ ([.Infof line, .MkdirAll (env.Dir filename) 0o777] ++ rest) ∧
      patch.logLines rest = [] := by
  obtain ⟨rest, h, hl⟩ :=
    patch.writeInDir_effects env filename bytes perm (patch.note (.Infof line) w)
  exact ⟨rest, by rw [h]; simp [patch.note], hl⟩

/-- The call at a place of the list is made in the state the calls before it have left,
provided that these return no error; its error ends the run, and otherwise the calls after
it are issued. -/
theorem patch.issueInOrder_at {σ : Type} (env : patch.Env σ) :
    ∀ (i : Nat) (calls : List patch.Event) (w : patch.World σ) (ev : patch.Event),
      calls[i]? = some ev →
      (∀ j ev1, j < i → calls[j]? = some ev1 →
        (ev1.perform env (patch.stateAfter env (calls.take j) w.state)).1 = none) →
      patch.issueInOrder env calls w =
        match ev.perform env (patch.stateAfter env (calls.take i) w.state) with
        | (some e, s) => (some e, { state := s, trace := w.trace ++ calls.take (i + 1) })
        | (none, s) =>
          patch.issueInOrder env (calls.drop (i + 1))
            { state := s, trace := w.trace ++ calls.take (i + 1) } := by
  intro i
  induction i with
  | zero =>
    intro calls w ev hev _
    cases calls with
    | nil => cases hev
    | cons ev0 rest =>
      simp only [List.getElem?_cons_zero, Option.some.injEq] at hev
      subst hev
      simp only [patch.issueInOrder, List.take_zero, patch.stateAfter, List.take_succ_cons,
        List.drop_succ_cons, List.drop_zero, Nat.zero_add]
  | succ i ih =>
    intro calls w ev hev hbefore
    cases calls with
    | nil => cases hev
    | cons ev0 rest =>
      simp only [List.getElem?_cons_succ] at hev
      have h0 := hbefore 0 ev0 (Nat.succ_pos i) (by simp)
      simp only [List.take_zero, patch.stateAfter] at h0
      rcases hp : ev0.perform env w.state with ⟨o, s1⟩
      rw [hp] at h0
      simp only at h0
      subst h0
      have hrest := ih rest { state := s1, trace := w.trace ++ [ev0] } ev hev
        (by
          intro j ev1 hj hev1
          have := hbefore (j + 1) ev1 (Nat.succ_lt_succ hj) (by simpa using hev1)
          simpa [patch.stateAfter, hp] using this)
      simp only [patch.issueInOrder, hp, List.take_succ_cons, patch.stateAfter,
        List.drop_succ_cons]
      rw [hrest]
      simp

/-- The callback of `NewApiVersion` over the visited messages issues their conversions in
order: the first conversion error ends the visit, and otherwise the specs collected are the
conversions, each made in the state the conversions before it have left, with the three
inferable fields unset. -/
theorem patch.visitSpecs_issue {σ : Type} (env : patch.Env σ) (messages : List rpc.ApiSpec) :
    ∀ (acc : List models.ApiSpec) (w : patch.World σ),
      (∀ e w2, patch.issueInOrder env (patch.conversionCalls messages) w = (some e, w2) →
        patch.visitSpecs env messages acc w = (.error e, w2)) ∧
      (∀ w2, patch.issueInOrder env (patch.conversionCalls messages) w = (none, w2) →
        ∃ convs : List models.ApiSpec,
          patch.visitSpecs env messages acc w = (.ok (acc ++ convs.map patch.inferable), w2) ∧
          convs.length = messages.length ∧
          ∀ i m, messages[i]? = some m → ∃ c, convs[i]? = some c ∧
            (env.NewApiSpec m true
              (patch.stateAfter env ((patch.conversionCalls messages).take i) w.state)).1
              = .ok c) := by
  induction messages with
  | nil =>
    intro acc w
    constructor
    · intro e w2 h
      simp [patch.conversionCalls, patch.issueInOrder] at h
    · intro w2 h
      simp only [patch.conversionCalls, List.map_nil, patch.issueInOrder, Prod.mk.injEq,
        true_and] at h
      subst h
      exact ⟨[], by simp [patch.visitSpecs], rfl, by intro i m hm; simp at hm⟩
  | cons m rest ih =>
    intro acc w
    rcases hc : env.NewApiSpec m true w.state with ⟨r, s1⟩
    cases r with
    | error e0 =>
      constructor
      · intro e w2 h
        simp only [patch.conversionCalls, List.map_cons, patch.issueInOrder,
          patch.Event.perform, hc, errorOf, Prod.mk.injEq, Option.some.injEq] at h
        simp [patch.visitSpecs, patch.record, hc, h.1, ← h.2]
      · intro w2 h
        simp [patch.conversionCalls, patch.issueInOrder, patch.Event.perform, hc, errorOf] at h
    | ok c =>
      have hi := ih (acc ++ [patch.inferable c]) { state := s1, trace := w.trace ++ [patch.Event.NewApiSpec m true] }
      have hv : patch.visitSpecs env (m :: rest) acc w =
          patch.visitSpecs env rest (acc ++ [patch.inferable c])
            { state := s1, trace := w.trace ++ [patch.Event.NewApiSpec m true] } := by
        simp [patch.visitSpecs, patch.record, hc, patch.inferable]
      have hio : patch.issueInOrder env (patch.conversionCalls (m :: rest)) w =
          patch.issueInOrder env (patch.conversionCalls rest)
            { state := s1, trace := w.trace ++ [patch.Event.NewApiSpec m true] } := by
        simp [patch.conversionCalls, patch.issueInOrder, patch.Event.perform, hc, errorOf]
      constructor
      · intro e w2 h
        rw [hio] at h
        rw [hv]
        exact hi.1 e w2 h
      · intro w2 h
        rw [hio] at h
        obtain ⟨convs, h1, h2, h3⟩ := hi.2 w2 h
        refine ⟨c :: convs, ?_, by simp [h2], ?_⟩
        · rw [hv, h1]
          simp
        · intro i m1 hm1
          cases i with
          | zero =>
            simp only [List.getElem?_cons_zero, Option.some.injEq] at hm1
            subst hm1
            exact ⟨c, by simp, by simp [patch.stateAfter, hc]⟩
          | succ i =>
            simp only [List.getElem?_cons_succ] at hm1
            obtain ⟨c1, hc1, hc2⟩ := h3 i m1 hm1
            refine ⟨c1, by simpa using hc1, ?_⟩
            simpa [patch.conversionCalls, patch.stateAfter, patch.Event.perform, hc] using hc2

/-- A call is issued when the calls before it return no error. -/
theorem patch.issueInOrder_issued {σ : Type} (env : patch.Env σ) (i : Nat)
    (calls : List patch.Event) (w : patch.World σ) (ev : patch.Event)
    (hev : calls[i]? = some ev)
    (hbefore : ∀ j ev1, j < i → calls[j]? = some ev1 →
      (ev1.perform env (patch.stateAfter env (calls.take j) w.state)).1 = none) :
    ∃ after, (patch.issueInOrder env calls w).2.trace =
      w.trace ++ calls.take i ++ ev :: after := by
  have htake : calls.take (i + 1) = calls.take i ++ [ev] := by
    rw [List.take_succ, hev]
    rfl
  rw [patch.issueInOrder_at env i calls w ev hev hbefore]
  rcases ev.perform env (patch.stateAfter env (calls.take i) w.state) with ⟨o, s⟩
  cases o with
  | some e => exact ⟨[], by simp [htake]⟩
  | none =>
    obtain ⟨k, _, ht, _⟩ := patch.issueInOrder_trace env (calls.drop (i + 1))
      { state := s, trace := w.trace ++ calls.take (i + 1) }
    refine ⟨(calls.drop (i + 1)).take k, ?_⟩
    simp only at ht ⊢
    rw [ht, htake]
    simp

/-- The error of the first call that fails is the error returned. -/
theorem patch.issueInOrder_first_error {σ : Type} (env : patch.Env σ) (i : Nat)
    (calls : List patch.Event) (w : patch.World σ) (ev : patch.Event) (e : Error)
    (hev : calls[i]? = some ev)
    (hbefore : ∀ j ev1, j < i → calls[j]? = some ev1 →
      (ev1.perform env (patch.stateAfter env (calls.take j) w.state)).1 = none)
    (hfail : (ev.perform env (patch.stateAfter env (calls.take i) w.state)).1 = some e) :
    ∃ w2, patch.issueInOrder env calls w = (some e, w2) := by
  rw [patch.issueInOrder_at env i calls w ev hev hbefore]
  rcases hp : ev.perform env (patch.stateAfter env (calls.take i) w.state) with ⟨o, s⟩
  rw [hp] at hfail
  simp only at hfail
  subst hfail
  exact ⟨_, rfl⟩

/-- When every call returns no error in the state the calls before it have left, all the
calls are issued. -/
theorem patch.issueInOrder_all_ok {σ : Type} (env : patch.Env σ) :
    ∀ (calls : List patch.Event) (w : patch.World σ),
      (∀ (j : Nat) (ev : patch.Event), calls[j]? = some ev →
        (ev.perform env (patch.stateAfter env (calls.take j) w.state)).1 = none) →
      patch.issueInOrder env calls w =
        (none, { state := patch.stateAfter env calls w.state, trace := w.trace ++ calls }) := by
  intro calls
  induction calls with
  | nil =>
    intro w _
    simp [patch.issueInOrder, patch.stateAfter]
  | cons ev0 rest ih =>
    intro w hall
    have h0 := hall 0 ev0 (by simp)
    simp only [List.take_zero, patch.stateAfter] at h0
    rcases hp : ev0.perform env w.state with ⟨o, s1⟩
    rw [hp] at h0
    simp only at h0
    subst h0
    have hrest := ih { state := s1, trace := w.trace ++ [ev0] }
      (by
        intro j ev1 hev1
        have := hall (j + 1) ev1 (by simpa using hev1)
        simpa [patch.stateAfter, hp] using this)
    simp only [patch.issueInOrder, hp, patch.stateAfter]
    rw [hrest]
    simp

/-! ## `core/get.go`: the getters -/

/-- C8: each getter returns exactly the error of a failed lookup (or, for the spec and
artifact getters asked for contents, of a failed contents fetch) without invoking the
handler, and otherwise invokes the handler exactly once, on the fetched resource, and
returns exactly its result. -/
theorem core.getters_return_lookup_error_or_handler_result {σ : Type}
    (admin : AdminClient σ) (client : RegistryClient σ) (s : σ) :
    (∀ (name : names.Project) (h : core.Handler σ rpc.Project),
      (∀ e s1, admin.GetProject name.String s = (.error e, s1) →
        core.GetProject admin name h s = ⟨some e, s1, []⟩) ∧
      (∀ x s1, admin.GetProject name.String s = (.ok x, s1) →
        core.GetProject admin name h s = ⟨(h x s1).1, (h x s1).2, [x]⟩)) ∧
    (∀ (name : names.Api) (h : core.Handler σ rpc.Api),
      (∀ e s1, client.GetApi name.String s = (.error e, s1) →
        core.GetAPI client name h s = ⟨some e, s1, []⟩) ∧
      (∀ x s1, client.GetApi name.String s = (.ok x, s1) →
        core.GetAPI client name h s = ⟨(h x s1).1, (h x s1).2, [x]⟩)) ∧
    (∀ (name : names.Version) (h : core.Handler σ rpc.ApiVersion),
      (∀ e s1, client.GetApiVersion name.String s = (.error e, s1) →
        core.GetVersion client name h s = ⟨some e, s1, []⟩) ∧
      (∀ x s1, client.GetApiVersion name.String s = (.ok x, s1) →
        core.GetVersion client name h s = ⟨(h x s1).1, (h x s1).2, [x]⟩)) ∧
    (∀ (name : names.Deployment) (h : core.Handler σ rpc.ApiDeployment),
      (∀ e s1, client.GetApiDeployment name.String s = (.error e, s1) →
        core.GetDeployment client name h s = ⟨some e, s1, []⟩) ∧
      (∀ x s1, client.GetApiDeployment name.String s = (.ok x, s1) →
        core.GetDeployment client name h s = ⟨(h x s1).1, (h x s1).2, [x]⟩)) ∧
    (∀ (name : names.DeploymentRevision) (h : core.Handler σ rpc.ApiDeployment),
      (∀ e s1, client.GetApiDeployment name.String s = (.error e, s1) →
        core.GetDeploymentRevision client name h s = ⟨some e, s1, []⟩) ∧
      (∀ x s1, client.GetApiDeployment name.String s = (.ok x, s1) →
        core.GetDeploymentRevision client name h s = ⟨(h x s1).1, (h x s1).2, [x]⟩)) ∧
    (∀ (name : names.Spec) (getContents : Bool) (h : core.Handler σ rpc.ApiSpec),
      (∀ e s1, client.GetApiSpec name.String s = (.error e, s1) →
        core.GetSpec client name getContents h s = ⟨some e, s1, []⟩) ∧
      (∀ x s1, client.GetApiSpec name.String s = (.ok x, s1) → getContents = false →
        core.GetSpec client name getContents h s = ⟨(h x s1).1, (h x s1).2, [x]⟩) ∧
      (∀ x s1 e y s2, client.GetApiSpec name.String s = (.ok x, s1) → getContents = true →
        core.FetchSpecContents client x s1 = (some e, y, s2) →
        core.GetSpec client name getContents h s = ⟨some e, s2, []⟩) ∧
      (∀ x s1 y s2, client.GetApiSpec name.String s = (.ok x, s1) → getContents = true →
        core.FetchSpecContents client x s1 = (none, y, s2) →
        core.GetSpec client name getContents h s = ⟨(h y s2).1, (h y s2).2, [y]⟩)) ∧
    (∀ (name : names.SpecRevision) (getContents : Bool) (h : core.Handler σ rpc.ApiSpec),
      (∀ e s1, client.GetApiSpec name.String s = (.error e, s1) →
        core.GetSpecRevision client name getContents h s = ⟨some e, s1, []⟩) ∧
      (∀ x s1, client.GetApiSpec name.String s = (.ok x, s1) → getContents = false →
        core.GetSpecRevision client name getContents h s = ⟨(h x s1).1, (h x s1).2, [x]⟩) ∧
      (∀ x s1 e y s2, client.GetApiSpec name.String s = (.ok x, s1) → getContents = true →
        core.FetchSpecContents client x s1 = (some e, y, s2) →
        core.GetSpecRevision client name getContents h s = ⟨some e, s2, []⟩) ∧
      (∀ x s1 y s2, client.GetApiSpec name.String s = (.ok x, s1) → getContents = true →
        core.FetchSpecContents client x s1 = (none, y, s2) →
        core.GetSpecRevision client name getContents h s = ⟨(h y s2).1, (h y s2).2, [y]⟩)) ∧
    (∀ (name : names.Artifact) (getContents : Bool) (h : core.Handler σ rpc.Artifact),
      (∀ e s1, client.GetArtifact name.String s = (.error e, s1) →
        core.GetArtifact client name getContents h s = ⟨some e, s1, []⟩) ∧
      (∀ x s1, client.GetArtifact name.String s = (.ok x, s1) → getContents = false →
        core.GetArtifact client name getContents h s = ⟨(h x s1).1, (h x s1).2, [x]⟩) ∧
      (∀ x s1 e y s2, client.GetArtifact name.String s = (.ok x, s1) → getContents = true →
        core.FetchArtifactContents client x s1 = (some e, y, s2) →
        core.GetArtifact client name getContents h s = ⟨some e, s2, []⟩) ∧
      (∀ x s1 y s2, client.GetArtifact name.String s = (.ok x, s1) → getContents = true →
        core.FetchArtifactContents client x s1 = (none, y, s2) →
        core.GetArtifact client name getContents h s = ⟨(h y s2).1, (h y s2).2, [y]⟩)) := by
  refine ⟨fun name h => ⟨?_, ?_⟩, fun name h => ⟨?_, ?_⟩, fun name h => ⟨?_, ?_⟩,
    fun name h => ⟨?_, ?_⟩, fun name h => ⟨?_, ?_⟩, fun name gc h => ⟨?_, ?_, ?_, ?_⟩,
    fun name gc h => ⟨?_, ?_, ?_, ?_⟩, fun name gc h => ⟨?_, ?_, ?_, ?_⟩⟩
  · intro e s1 hl; simp [core.GetProject, hl, core.failed]
  · intro x s1 hl; simp [core.GetProject, hl, core.invoke]
  · intro e s1 hl; simp [core.GetAPI, hl, core.failed]
  · intro x s1 hl; simp [core.GetAPI, hl, core.invoke]
  · intro e s1 hl; simp [core.GetVersion, hl, core.failed]
  · intro x s1 hl; simp [core.GetVersion, hl, core.invoke]
  · intro e s1 hl; simp [core.GetDeployment, hl, core.failed]
  · intro x s1 hl; simp [core.GetDeployment, hl, core.invoke]
  · intro e s1 hl; simp [core.GetDeploymentRevision, hl, core.failed]
  · intro x s1 hl; simp [core.GetDeploymentRevision, hl, core.invoke]
  · intro e s1 hl; simp [core.GetSpec, hl, core.failed]
  · intro x s1 hl hg; simp [core.GetSpec, hl, hg, core.specTail, core.invoke]
  · intro x s1 e y s2 hl hg hf; simp [core.GetSpec, hl, hg, core.specTail, hf, core.failed]
  · intro x s1 y s2 hl hg hf; simp [core.GetSpec, hl, hg, core.specTail, hf, core.invoke]
  · intro e s1 hl; simp [core.GetSpecRevision, hl, core.failed]
  · intro x s1 hl hg; simp [core.GetSpecRevision, hl, hg, core.specTail, core.invoke]
  · intro x s1 e y s2 hl hg hf
    simp [core.GetSpecRevision, hl, hg, core.specTail, hf, core.failed]
  · intro x s1 y s2 hl hg hf
    simp [core.GetSpecRevision, hl, hg, core.specTail, hf, core.invoke]
  · intro e s1 hl; simp [core.GetArtifact, hl, core.failed]
  · intro x s1 hl hg; simp [core.GetArtifact, hl, hg, core.invoke]
  · intro x s1 e y s2 hl hg hf; simp [core.GetArtifact, hl, hg, hf, core.failed]
  · intro x s1 y s2 hl hg hf; simp [core.GetArtifact, hl, hg, hf, core.invoke]

/-- Witness of C8: a failed api lookup, and a spec fetched with its contents. -/
theorem core.getters_return_lookup_error_or_handler_result_witness :
    core.GetAPI examples.client ⟨"demo", "petstore"⟩ examples.handler 0
      = ⟨some "not found", 1, []⟩ ∧
    core.GetSpec examples.client ⟨"demo", "petstore", "v1", "openapi"⟩ true examples.handler 0
      = ⟨none, 12,
          [⟨"projects/demo/locations/global/apis/petstore/versions/v1/specs/openapi",
            "openapi.yaml", "application/x.openapi", some [111, 112]⟩]⟩ :=
  ⟨((core.getters_return_lookup_error_or_handler_result examples.admin examples.client 0).2.1
      ⟨"demo", "petstore"⟩ examples.handler).1 "not found" 1 rfl,
    ((core.getters_return_lookup_error_or_handler_result examples.admin examples.client 0).2.2.2.2.2.1
      ⟨"demo", "petstore", "v1", "openapi"⟩ true examples.handler).2.2.2
      ⟨"projects/demo/locations/global/apis/petstore/versions/v1/specs/openapi",
        "openapi.yaml", "", none⟩ 1
      ⟨"projects/demo/locations/global/apis/petstore/versions/v1/specs/openapi",
        "openapi.yaml", "application/x.openapi", some [111, 112]⟩ 2
      rfl rfl rfl⟩

/-! ## `patch/version.go`: export and import of a version -/

/-- What `NewApiVersion` returns for a valid name when nothing is nested. -/
theorem patch.newApiVersion_flat_ok {σ : Type} (env : patch.Env σ) (message : rpc.ApiVersion)
    (w : patch.World σ) (P A V : String) (hP : names.validID P = true)
    (hA : names.validID A = true) (hV : names.validID V = true)
    (hname : message.Name
      = "projects/" ++ P ++ "/locations/global/apis/" ++ A ++ "/versions/" ++ V) :
    patch.NewApiVersion env message false w =
      (.ok
        { Header :=
            { ApiVersion := env.RegistryV1
              Kind := "Version"
              Metadata :=
                { Name := V
                  Parent := "apis/" ++ A
                  Labels := message.Labels
                  Annotations := message.Annotations } }
          Data :=
            { DisplayName := message.DisplayName
              Description := message.Description
              State := message.State
              PrimarySpec := message.PrimarySpec
              ApiSpecs := []
              Artifacts := [] } }, w) := by
  have hp : names.ParseVersion message.Name = .ok ⟨P, A, V⟩ := by
    rw [hname]; exact parseVersion_string ⟨P, A, V⟩ hP hA hV
  simp [patch.NewApiVersion, hp, patch.versionModel]
  exact exportableName_parent ⟨P, A, V⟩

/-- C9: export followed by import is the identity on a version. For a message `m` named
`projects/P/locations/global/apis/A/versions/V`, `NewApiVersion` without nesting returns a
model, and applying that model under `projects/P/locations/global` makes exactly one call,
an `UpdateApiVersion` with `AllowMissing` set whose version is `m`; the patch returns the
error of that call. -/
theorem patch.export_then_import_version {σ : Type} (env : patch.Env σ) (m : rpc.ApiVersion)
    (P A V : String) (hP : names.validID P = true) (hA : names.validID A = true)
    (hV : names.validID V = true)
    (hname : m.Name = "projects/" ++ P ++ "/locations/global/apis/" ++ A ++ "/versions/" ++ V)
    (w : patch.World σ) :
    ∃ model, patch.NewApiVersion env m false w = (.ok model, w) ∧
      ∀ w0 : patch.World σ,
        patch.applyApiVersionPatch env model ("projects/" ++ P ++ "/locations/global") w0 =
          (errorOf (env.client.UpdateApiVersion ⟨m, true⟩ w0.state).1,
            { state := (env.client.UpdateApiVersion ⟨m, true⟩ w0.state).2
              trace := w0.trace ++ [patch.Event.UpdateApiVersion ⟨m, true⟩] }) := by
  refine ⟨_, patch.newApiVersion_flat_ok env m w P A V hP hA hV hname, ?_⟩
  intro w0
  have hpar : "projects/" ++ P ++ "/locations/global" ++ "/" ++ ("apis/" ++ A)
      = (⟨P, A⟩ : names.Api).String := by
    apply String.ext
    simp [names.Api.String, String.data_append]
  have hne : ("apis/" ++ A) ≠ "" := by
    intro h
    have := congrArg String.data h
    simp [String.data_append] at this
  have hvn : patch.versionName ("projects/" ++ P ++ "/locations/global")
      { Name := V, Parent := "apis/" ++ A, Labels := m.Labels, Annotations := m.Annotations }
      = .ok ⟨P, A, V⟩ := by
    simp only [patch.versionName, hne, ne_eq, not_false_eq_true, if_true]
    rw [hpar, parseApi_string ⟨P, A⟩ hP hA]
    rfl
  have hreq : patch.updateRequest ⟨P, A, V⟩
      { Header :=
          { ApiVersion := env.RegistryV1
            Kind := "Version"
            Metadata :=
              { Name := V
                Parent := "apis/" ++ A
                Labels := m.Labels
                Annotations := m.Annotations } }
        Data :=
          { DisplayName := m.DisplayName
            Description := m.Description
            State := m.State
            PrimarySpec := m.PrimarySpec
            ApiSpecs := []
            Artifacts := [] } } = ⟨m, true⟩ := by
    cases m
    simp only [patch.updateRequest, names.Version.String] at *
    simp [hname]
  simp only [patch.applyApiVersionPatch, hvn, hreq, patch.record]
  cases hr : (env.client.UpdateApiVersion ⟨m, true⟩ w0.state).1 <;>
    simp [errorOf, patch.applySpecPatches, patch.applyArtifactPatches]

/-- Witness of C9: the version `v1` of `petstore` in the project `demo`. -/
theorem patch.export_then_import_version_witness :
    ∃ model, patch.NewApiVersion examples.env examples.version false ⟨0, []⟩
        = (.ok model, ⟨0, []⟩) ∧
      ∀ w0 : patch.World Nat,
        patch.applyApiVersionPatch examples.env model ("projects/" ++ "demo" ++ "/locations/global")
          w0 =
          (errorOf (examples.env.client.UpdateApiVersion ⟨examples.version, true⟩ w0.state).1,
            { state := (examples.env.client.UpdateApiVersion ⟨examples.version, true⟩ w0.state).2
              trace := w0.trace ++ [patch.Event.UpdateApiVersion ⟨examples.version, true⟩] }) :=
  patch.export_then_import_version examples.env examples.version "demo" "petstore" "v1"
    (by decide) (by decide) (by decide) (by decide) ⟨0, []⟩

/-- C10: for a message named `projects/P/locations/global/apis/A/versions/V`,
`NewApiVersion` without nesting makes no call and returns the model with `RegistryV1`,
kind `Version`, name `V`, parent `apis/A`, the fields of the message and no nested specs or
artifacts; for a name that does not parse as a version name it returns the parse error
and no model. -/
theorem patch.newApiVersion_flat_model {σ : Type} (env : patch.Env σ) (message : rpc.ApiVersion)
    (w : patch.World σ) :
    (∀ P A V : String, names.validID P = true → names.validID A = true →
      names.validID V = true →
      message.Name = "projects/" ++ P ++ "/locations/global/apis/" ++ A ++ "/versions/" ++ V →
      patch.NewApiVersion env message false w =
        (.ok
          { Header :=
              { ApiVersion := env.RegistryV1
                Kind := "Version"
                Metadata :=
                  { Name := V
                    Parent := "apis/" ++ A
                    Labels := message.Labels
                    Annotations := message.Annotations } }
            Data :=
              { DisplayName := message.DisplayName
                Description := message.Description
                State := message.State
                PrimarySpec := message.PrimarySpec
                ApiSpecs := []
                Artifacts := [] } }, w)) ∧
    (∀ e, names.ParseVersion message.Name = .error e →
      ∀ nested, patch.NewApiVersion env message nested w = (.error e, w)) := by
  constructor
  · intro P A V hP hA hV hn
    exact patch.newApiVersion_flat_ok env message w P A V hP hA hV hn
  · intro e he nested
    simp [patch.NewApiVersion, he]

/-- Witness of C10: the version `v1` of `petstore`, and a message named `apis/petstore`. -/
theorem patch.newApiVersion_flat_model_witness :
    patch.NewApiVersion examples.env examples.version false ⟨0, []⟩ =
      (.ok
        { Header :=
            { ApiVersion := "apigeeregistry/v1"
              Kind := "Version"
              Metadata :=
                { Name := "v1"
                  Parent := "apis/" ++ "petstore"
                  Labels := [("team", "pets")]
                  Annotations := [] } }
          Data :=
            { DisplayName := "Version one"
              Description := "The first version"
              State := "production"
              PrimarySpec := "openapi"
              ApiSpecs := []
              Artifacts := [] } }, ⟨0, []⟩) ∧
    patch.NewApiVersion examples.env { examples.version with Name := "apis/petstore" } true
        ⟨0, []⟩ = (.error "invalid version name apis/petstore", ⟨0, []⟩) :=
  ⟨(patch.newApiVersion_flat_model examples.env examples.version ⟨0, []⟩).1
      "demo" "petstore" "v1" (by decide) (by decide) (by decide) (by decide),
    (patch.newApiVersion_flat_model examples.env
        { examples.version with Name := "apis/petstore" } ⟨0, []⟩).2
      "invalid version name apis/petstore" rfl true⟩

/-! ## The manifest controller -/

namespace controller

theorem collectionKind_no_dollar (word : String) (k : Kind)
    (h : collectionKind word = some k) : '$' ∉ word.data := by
  unfold collectionKind at h
  repeat' split at h
  all_goals first
    | (rename_i hw; rw [hw]; decide)
    | cases h

theorem parseSegments_no_dollar (l : List String) :
    ∀ segs, parseSegments l = .ok segs → ∀ x ∈ l, '$' ∉ x.data := by
  induction l using parseSegments.induct with
  | case1 => intro segs _ x hx; cases hx
  | case2 y => intro segs h; simp [parseSegments] at h
  | case3 word id rest hk =>
    intro segs h
    simp [parseSegments, hk] at h
  | case4 word id rest k hk hbad =>
    intro segs h
    simp [parseSegments, hk, hbad] at h
  | case5 word id rest k hk hgood e he ih =>
    intro segs h
    simp [parseSegments, hk, hgood, he] at h
  | case6 word id rest k hk hgood segs1 hs ih =>
    intro segs h x hx
    simp only [List.mem_cons] at hx
    rcases hx with hx | hx | hx
    · rw [hx]; exact collectionKind_no_dollar word k hk
    · rw [hx]
      intro hc
      exact hgood (Or.inr hc)
    · exact ih segs1 hs x hx

theorem parseSegments_error (l : List String) :
    ∀ e, parseSegments l = .error e → e = .InvalidPattern := by
  induction l using parseSegments.induct with
  | case1 => intro e h; simp [parseSegments] at h
  | case2 y => intro e h; simp [parseSegments] at h; exact h.symm
  | case3 word id rest hk =>
    intro e h
    simp [parseSegments, hk] at h; exact h.symm
  | case4 word id rest k hk hbad =>
    intro e h
    simp [parseSegments, hk, hbad] at h; exact h.symm
  | case5 word id rest k hk hgood e1 he ih =>
    intro e h
    simp [parseSegments, hk, hgood, he] at h
    rw [← h]; exact ih e1 he
  | case6 word id rest k hk hgood segs1 hs ih =>
    intro e h
    simp [parseSegments, hk, hgood, hs] at h

/-- Every error of `Parse` is an `InvalidPattern`. -/
theorem parse_error (pattern : String) (e : ErrorKind) (h : Parse pattern = .error e) :
    e = .InvalidPattern := by
  unfold Parse at h
  repeat' split at h
  all_goals first
    | (cases h; rfl)
    | (cases h; rename_i he; exact parseSegments_error _ _ he)
    | cases h

/-- A pattern with a piece `$resource.<keyword>` for an unknown keyword does not parse. -/
theorem parse_unknown_keyword (pattern keyword : String)
    (hkw : keywordKind keyword = none) (hin : "$resource." ++ keyword ∈ pieces pattern) :
    Parse pattern = .error .InvalidPattern := by
  have hdollar : '$' ∈ ("$resource." ++ keyword).data := by
    simp [String.data_append]
  cases hP : Parse pattern with
  | error e => rw [parse_error _ _ hP]
  | ok p =>
    exfalso
    unfold Parse at hP
    split at hP
    · cases hP
    · rename_i first rest hp
      rw [hp] at hin
      split at hP
      · rename_i kw hsp
        split at hP
        · cases hP
        · rename_i k hk
          split at hP
          · cases hP
          · rename_i segs hsegs
            simp only [List.mem_cons] at hin
            rcases hin with hin | hin
            · rw [← hin] at hsp
              have e : ("$resource." ++ keyword).data
                  = "$resource".data ++ ('.' :: keyword.data) := by
                simp [String.data_append]
              rw [e, stripPrefix?_append] at hsp
              simp only [Option.some.injEq, List.cons.injEq, true_and] at hsp
              rw [← hsp] at hk
              rw [hkw] at hk
              cases hk
            · exact parseSegments_no_dollar _ _ hsegs _ hin hdollar
      · cases hP
      · split at hP
        · cases hP
        · rename_i segs hsegs
          exact parseSegments_no_dollar _ _ hsegs _ hin hdollar

theorem process_error_of_validate (store : Store) (projectID : String)
    (entry : GeneratedResource) (e : ErrorKind) (h : e ∈ Validate projectID entry) :
    ∃ e1, processManifestResource store projectID entry = .error e1 := by
  unfold processManifestResource
  cases hv : Validate projectID entry with
  | nil => rw [hv] at h; cases h
  | cons e1 rest => exact ⟨e1, rfl⟩

theorem validate_of_target (projectID : String) (entry : GeneratedResource) (e : ErrorKind)
    (h : targetShape projectID entry.Pattern = .error e) : e ∈ Validate projectID entry := by
  simp [Validate, h]

theorem validate_of_dependency (projectID : String) (entry : GeneratedResource)
    (d : Dependency) (e : ErrorKind) (hd : d ∈ entry.Dependencies)
    (h : e ∈ checkDependency (targetShape projectID entry.Pattern).toOption d) :
    e ∈ Validate projectID entry := by
  simp only [Validate, List.mem_append, List.mem_flatten, List.mem_map]
  exact Or.inl (Or.inr ⟨_, ⟨d, hd, rfl⟩, h⟩)

theorem validate_of_part (projectID : String) (entry : GeneratedResource)
    (part : Part) (e : ErrorKind) (hw : part ∈ parts entry.Action)
    (h : e ∈ checkActionPart (targetShape projectID entry.Pattern).toOption
        (parsedDependencies entry.Dependencies) part) :
    e ∈ Validate projectID entry := by
  simp only [Validate, List.mem_append, List.mem_flatten, List.mem_map]
  exact Or.inr ⟨_, ⟨part, hw, rfl⟩, h⟩

theorem partsFrom_none_cons (c : Char) (cs : List Char) :
    partsFrom none (c :: cs) =
      if (stripPrefix? "$resource".data (c :: cs)).isSome = true then partsFrom (some [c]) cs
      else .text c :: partsFrom none cs := rfl

theorem partsFrom_some_cons (expr : List Char) (c : Char) (cs : List Char) :
    partsFrom (some expr) (c :: cs) =
      if referenceChar c = true then partsFrom (some (expr ++ [c])) cs
      else if (stripPrefix? "$resource".data (c :: cs)).isSome = true then
        .reference (String.mk expr) :: partsFrom (some [c]) cs
      else .reference (String.mk expr) :: .text c :: partsFrom none cs := rfl

/-- Characters of a pattern are added to the expression that is being read. -/
theorem partsFrom_run (run : List Char) (hrun : ∀ c ∈ run, referenceChar c = true) :
    ∀ (expr rest : List Char),
      partsFrom (some expr) (run ++ rest) = partsFrom (some (expr ++ run)) rest := by
  induction run with
  | nil => intro expr rest; simp
  | cons c cs ih =>
    intro expr rest
    have hc := hrun c (List.mem_cons_self _ _)
    rw [List.cons_append, partsFrom_some_cons, if_pos hc,
      ih (fun x hx => hrun x (List.mem_cons_of_mem _ hx))]
    simp

/-- The expression that is being read ends where the characters of a pattern end. -/
theorem partsFrom_stop (expr rest : List Char)
    (h : ∀ c, rest.head? = some c → referenceChar c = false) :
    ∃ more, partsFrom (some expr) rest = .reference (String.mk expr) :: more := by
  cases rest with
  | nil => exact ⟨[], rfl⟩
  | cons c cs =>
    have hc : ¬ referenceChar c = true := by
      rw [h c rfl]
      decide
    rw [partsFrom_some_cons, if_neg hc]
    split
    · exact ⟨_, rfl⟩
    · exact ⟨_, rfl⟩

/-- The expression that is being read runs as far as the characters of a pattern go. -/
theorem partsFrom_expr (expr rest : List Char) :
    ∃ more, partsFrom (some expr) rest =
      .reference (String.mk (expr ++ rest.takeWhile referenceChar)) :: more := by
  have h1 := partsFrom_run (rest.takeWhile referenceChar)
    (fun c hc => List.mem_takeWhile_imp hc) expr (rest.dropWhile referenceChar)
  rw [List.takeWhile_append_dropWhile] at h1
  rw [h1]
  apply partsFrom_stop
  intro c hc
  have h2 := List.head?_dropWhile_not referenceChar rest
  rw [hc] at h2
  simpa using h2

/-- Every occurrence of `$resource` in a template is read as a back-reference expression,
whatever stands before it. -/
theorem reference_mem_partsFrom (pre rest : List Char) :
    ∀ mode, Part.reference (String.mk ("$resource".data ++ rest.takeWhile referenceChar))
      ∈ partsFrom mode (pre ++ "$resource".data ++ rest) := by
  induction pre with
  | nil =>
    intro mode
    have hd : [] ++ "$resource".data ++ rest = '$' :: ("resource".data ++ rest) := rfl
    have hs : (stripPrefix? "$resource".data ('$' :: ("resource".data ++ rest))).isSome
        = true := by
      have h0 := stripPrefix?_append "$resource".data rest
      have hd0 : "$resource".data ++ rest = '$' :: ("resource".data ++ rest) := rfl
      rw [hd0] at h0
      rw [h0]
      rfl
    have key : ∃ more, partsFrom (some ['$']) ("resource".data ++ rest) =
        .reference (String.mk ("$resource".data ++ rest.takeWhile referenceChar)) :: more := by
      rw [partsFrom_run "resource".data (by decide)]
      exact partsFrom_expr (['$'] ++ "resource".data) rest
    obtain ⟨more, hk⟩ := key
    rw [hd]
    cases mode with
    | none =>
      rw [partsFrom_none_cons, if_pos hs, hk]
      exact List.mem_cons_self _ _
    | some expr =>
      have hc : ¬ referenceChar '$' = true := by decide
      rw [partsFrom_some_cons, if_neg hc, if_pos hs, hk]
      exact List.mem_cons_of_mem _ (List.mem_cons_self _ _)
  | cons c cs ih =>
    intro mode
    have hd : c :: cs ++ "$resource".data ++ rest = c :: (cs ++ "$resource".data ++ rest) := rfl
    rw [hd]
    cases mode with
    | none =>
      rw [partsFrom_none_cons]
      split
      · exact ih _
      · exact List.mem_cons_of_mem _ (ih _)
    | some expr =>
      rw [partsFrom_some_cons]
      split
      · exact ih _
      · split
        · exact List.mem_cons_of_mem _ (ih _)
        · exact List.mem_cons_of_mem _ (List.mem_cons_of_mem _ (ih _))

/-- An occurrence of `$resource` in the Action template is one of its parts. -/
theorem reference_mem_parts (action : String) (pre rest : List Char)
    (h : action.data = pre ++ "$resource".data ++ rest) :
    Part.reference (String.mk ("$resource".data ++ rest.takeWhile referenceChar))
      ∈ parts action := by
  rw [parts, h]
  exact reference_mem_partsFrom pre rest none

theorem mem_parsedDependencies (deps : List Dependency) (p : ParsedPattern)
    (h : p ∈ parsedDependencies deps) : ∃ d ∈ deps, Parse d.Pattern = .ok p := by
  induction deps with
  | nil => cases h
  | cons d rest ih =>
    unfold parsedDependencies at h
    split at h
    · obtain ⟨d1, hd1, hp⟩ := ih h
      exact ⟨d1, List.mem_cons_of_mem _ hd1, hp⟩
    · rename_i q hq
      simp only [List.mem_cons] at h
      rcases h with h | h
      · exact ⟨d, List.mem_cons_self _ _, by rw [h]; exact hq⟩
      · obtain ⟨d1, hd1, hp⟩ := ih h
        exact ⟨d1, List.mem_cons_of_mem _ hd1, hp⟩

theorem resolveDependencies_error (store : Store) (projectID : String)
    (resource : ResourceName) (deps : List Dependency) (d : Dependency) (e : ErrorKind)
    (hd : d ∈ deps) (h : resolveDependency store projectID resource d = .error e) :
    ∃ e1, resolveDependencies store projectID resource deps = .error e1 := by
  induction deps with
  | nil => cases hd
  | cons d0 rest ih =>
    unfold resolveDependencies
    cases h0 : resolveDependency store projectID resource d0 with
    | error e0 => exact ⟨e0, rfl⟩
    | ok found =>
      simp only [List.mem_cons] at hd
      rcases hd with hd | hd
      · rw [hd, h0] at h; cases h
      · obtain ⟨e1, he1⟩ := ih hd
        exact ⟨e1, by simp [he1]⟩

theorem buildActions_error (store : Store) (projectID : String) (entry : GeneratedResource)
    (artifactID : String) (targets : List ResourceName) (resource : ResourceName)
    (e : ErrorKind) (hr : resource ∈ targets)
    (h : buildAction store projectID entry artifactID resource = .error e) :
    ∃ e1, buildActions store projectID entry artifactID targets = .error e1 := by
  induction targets with
  | nil => cases hr
  | cons r0 rest ih =>
    unfold buildActions
    cases h0 : buildAction store projectID entry artifactID r0 with
    | error e0 => exact ⟨e0, rfl⟩
    | ok a =>
      simp only [List.mem_cons] at hr
      rcases hr with hr | hr
      · rw [hr, h0] at h; cases h
      · obtain ⟨e1, he1⟩ := ih hr
        exact ⟨e1, by simp [he1]⟩

/-- The first piece of a text that starts with characters other than the separator. -/
theorem splitOn_append_of_not_mem (c : Char) (x y : List Char) (h : c ∉ x) :
    ∃ p ps, splitOn c y = p :: ps ∧ splitOn c (x ++ y) = (x ++ p) :: ps := by
  induction x with
  | nil =>
    cases hs : splitOn c y with
    | nil => exact absurd hs (splitOn_ne_nil c y)
    | cons p ps => exact ⟨p, ps, rfl, by simpa using hs⟩
  | cons a as ih =>
    have ha : a ≠ c := fun e => h (by simp [e])
    have has : c ∉ as := fun e => h (by simp [e])
    obtain ⟨p, ps, h1, h2⟩ := ih has
    exact ⟨p, ps, h1, by simp [splitOn, ha, h2]⟩

/-- A `$resource` that is not followed by `.` is not a back-reference to a component. -/
theorem parse_bare (run : List Char) (h : run.head? ≠ some '.') :
    Parse (String.mk ("$resource".data ++ run)) = .error .InvalidPattern := by
  obtain ⟨p, ps, h1, h2⟩ := splitOn_append_of_not_mem '/' "$resource".data run (by decide)
  obtain ⟨r, hr⟩ := splitOn_head _ _ _ _ h1
  have hp : p.head? ≠ some '.' := by
    intro hc
    apply h
    rw [hr]
    cases p with
    | nil => cases hc
    | cons a as => simpa using hc
  simp only [Parse, pieces, h2, List.map_cons, stripPrefix?_append]
  cases p with
  | nil => rfl
  | cons a as =>
    have ha : a ≠ '.' := by
      intro e
      apply hp
      rw [e]
      rfl
    split
    · rename_i keyword heq
      simp only [Option.some.injEq, List.cons.injEq] at heq
      exact absurd heq.1 ha
    · rfl
    · rename_i heq
      cases heq

/-- The keywords of the component kinds. -/
theorem keywordKind_some (keyword : String) (k : Kind) (h : keywordKind keyword = some k) :
    keyword ∈ ["project", "location", "api", "version", "spec", "deployment", "artifact"] ∧
    Parse (String.mk ("$resource".data ++ '.' :: keyword.data)) = .ok ⟨some k, []⟩ := by
  unfold keywordKind at h
  repeat' split at h
  all_goals first
    | (rename_i hw; cases h; subst hw; exact ⟨by decide, rfl⟩)
    | cases h

end controller

/-- C1: a manifest entry with a dependency whose back-reference names a component kind
that the target pattern does not offer is rejected with an error, whatever the store
holds. The components a target offers are those of the resource the artifact is generated
for. -/
theorem controller.absent_dependency_reference_fails (store : controller.Store)
    (projectID : String) (entry : controller.GeneratedResource)
    (d : controller.Dependency) (p : controller.ParsedPattern) (k : controller.Kind)
    (hd : d ∈ entry.Dependencies) (hp : controller.Parse d.Pattern = .ok p)
    (hk : p.ref = some k)
    (habsent : ∀ shape, controller.targetShape projectID entry.Pattern = .ok shape →
      k ∉ shape.anchor.map Prod.fst) :
    ∃ e, controller.processManifestResource store projectID entry = .error e := by
  cases hs : controller.targetShape projectID entry.Pattern with
  | error e =>
    exact controller.process_error_of_validate store projectID entry e
      (controller.validate_of_target _ _ _ hs)
  | ok shape =>
    apply controller.process_error_of_validate store projectID entry .UnresolvedReference
    apply controller.validate_of_dependency projectID entry d _ hd
    simp [controller.checkDependency, hp, hk, hs, Except.toOption, habsent shape hs]

/-- C2: a pattern with a back-reference whose keyword is not a known component kind fails
to parse with `InvalidPattern`, and a manifest entry that uses it as a dependency is
rejected with an error. -/
theorem controller.unknown_keyword_fails (keyword : String)
    (hkw : controller.keywordKind keyword = none) :
    (∀ pattern : String, "$resource." ++ keyword ∈ pieces pattern →
      controller.Parse pattern = .error .InvalidPattern) ∧
    (∀ (store : controller.Store) (projectID : String) (entry : controller.GeneratedResource)
      (d : controller.Dependency), d ∈ entry.Dependencies →
      "$resource." ++ keyword ∈ pieces d.Pattern →
      ∃ e, controller.processManifestResource store projectID entry = .error e) := by
  refine ⟨fun pattern hin => controller.parse_unknown_keyword pattern keyword hkw hin, ?_⟩
  intro store projectID entry d hd hin
  apply controller.process_error_of_validate store projectID entry .InvalidPattern
  apply controller.validate_of_dependency projectID entry d _ hd
  simp [controller.checkDependency, controller.parse_unknown_keyword _ keyword hkw hin]

/-- C3 does not hold as it is written: the dependency pattern of `literalDependency` has no
back-reference, so for every target it resolves to the name of the artifact `lint-gnostic`
of version `1.0.0`, which the empty store does not hold; but the expansion of the target
pattern lists no target in the empty store, no dependency is looked up, and the entry
resolves to no action without an error. The same happens for the third scenario of the
test against the seeded store when the project passed is not the seeded one. -/
theorem controller.nonexistent_dependency_without_target :
    (∀ resource : controller.ResourceName,
      ∃ p pattern name,
        controller.Parse "apis/petstore/versions/1.0.0/artifacts/lint-gnostic" = .ok p ∧
        controller.Resolve "demo" p resource = .ok pattern ∧
        controller.concrete? pattern = some name ∧
        name ∉ ([] : controller.Store)) ∧
    controller.processManifestResource [] "demo" examples.literalDependency = .ok [] ∧
    controller.processManifestResource (examples.seeded "controller-test")
      "controller-error-demo" examples.nonexistentDependency = .ok [] := by
  refine ⟨fun resource => ⟨⟨none, [(.api, .literal "petstore"), (.version, .literal "1.0.0"),
      (.artifact, .literal "lint-gnostic")]⟩, _, _, rfl, rfl, rfl, by simp⟩, rfl, rfl⟩

/-- C3, amended: when, for some target that the expansion of the target pattern lists in
the store, a dependency pattern resolves after substitution to a concrete name that is not
in the store, the manifest entry is rejected with an error. -/
theorem controller.nonexistent_dependency_fails (store : controller.Store)
    (projectID : String) (entry : controller.GeneratedResource)
    (shape : controller.TargetShape) (resource : controller.ResourceName)
    (d : controller.Dependency) (p : controller.ParsedPattern)
    (pattern : List (controller.Kind × controller.Segment)) (name : controller.ResourceName)
    (hshape : controller.targetShape projectID entry.Pattern = .ok shape)
    (hres : resource ∈ controller.ListMatching store shape.anchor)
    (hd : d ∈ entry.Dependencies) (hp : controller.Parse d.Pattern = .ok p)
    (hsub : controller.Resolve projectID p resource = .ok pattern)
    (hname : controller.concrete? pattern = some name) (hmissing : name ∉ store) :
    ∃ e, controller.processManifestResource store projectID entry = .error e := by
  cases hv : controller.Validate projectID entry with
  | cons e rest =>
    exact controller.process_error_of_validate store projectID entry e (by simp [hv])
  | nil =>
    have h1 : controller.resolveDependency store projectID resource d = .error .NotFound := by
      simp [controller.resolveDependency, hp, hsub, hname, hmissing]
    obtain ⟨e1, h2⟩ := controller.resolveDependencies_error store projectID resource
      entry.Dependencies d _ hd h1
    have h3 : controller.buildAction store projectID entry shape.artifactID resource
        = .error e1 := by
      simp [controller.buildAction, h2]
    obtain ⟨e2, h4⟩ := controller.buildActions_error store projectID entry shape.artifactID
      _ resource e1 hres h3
    exact ⟨e2, by simp [controller.processManifestResource, hv, hshape, h4]⟩

/-- C4: a manifest entry is rejected with an error whenever its Action template contains,
at any place, a back-reference to a component that neither the target nor a declared
dependency pattern offers, or a `$resource` without a kind. Every occurrence of `$resource`
in the template is read as a back-reference expression, which runs as far as the
characters of a pattern go: the entry is rejected when the expression names an absent
component, when it does not parse, and so when `$resource` is not followed by `.`; in
particular when the template contains `$resource.<kind>` for an absent kind and the
characters of a pattern end there. -/
theorem controller.unresolved_action_reference_fails (store : controller.Store)
    (projectID : String) (entry : controller.GeneratedResource) :
    (∀ (pre rest : List Char) (p : controller.ParsedPattern) (k : controller.Kind),
      entry.Action.data = pre ++ "$resource".data ++ rest →
      controller.Parse
        (String.mk ("$resource".data ++ rest.takeWhile controller.referenceChar)) = .ok p →
      p.ref = some k →
      (∀ shape, controller.targetShape projectID entry.Pattern = .ok shape →
        k ∉ shape.anchor.map Prod.fst ∧
        ∀ d ∈ entry.Dependencies, ∀ pd, controller.Parse d.Pattern = .ok pd →
          k ∉ controller.patternKinds (shape.anchor.map Prod.fst) pd) →
      ∃ e, controller.processManifestResource store projectID entry = .error e) ∧
    (∀ (pre rest : List Char) (e0 : controller.ErrorKind),
      entry.Action.data = pre ++ "$resource".data ++ rest →
      controller.Parse
        (String.mk ("$resource".data ++ rest.takeWhile controller.referenceChar))
          = .error e0 →
      ∃ e, controller.processManifestResource store projectID entry = .error e) ∧
    (∀ (pre rest : List Char),
      entry.Action.data = pre ++ "$resource".data ++ rest → rest.head? ≠ some '.' →
      ∃ e, controller.processManifestResource store projectID entry = .error e) ∧
    (∀ (pre keyword post : String) (k : controller.Kind),
      entry.Action = pre ++ "$resource." ++ keyword ++ post →
      controller.keywordKind keyword = some k →
      (∀ c, post.data.head? = some c → controller.referenceChar c = false) →
      (∀ shape, controller.targetShape projectID entry.Pattern = .ok shape →
        k ∉ shape.anchor.map Prod.fst ∧
        ∀ d ∈ entry.Dependencies, ∀ pd, controller.Parse d.Pattern = .ok pd →
          k ∉ controller.patternKinds (shape.anchor.map Prod.fst) pd) →
      ∃ e, controller.processManifestResource store projectID entry = .error e) := by
  have habs : ∀ (expr : String) (p : controller.ParsedPattern) (k : controller.Kind),
      controller.Part.reference expr ∈ controller.parts entry.Action →
      controller.Parse expr = .ok p → p.ref = some k →
      (∀ shape, controller.targetShape projectID entry.Pattern = .ok shape →
        k ∉ shape.anchor.map Prod.fst ∧
        ∀ d ∈ entry.Dependencies, ∀ pd, controller.Parse d.Pattern = .ok pd →
          k ∉ controller.patternKinds (shape.anchor.map Prod.fst) pd) →
      ∃ e, controller.processManifestResource store projectID entry = .error e := by
    intro expr p k hw hp hk habsent
    cases hs : controller.targetShape projectID entry.Pattern with
    | error e =>
      exact controller.process_error_of_validate store projectID entry e
        (controller.validate_of_target _ _ _ hs)
    | ok shape =>
      obtain ⟨h1, h2⟩ := habsent shape hs
      apply controller.process_error_of_validate store projectID entry .UnresolvedReference
      apply controller.validate_of_part projectID entry (.reference expr) _ hw
      have hno : ¬ ∃ d ∈ controller.parsedDependencies entry.Dependencies,
          k ∈ controller.patternKinds (shape.anchor.map Prod.fst) d := by
        rintro ⟨pd, hpd, hkd⟩
        obtain ⟨d, hd, hpp⟩ := controller.mem_parsedDependencies _ _ hpd
        exact h2 d hd pd hpp hkd
      have hno1 : ¬ (k ∈ shape.anchor.map Prod.fst ∨
          ∃ d ∈ controller.parsedDependencies entry.Dependencies,
            k ∈ controller.patternKinds (shape.anchor.map Prod.fst) d) := by
        rintro (h | h)
        · exact h1 h
        · exact hno h
      simp only [controller.checkActionPart, hp, hk, hs, Except.toOption]
      rw [if_neg hno1]
      simp
  have hbad : ∀ (expr : String) (e0 : controller.ErrorKind),
      controller.Part.reference expr ∈ controller.parts entry.Action →
      controller.Parse expr = .error e0 →
      ∃ e, controller.processManifestResource store projectID entry = .error e := by
    intro expr e0 hw hp
    apply controller.process_error_of_validate store projectID entry e0
    apply controller.validate_of_part projectID entry (.reference expr) _ hw
    simp [controller.checkActionPart, hp]
  refine ⟨?_, ?_, ?_, ?_⟩
  · intro pre rest p k hocc hp hk habsent
    exact habs _ p k (controller.reference_mem_parts entry.Action pre rest hocc) hp hk habsent
  · intro pre rest e0 hocc hp
    exact hbad _ e0 (controller.reference_mem_parts entry.Action pre rest hocc) hp
  · intro pre rest hocc hdot
    apply hbad _ .InvalidPattern (controller.reference_mem_parts entry.Action pre rest hocc)
    apply controller.parse_bare
    intro hc
    apply hdot
    cases rest with
    | nil => cases hc
    | cons a as =>
      simp only [List.takeWhile] at hc
      split at hc
      · simpa using hc
      · cases hc
  · intro pre keyword post k haction hkw hpost habsent
    obtain ⟨hmem, hparse⟩ := controller.keywordKind_some keyword k hkw
    have hocc : entry.Action.data =
        pre.data ++ "$resource".data ++ ('.' :: keyword.data ++ post.data) := by
      rw [haction]
      simp [String.data_append]
    have hall : ∀ c ∈ '.' :: keyword.data, controller.referenceChar c = true := by
      simp only [List.mem_cons, List.mem_singleton, List.not_mem_nil, or_false] at hmem
      rcases hmem with h | h | h | h | h | h | h <;> subst h <;> decide
    have htake : ('.' :: keyword.data ++ post.data).takeWhile controller.referenceChar
        = '.' :: keyword.data := by
      have h1 : (('.' :: keyword.data) ++ post.data).takeWhile controller.referenceChar
          = ('.' :: keyword.data) ++ post.data.takeWhile controller.referenceChar :=
        List.takeWhile_append_of_pos hall
      have h2 : post.data.takeWhile controller.referenceChar = [] := by
        cases hpd : post.data with
        | nil => rfl
        | cons c cs =>
          have hc := hpost c (by rw [hpd]; rfl)
          simp [List.takeWhile, hc]
      rw [h2, List.append_nil] at h1
      exact h1
    have hin := controller.reference_mem_parts entry.Action pre.data
      ('.' :: keyword.data ++ post.data) hocc
    rw [htake] at hin
    exact habs _ ⟨some k, []⟩ k hin hparse rfl habsent

/-- Witness of C1: the first scenario of the test, against the empty store. -/
theorem controller.absent_dependency_reference_fails_witness :
    ∃ e, controller.processManifestResource [] "controller-test" examples.nonExistingReference
      = .error e :=
  controller.absent_dependency_reference_fails [] "controller-test"
    examples.nonExistingReference ⟨"$resource.spec"⟩ ⟨some .spec, []⟩ .spec
    (List.mem_cons_self _ _) rfl rfl
    (by
      intro shape h
      have hs : controller.targetShape "controller-test" examples.nonExistingReference.Pattern
          = .ok ⟨controller.scope "controller-test" ++ [(.api, .wildcard), (.version, .wildcard)],
              "lintstats-gnostic"⟩ := rfl
      rw [hs] at h
      cases h
      decide)

/-- Witness of C2: the second scenario of the test, against the seeded store. -/
theorem controller.unknown_keyword_fails_witness :
    controller.Parse "$resource.apispec" = .error .InvalidPattern ∧
    ∃ e, controller.processManifestResource (examples.seeded "controller-test")
      "controller-test" examples.incorrectKeyword = .error e :=
  ⟨(controller.unknown_keyword_fails "apispec" (by decide)).1 "$resource.apispec" (by decide),
    (controller.unknown_keyword_fails "apispec" (by decide)).2
      (examples.seeded "controller-test") "controller-test" examples.incorrectKeyword
      ⟨"$resource.apispec"⟩ (List.mem_cons_self _ _) (by decide)⟩

/-- Witness of C3: the third scenario of the test, against the seeded store; the missing
name is the artifact `lint-gnostic` of version `1.0.0`. -/
theorem controller.nonexistent_dependency_fails_witness :
    ∃ e, controller.processManifestResource (examples.seeded "controller-test")
      "controller-test" examples.nonexistentDependency = .error e :=
  controller.nonexistent_dependency_fails (examples.seeded "controller-test")
    "controller-test" examples.nonexistentDependency
    ⟨controller.scope "controller-test"
        ++ [(controller.Kind.api, controller.Segment.wildcard),
            (controller.Kind.version, controller.Segment.wildcard)],
      "lintstats-gnostic"⟩
    (examples.petstoreVersion "controller-test" "1.0.0")
    ⟨"$resource.version/artifacts/lint-gnostic"⟩
    ⟨some controller.Kind.version,
      [(controller.Kind.artifact, controller.Segment.literal "lint-gnostic")]⟩
    (controller.literalPattern (examples.petstoreVersion "controller-test" "1.0.0")
      ++ [(controller.Kind.artifact, controller.Segment.literal "lint-gnostic")])
    (examples.petstoreVersion "controller-test" "1.0.0"
      ++ [(controller.Kind.artifact, "lint-gnostic")])
    rfl (by decide) (List.mem_cons_self _ _) rfl rfl rfl (by decide)

/-- Witness of C4: the fourth scenario of the test, the same entry with the reference
inside the word `--in=$resource.artifact`, the last scenario of the test with its bare
`$resource`, and a reference that does not parse, against the empty store. -/
theorem controller.unresolved_action_reference_fails_witness :
    (∃ e, controller.processManifestResource [] "controller-test"
      examples.incorrectActionReference = .error e) ∧
    (∃ e, controller.processManifestResource [] "controller-test"
      examples.embeddedActionReference = .error e) ∧
    (∃ e, controller.processManifestResource [] "controller-test"
      examples.missingReference = .error e) ∧
    (∃ e, controller.processManifestResource [] "controller-test"
      { examples.incorrectActionReference with
        Action := "registry compute lintstats x=$resource.apispec/y" } = .error e) := by
  have habsent : ∀ (action : String) shape,
      controller.targetShape "controller-test"
        "apis/-/versions/-/specs/-/artifacts/lintstats-gnostic" = .ok shape →
      controller.Kind.artifact ∉ shape.anchor.map Prod.fst ∧
      ∀ d ∈ [(⟨"$resource.spec"⟩ : controller.Dependency)], ∀ pd,
        controller.Parse d.Pattern = .ok pd →
        controller.Kind.artifact ∉ controller.patternKinds (shape.anchor.map Prod.fst) pd := by
    intro _ shape h
    have hs : controller.targetShape "controller-test"
        "apis/-/versions/-/specs/-/artifacts/lintstats-gnostic"
        = .ok ⟨controller.scope "controller-test"
            ++ [(.api, .wildcard), (.version, .wildcard), (.spec, .wildcard)],
            "lintstats-gnostic"⟩ := rfl
    rw [hs] at h
    cases h
    refine ⟨by decide, ?_⟩
    intro d hd pd hpd
    simp only [List.mem_singleton] at hd
    rw [hd] at hpd
    have hq : controller.Parse "$resource.spec" = .ok ⟨some .spec, []⟩ := rfl
    rw [hq] at hpd
    cases hpd
    decide
  exact ⟨(controller.unresolved_action_reference_fails [] "controller-test"
      examples.incorrectActionReference).1 "registry compute lintstats ".data
      ".artifact --linter gnostic".data ⟨some .artifact, []⟩ .artifact rfl rfl rfl
      (habsent ""),
    (controller.unresolved_action_reference_fails [] "controller-test"
      examples.embeddedActionReference).2.2.2 "registry compute lintstats --in=" "artifact"
      " --linter gnostic" .artifact rfl rfl (by decide) (habsent ""),
    (controller.unresolved_action_reference_fails [] "controller-test"
      examples.missingReference).2.2.1 "registry compute summary ".data [] rfl (by decide),
    (controller.unresolved_action_reference_fails [] "controller-test"
      { examples.incorrectActionReference with
        Action := "registry compute lintstats x=$resource.apispec/y" }).2.1
      "registry compute lintstats x=".data ".apispec/y".data .InvalidPattern rfl rfl⟩

theorem controller.lintstats_shape (projectID : String) :
    targetShape projectID examples.lintstats.Pattern
      = .ok ⟨scope projectID ++ [(.api, .wildcard), (.version, .wildcard)], "lintstats-gnostic"⟩ := by
  have hp : Parse examples.lintstats.Pattern
      = .ok ⟨none, [(.api, .wildcard), (.version, .wildcard), (.artifact, .literal "lintstats-gnostic")]⟩ := rfl
  simp [targetShape, hp, ordered, childOf]

theorem controller.lintstats_parts :
    parts examples.lintstats.Action =
      "compute lintstats ".data.map Part.text ++ Part.reference "$resource.version"
        :: " --linter gnostic".data.map Part.text := by
  decide

theorem controller.checkActionPart_text (shape : Option TargetShape)
    (deps : List ParsedPattern) (cs : List Char) :
    ((cs.map Part.text).map (checkActionPart shape deps)).flatten = [] := by
  induction cs with
  | nil => rfl
  | cons c cs ih => simp [checkActionPart]

theorem controller.substituteParts_text (resource : ResourceName)
    (dependencies : List ResourceName) (cs : List Char) (rest : List Part) :
    substituteParts resource dependencies (cs.map Part.text ++ rest) =
      match substituteParts resource dependencies rest with
      | .error e => .error e
      | .ok more => .ok (cs ++ more) := by
  induction cs with
  | nil => cases h : substituteParts resource dependencies rest <;> simp [h]
  | cons c cs ih =>
    have e : (c :: cs).map Part.text ++ rest = Part.text c :: (cs.map Part.text ++ rest) := rfl
    rw [e, substituteParts, substitutePart, ih]
    cases h : substituteParts resource dependencies rest <;> simp

theorem controller.lintstats_valid (projectID : String) : Validate projectID examples.lintstats = [] := by
  have hd : Parse "$resource.version" = .ok ⟨some .version, []⟩ := rfl
  simp only [Validate, lintstats_shape, lintstats_parts, List.map_append, List.map_cons,
    List.flatten_append, List.flatten_cons, checkActionPart_text]
  simp [examples.lintstats, checkDependency, hd, Except.toOption, scope, ordered,
    checkActionPart]

theorem controller.lintstats_action (store : Store) (projectID v : String)
    (h : examples.petstoreVersion projectID v ∈ store) :
    buildAction store projectID examples.lintstats "lintstats-gnostic"
      (examples.petstoreVersion projectID v) = .ok (examples.lintstatsAction projectID v) := by
  have hd : Parse "$resource.version" = .ok ⟨some .version, []⟩ := rfl
  have hr : referenced .version (examples.petstoreVersion projectID v)
      = .ok (examples.petstoreVersion projectID v) := by
    simp [referenced, examples.petstoreVersion]
  have hc : concrete? (literalPattern (examples.petstoreVersion projectID v))
      = some (examples.petstoreVersion projectID v) := by
    simp [concrete?, literalPattern, examples.petstoreVersion]
  have hdeps : resolveDependencies store projectID (examples.petstoreVersion projectID v)
      examples.lintstats.Dependencies = .ok [examples.petstoreVersion projectID v] := by
    simp [examples.lintstats, resolveDependencies, resolveDependency, hd, Resolve, hr, hc, h]
  have htail : substituteParts (examples.petstoreVersion projectID v)
      [examples.petstoreVersion projectID v] (" --linter gnostic".data.map Part.text)
      = .ok " --linter gnostic".data := by
    have := substituteParts_text (examples.petstoreVersion projectID v)
      [examples.petstoreVersion projectID v] " --linter gnostic".data []
    simpa [substituteParts] using this
  have hpart : substitutePart (examples.petstoreVersion projectID v)
      [examples.petstoreVersion projectID v] (.reference "$resource.version")
      = .ok (render (literalPattern (examples.petstoreVersion projectID v) ++ [])).data := by
    simp only [substitutePart, hd, hr]
  have hcmd : substituteParts (examples.petstoreVersion projectID v)
      [examples.petstoreVersion projectID v] (parts examples.lintstats.Action)
      = .ok ("compute lintstats ".data
          ++ ((render (literalPattern (examples.petstoreVersion projectID v) ++ [])).data
            ++ " --linter gnostic".data)) := by
    rw [lintstats_parts, substituteParts_text, substituteParts, hpart, htail]
  simp only [buildAction, hdeps, hcmd]
  simp only [examples.lintstatsAction, Except.ok.injEq, Action.mk.injEq, true_and, and_true]
  apply String.ext
  simp [String.data_append, render, literalPattern, examples.petstoreVersion, joinWith,
    collectionName]


/-- C5: the end-to-end scenario. When the versions the store lists for the project are
exactly `1.0.0`, `1.0.1` and `1.1.0` of the api `petstore`, resolving the lintstats entry
gives exactly three actions, one per version in listing order, each with the command
`compute lintstats <full name of the version> --linter gnostic`. -/
theorem controller.lintstats_scenario (store : controller.Store) (projectID : String)
    (hstore : controller.ListMatching store
        (controller.scope projectID ++ [(.api, .wildcard), (.version, .wildcard)])
      = [examples.petstoreVersion projectID "1.0.0", examples.petstoreVersion projectID "1.0.1",
          examples.petstoreVersion projectID "1.1.0"]) :
    controller.processManifestResource store projectID examples.lintstats
      = .ok [examples.lintstatsAction projectID "1.0.0",
          examples.lintstatsAction projectID "1.0.1", examples.lintstatsAction projectID "1.1.0"]
      := by
  have hmem : ∀ v, examples.petstoreVersion projectID v ∈ controller.ListMatching store
      (controller.scope projectID ++ [(.api, .wildcard), (.version, .wildcard)]) →
      examples.petstoreVersion projectID v ∈ store := by
    intro v hv
    exact (List.mem_filter.1 hv).1
  have h0 := controller.lintstats_action store projectID "1.0.0" (hmem _ (by simp [hstore]))
  have h1 := controller.lintstats_action store projectID "1.0.1" (hmem _ (by simp [hstore]))
  have h2 := controller.lintstats_action store projectID "1.1.0" (hmem _ (by simp [hstore]))
  simp only [controller.processManifestResource, controller.lintstats_valid,
    controller.lintstats_shape, hstore, controller.buildActions, h0, h1, h2]

/-- Witness of C5: the store the test seeds, with the project the seed is in. -/
theorem controller.lintstats_scenario_witness :
    controller.processManifestResource (examples.seeded "controller-test") "controller-test"
        examples.lintstats
      = .ok [examples.lintstatsAction "controller-test" "1.0.0",
          examples.lintstatsAction "controller-test" "1.0.1",
          examples.lintstatsAction "controller-test" "1.1.0"] :=
  controller.lintstats_scenario (examples.seeded "controller-test") "controller-test"
    (by decide)

/-! ## The worker pool -/

namespace pool

theorem runAll_append {σ : Type} (world : σ) (done : List (Task σ)) (task : Task σ) :
    runAll world (done ++ [task]) = (task.Run (runAll world done)).2 := by
  induction done generalizing world with
  | nil => rfl
  | cons t rest ih => simp [runAll, ih]

theorem failureLog_append {σ : Type} (world : σ) (done : List (Task σ)) (task : Task σ) :
    failureLog world (done ++ [task])
      = failureLog world done ++ failureLine task (task.Run (runAll world done)).1 := by
  induction done generalizing world with
  | nil => simp [failureLog, runAll]
  | cons t rest ih => simp [failureLog, runAll, ih]

theorem history_step {σ : Type} (world : σ) (s s1 : State σ) (ev : Event σ)
    (h : History world s) (hs : step s ev = some s1) : History world s1 := by
  obtain ⟨hw, hl⟩ := h
  cases ev with
  | submit task =>
    simp only [step] at hs
    split at hs
    · cases hs
    · cases hs; exact ⟨hw, hl⟩
  | dispatch i =>
    simp only [step] at hs
    split at hs
    · cases hs
    · split at hs
      · cases hs; exact ⟨hw, hl⟩
      · cases hs
  | finish i =>
    simp only [step] at hs
    split at hs
    · cases hs
      refine ⟨?_, ?_⟩
      · simp only [runAll_append]; rw [← hw]
      · simp only [failureLog_append]; rw [← hw, ← hl]
    · cases hs
  | exit i =>
    simp only [step] at hs
    split at hs
    · split at hs
      · cases hs; exact ⟨hw, hl⟩
      · cases hs
    · cases hs
  | wait => simp only [step] at hs; cases hs; exact ⟨hw, hl⟩
  | cancel => simp only [step] at hs; cases hs; exact ⟨hw, hl⟩
  | waitReturn =>
    simp only [step] at hs
    split at hs
    · cases hs; exact ⟨hw, hl⟩
    · cases hs

theorem history_exec {σ : Type} (world : σ) (events : List (Event σ)) :
    ∀ s s1 : State σ, History world s → exec s events = some s1 → History world s1 := by
  induction events with
  | nil => intro s s1 h hs; simp only [exec] at hs; cases hs; exact h
  | cons ev rest ih =>
    intro s s1 h hs
    simp only [exec] at hs
    cases h1 : step s ev with
    | none => rw [h1] at hs; cases hs
    | some s2 =>
      rw [h1] at hs
      exact ih s2 s1 (history_step world s s2 ev h h1) hs

theorem history_init {σ : Type} (world : σ) (concurrency : Nat) :
    History world (WorkerPool world concurrency) :=
  ⟨rfl, rfl⟩

theorem runningTasks_set_running {σ : Type} (workers : List (Worker σ)) (i : Nat)
    (task : Task σ) (h : workers[i]? = some Worker.idle) :
    (runningTasks (workers.set i (.running task))).Perm (task :: runningTasks workers) := by
  induction workers generalizing i with
  | nil => simp at h
  | cons w rest ih =>
    cases i with
    | zero =>
      simp only [List.getElem?_cons_zero, Option.some.injEq] at h
      subst h
      simp [runningTasks, Worker.task?]
    | succ j =>
      simp only [List.getElem?_cons_succ] at h
      have := ih j h
      cases w with
      | idle => simpa [runningTasks, Worker.task?] using this
      | exited => simpa [runningTasks, Worker.task?] using this
      | running t =>
        simp only [runningTasks, List.set_cons_succ, List.filterMap_cons, Worker.task?] at this ⊢
        exact (List.Perm.cons t this).trans (List.Perm.swap task t _)

theorem runningTasks_set_idle {σ : Type} (workers : List (Worker σ)) (i : Nat)
    (task : Task σ) (h : workers[i]? = some (Worker.running task)) :
    (runningTasks workers).Perm (task :: runningTasks (workers.set i .idle)) := by
  induction workers generalizing i with
  | nil => simp at h
  | cons w rest ih =>
    cases i with
    | zero =>
      simp only [List.getElem?_cons_zero, Option.some.injEq] at h
      subst h
      simp [runningTasks, Worker.task?]
    | succ j =>
      simp only [List.getElem?_cons_succ] at h
      have := ih j h
      cases w with
      | idle => simpa [runningTasks, Worker.task?] using this
      | exited => simpa [runningTasks, Worker.task?] using this
      | running t =>
        simp only [runningTasks, List.set_cons_succ, List.filterMap_cons, Worker.task?] at this ⊢
        exact (List.Perm.cons t this).trans (List.Perm.swap task t _)

theorem runningTasks_set_exited {σ : Type} (workers : List (Worker σ)) (i : Nat)
    (h : workers[i]? = some Worker.idle) :
    runningTasks (workers.set i .exited) = runningTasks workers := by
  induction workers generalizing i with
  | nil => simp at h
  | cons w rest ih =>
    cases i with
    | zero =>
      simp only [List.getElem?_cons_zero, Option.some.injEq] at h
      subst h
      simp [runningTasks, Worker.task?]
    | succ j =>
      simp only [List.getElem?_cons_succ] at h
      have := ih j h
      cases w <;> simpa [runningTasks, Worker.task?] using this

theorem exited_of_set {σ : Type} (workers : List (Worker σ)) (i : Nat) (w0 : Worker σ)
    (hw0 : w0.isExited = false)
    (h : ∃ w ∈ workers.set i w0, w.isExited = true) : ∃ w ∈ workers, w.isExited = true := by
  obtain ⟨w, hw, he⟩ := h
  rcases List.mem_or_eq_of_mem_set hw with h1 | h1
  · exact ⟨w, h1, he⟩
  · rw [h1, hw0] at he; cases he

theorem runningTasks_all_exited {σ : Type} (workers : List (Worker σ))
    (h : workers.all Worker.isExited = true) : runningTasks workers = [] := by
  induction workers with
  | nil => rfl
  | cons w rest ih =>
    simp only [List.all_cons, Bool.and_eq_true] at h
    cases w with
    | idle => simp [Worker.isExited] at h
    | running t => simp [Worker.isExited] at h
    | exited => simpa [runningTasks, Worker.task?] using ih h.2

theorem uncancelled_step {σ : Type} (concurrency : Nat) (s s1 : State σ) (ev : Event σ)
    (h : Uncancelled concurrency s) (hev : ev.isCancel = false) (hs : step s ev = some s1) :
    Uncancelled concurrency s1 := by
  obtain ⟨hlen, hc, hperm, hex⟩ := h
  cases ev with
  | submit task =>
    simp only [step] at hs
    split at hs
    · cases hs
    · rename_i hd
      cases hs
      refine ⟨hlen, hc, ?_, ?_⟩
      · have := List.Perm.append_right [task] hperm
        simpa [List.append_assoc] using this
      · intro h1
        exact absurd (hex h1).1 hd
  | dispatch i =>
    simp only [step] at hs
    split at hs
    · cases hs
    · split at hs
      · rename_i task rest hw hq
        cases hs
        refine ⟨by simpa using hlen, hc, ?_, ?_⟩
        · rw [hq] at hperm
          refine hperm.trans ?_
          refine List.Perm.append_left _ ?_
          have h1 := runningTasks_set_running s.workers i task hw
          have h2 : (runningTasks s.workers ++ task :: rest).Perm
              ((task :: runningTasks s.workers) ++ rest) := by
            simp
          exact h2.trans (List.Perm.append_right rest h1.symm)
        · intro h1
          have h2 := hex (exited_of_set s.workers i (.running task) rfl h1)
          rw [hq] at h2
          simp at h2
      · cases hs
  | finish i =>
    simp only [step] at hs
    split at hs
    · rename_i task hw
      cases hs
      refine ⟨by simpa using hlen, hc, ?_, ?_⟩
      · refine hperm.trans ?_
        have h1 := runningTasks_set_idle s.workers i task hw
        simp only [List.append_assoc]
        refine List.Perm.append_left _ ?_
        simp only [List.singleton_append]
        exact List.Perm.append_right _ h1
      · intro h1
        exact hex (exited_of_set s.workers i .idle rfl h1)
    · cases hs
  | exit i =>
    simp only [step] at hs
    split at hs
    · rename_i hw
      split at hs
      · rename_i hcond
        cases hs
        refine ⟨by simpa using hlen, hc, ?_, ?_⟩
        · simp only [runningTasks_set_exited s.workers i hw]
          exact hperm
        · intro _
          rcases hcond with h1 | h1
          · rw [hc] at h1; cases h1
          · exact ⟨h1.1, by simpa using h1.2⟩
      · cases hs
    · cases hs
  | wait =>
    simp only [step] at hs
    cases hs
    exact ⟨hlen, hc, hperm, fun h1 => ⟨rfl, (hex h1).2⟩⟩
  | cancel => simp [Event.isCancel] at hev
  | waitReturn =>
    simp only [step] at hs
    split at hs
    · cases hs; exact ⟨hlen, hc, hperm, hex⟩
    · cases hs

theorem uncancelled_exec {σ : Type} (concurrency : Nat) (events : List (Event σ)) :
    ∀ s s1 : State σ, Uncancelled concurrency s →
      (∀ ev ∈ events, ev.isCancel = false) → exec s events = some s1 →
      Uncancelled concurrency s1 := by
  induction events with
  | nil => intro s s1 h _ hs; simp only [exec] at hs; cases hs; exact h
  | cons ev rest ih =>
    intro s s1 h hev hs
    simp only [exec] at hs
    cases h1 : step s ev with
    | none => rw [h1] at hs; cases hs
    | some s2 =>
      rw [h1] at hs
      exact ih s2 s1
        (uncancelled_step concurrency s s2 ev h (hev ev (List.mem_cons_self _ _)) h1)
        (fun e he => hev e (List.mem_cons_of_mem _ he)) hs

theorem uncancelled_init {σ : Type} (world : σ) (concurrency : Nat) :
    Uncancelled concurrency (WorkerPool world concurrency) := by
  refine ⟨by simp [WorkerPool], rfl, by simp [WorkerPool, runningTasks, Worker.task?], ?_⟩
  rintro ⟨w, hw, he⟩
  simp only [WorkerPool, List.mem_replicate] at hw
  rw [hw.2] at he
  cases he

theorem all_exited_get {σ : Type} (workers : List (Worker σ)) (i : Nat) (w : Worker σ)
    (h : workers.all Worker.isExited = true) (hw : workers[i]? = some w) :
    w.isExited = true := by
  have hm : w ∈ workers := List.getElem?_mem hw
  exact List.all_eq_true.1 h w hm

theorem returned_step {σ : Type} (s s1 : State σ) (ev : Event σ)
    (h : Returned s) (hs : step s ev = some s1) : Returned s1 := by
  unfold Returned at h ⊢
  cases ev with
  | submit task =>
    simp only [step] at hs
    split at hs
    · cases hs
    · cases hs; exact h
  | dispatch i =>
    simp only [step] at hs
    split at hs
    · cases hs
    · split at hs
      · rename_i task rest hw hq
        cases hs
        intro hr
        have := all_exited_get _ _ _ (h hr).2 hw
        cases this
      · cases hs
  | finish i =>
    simp only [step] at hs
    split at hs
    · rename_i task hw
      cases hs
      intro hr
      have := all_exited_get _ _ _ (h hr).2 hw
      cases this
    · cases hs
  | exit i =>
    simp only [step] at hs
    split at hs
    · rename_i hw
      split at hs
      · cases hs
        intro hr
        have := all_exited_get _ _ _ (h hr).2 hw
        cases this
      · cases hs
    · cases hs
  | wait =>
    simp only [step] at hs
    cases hs
    intro hr
    exact ⟨rfl, (h hr).2⟩
  | cancel => simp only [step] at hs; cases hs; exact h
  | waitReturn =>
    simp only [step] at hs
    split at hs
    · rename_i hc
      cases hs
      intro _
      exact hc
    · cases hs

theorem returned_exec {σ : Type} (events : List (Event σ)) :
    ∀ s s1 : State σ, Returned s → exec s events = some s1 → Returned s1 := by
  induction events with
  | nil => intro s s1 h hs; simp only [exec] at hs; cases hs; exact h
  | cons ev rest ih =>
    intro s s1 h hs
    simp only [exec] at hs
    cases h1 : step s ev with
    | none => rw [h1] at hs; cases hs
    | some s2 =>
      rw [h1] at hs
      exact ih s2 s1 (returned_step s s2 ev h h1) hs

theorem returned_init {σ : Type} (world : σ) (concurrency : Nat) :
    Returned (WorkerPool world concurrency) := by
  intro h
  cases h

theorem quiet_init {σ : Type} (world : σ) (concurrency : Nat) :
    (WorkerPool world concurrency).quiet = WorkerPool world concurrency := by
  simp [State.quiet, WorkerPool, Worker.quiet]

theorem quiet_all_exited {σ : Type} (workers : List (Worker σ)) :
    (workers.map Worker.quiet).all Worker.isExited = workers.all Worker.isExited := by
  induction workers with
  | nil => rfl
  | cons w rest ih => cases w <;> simp [Worker.quiet, Worker.isExited, ih]

theorem step_quiet {σ : Type} (s : State σ) (ev : Event σ) :
    step s.quiet ev.quiet = (step s ev).map State.quiet := by
  cases ev with
  | submit task =>
    simp only [step, Event.quiet, State.quiet]
    split <;> simp [State.quiet]
  | dispatch i =>
    simp only [step, Event.quiet, State.quiet, List.getElem?_map]
    split
    · rfl
    · cases hw : s.workers[i]? with
      | none => simp
      | some w =>
        cases w with
        | idle =>
          cases hq : s.queue with
          | nil => simp [Worker.quiet]
          | cons t rest => simp [Worker.quiet, State.quiet, List.map_set]
        | running t => cases hq : s.queue <;> simp [Worker.quiet]
        | exited => cases hq : s.queue <;> simp [Worker.quiet]
  | finish i =>
    simp only [step, Event.quiet, State.quiet, List.getElem?_map]
    cases hw : s.workers[i]? with
    | none => simp
    | some w =>
      cases w with
      | idle => simp [Worker.quiet]
      | running t => simp [Worker.quiet, State.quiet, List.map_set, Task.quiet, failureLine]
      | exited => simp [Worker.quiet]
  | exit i =>
    simp only [step, Event.quiet, State.quiet, List.getElem?_map]
    cases hw : s.workers[i]? with
    | none => simp
    | some w =>
      cases w with
      | idle =>
        have hempty : (List.map Task.quiet s.queue).isEmpty = s.queue.isEmpty := by
          cases s.queue <;> rfl
        simp only [Option.map_some', Worker.quiet, hempty]
        split <;> simp [State.quiet, List.map_set, Worker.quiet]
      | running t => simp [Worker.quiet]
      | exited => simp [Worker.quiet]
  | wait => simp [step, Event.quiet, State.quiet]
  | cancel => simp [step, Event.quiet, State.quiet]
  | waitReturn =>
    simp only [step, Event.quiet, State.quiet, quiet_all_exited]
    split <;> simp [State.quiet]

theorem exec_quiet {σ : Type} (events : List (Event σ)) :
    ∀ s : State σ, exec s.quiet (events.map Event.quiet) = (exec s events).map State.quiet := by
  induction events with
  | nil => intro s; rfl
  | cons ev rest ih =>
    intro s
    simp only [List.map_cons, exec, step_quiet]
    cases h : step s ev with
    | none => rfl
    | some s1 => simpa using ih s1

end pool

/-- C6, as stated, fails: a pool of one worker whose context is cancelled before the worker
has taken a task lets `wait` return although neither of the two submitted tasks has
completed. -/
theorem pool.wait_returns_early_when_cancelled :
    pool.exec (pool.WorkerPool ([] : List String) 1) examples.cancelledRun
        = some examples.cancelledRunEnd ∧
      examples.cancelledRunEnd.waitReturned = true ∧
      examples.cancelledRunEnd.submitted.length = 2 ∧
      examples.cancelledRunEnd.completed.length = 0 ∧
      ¬ examples.cancelledRunEnd.submitted.Perm examples.cancelledRunEnd.completed :=
  ⟨rfl, rfl, rfl, rfl, fun h => absurd h.length_eq (by decide)⟩

/-- C6, amended: in a pool of at least one worker whose context is not cancelled, `wait`
returns only after every submitted task has completed: the completed tasks are the
submitted ones, nothing is queued or running, and the world is the one the completed
tasks have produced. -/
theorem pool.wait_returns_after_all_tasks {σ : Type} (world : σ) (concurrency : Nat)
    (events : List (pool.Event σ)) (s : pool.State σ) (hK : 1 ≤ concurrency)
    (hctx : ∀ ev ∈ events, ev.isCancel = false)
    (hrun : pool.exec (pool.WorkerPool world concurrency) events = some s)
    (hret : s.waitReturned = true) :
    s.submitted.Perm s.completed ∧ s.queue = [] ∧ pool.runningTasks s.workers = [] ∧
      s.world = pool.runAll world s.completed := by
  obtain ⟨hlen, _, hperm, hex⟩ :=
    pool.uncancelled_exec concurrency events _ s (pool.uncancelled_init world concurrency)
      hctx hrun
  obtain ⟨_, hall⟩ := pool.returned_exec events _ s (pool.returned_init world concurrency)
    hrun hret
  obtain ⟨hworld, _⟩ := pool.history_exec world events _ s
    (pool.history_init world concurrency) hrun
  have hrunning := pool.runningTasks_all_exited s.workers hall
  have hne : s.workers ≠ [] := by
    intro h
    rw [h] at hlen
    simp at hlen
    omega
  obtain ⟨w, rest, hw⟩ := List.exists_cons_of_ne_nil hne
  have hexited : ∃ w ∈ s.workers, w.isExited = true :=
    ⟨w, by simp [hw], List.all_eq_true.1 hall w (by simp [hw])⟩
  have hq := (hex hexited).2
  refine ⟨?_, hq, hrunning, hworld⟩
  simpa [hrunning, hq] using hperm

/-- Witness of C6, amended: the run of one worker over two export tasks. -/
theorem pool.wait_returns_after_all_tasks_witness :
    examples.fullRunEnd.submitted.Perm examples.fullRunEnd.completed ∧
      examples.fullRunEnd.queue = [] ∧ pool.runningTasks examples.fullRunEnd.workers = [] ∧
      examples.fullRunEnd.world = pool.runAll [] examples.fullRunEnd.completed :=
  pool.wait_returns_after_all_tasks [] 1 examples.fullRun examples.fullRunEnd (by decide)
    (by
      intro ev hev
      simp only [examples.fullRun, List.mem_cons, List.mem_singleton, List.not_mem_nil,
        or_false] at hev
      rcases hev with h | h | h | h | h | h | h | h | h <;> rw [h] <;> rfl)
    rfl rfl

/-- C7: a failing task is isolated. Whatever the tasks and the events, the pool goes
through the same states as when no task fails: the run with the tasks made quiet is
possible exactly when the run is, and ends in the same state up to the log. The log of a
run holds one line for each failed task, with the description of the task, and every
completed task has had its effect on the world. -/
theorem pool.failure_is_isolated {σ : Type} (world : σ) (concurrency : Nat)
    (events : List (pool.Event σ)) :
    pool.exec (pool.WorkerPool world concurrency) (events.map pool.Event.quiet)
        = (pool.exec (pool.WorkerPool world concurrency) events).map pool.State.quiet ∧
    ∀ s, pool.exec (pool.WorkerPool world concurrency) events = some s →
      s.log = pool.failureLog world s.completed ∧ s.world = pool.runAll world s.completed := by
  constructor
  · have := pool.exec_quiet events (pool.WorkerPool world concurrency)
    rwa [pool.quiet_init] at this
  · intro s hs
    obtain ⟨hw, hl⟩ := pool.history_exec world events _ s
      (pool.history_init world concurrency) hs
    exact ⟨hl, hw⟩

/-- Witness of C7: the first of two tasks fails; the second is run all the same. -/
theorem pool.failure_is_isolated_witness :
    examples.failedRunEnd.log = pool.failureLog [] examples.failedRunEnd.completed ∧
      examples.failedRunEnd.world = pool.runAll [] examples.failedRunEnd.completed :=
  (pool.failure_is_isolated [] 1 examples.failedRun).2 examples.failedRunEnd rfl

/-! ## `patch/version.go`: the name of an imported version -/

/-- C11: the three import layouts name a version identically. `versionName` succeeds
exactly when the combined parent (the parent alone when the metadata has no parent, the
two joined by `/` otherwise) is a valid Api name, and the version it returns is the one of
that Api with the name of the metadata as its ID; a failure is the parse error of the
combined parent. Hence a parent given in the metadata can be given in the parent string
instead. -/
theorem patch.versionName_layouts (parent : String) (metadata : models.Metadata) :
    (∀ v : names.Version, patch.versionName parent metadata = .ok v ↔
      ((if metadata.Parent = "" then parent else parent ++ "/" ++ metadata.Parent)
          = "projects/" ++ v.ProjectID ++ "/locations/global/apis/" ++ v.ApiID ∧
        names.validID v.ProjectID = true ∧ names.validID v.ApiID = true ∧
        v.VersionID = metadata.Name)) ∧
    (∀ e, patch.versionName parent metadata = .error e ↔
      names.ParseApi (if metadata.Parent = "" then parent else parent ++ "/" ++ metadata.Parent)
        = .error e) ∧
    (metadata.Parent ≠ "" →
      patch.versionName parent metadata
        = patch.versionName (parent ++ "/" ++ metadata.Parent) { metadata with Parent := "" }) := by
  have hcomb : (if metadata.Parent ≠ "" then parent ++ "/" ++ metadata.Parent else parent)
      = (if metadata.Parent = "" then parent else parent ++ "/" ++ metadata.Parent) := by
    by_cases h : metadata.Parent = "" <;> simp [h]
  refine ⟨?_, ?_, ?_⟩
  · intro v
    simp only [patch.versionName, hcomb]
    cases hp : names.ParseApi
        (if metadata.Parent = "" then parent else parent ++ "/" ++ metadata.Parent) with
    | error e =>
      constructor
      · intro h
        cases h
      · rintro ⟨hc, hP, hA, _⟩
        have := parseApi_string ⟨v.ProjectID, v.ApiID⟩ hP hA
        rw [names.Api.String, ← hc, hp] at this
        cases this
    | ok api =>
      obtain ⟨hname, hP, hA⟩ := parseApi_ok _ _ hp
      constructor
      · intro h
        simp only [Except.ok.injEq] at h
        subst h
        exact ⟨hname, hP, hA, rfl⟩
      · rintro ⟨hc, hP1, hA1, hV⟩
        have := parseApi_string ⟨v.ProjectID, v.ApiID⟩ hP1 hA1
        rw [names.Api.String, ← hc, hp] at this
        simp only [Except.ok.injEq] at this
        subst this
        cases v
        simp only [names.Api.Version] at *
        simp [hV]
  · intro e
    simp only [patch.versionName, hcomb]
    cases hp : names.ParseApi
        (if metadata.Parent = "" then parent else parent ++ "/" ++ metadata.Parent) <;> simp
  · intro hne
    simp [patch.versionName, hne]

/-- Witness of C11: the hierarchical and the flat layout of version `v1` of `petstore`. -/
theorem patch.versionName_layouts_witness :
    patch.versionName "projects/demo/locations/global"
        { Name := "v1", Parent := "apis/petstore", Labels := [], Annotations := [] }
      = patch.versionName ("projects/demo/locations/global" ++ "/" ++ "apis/petstore")
          { Name := "v1", Parent := "", Labels := [], Annotations := [] } :=
  (patch.versionName_layouts "projects/demo/locations/global"
    { Name := "v1", Parent := "apis/petstore", Labels := [], Annotations := [] }).2.2 (by decide)

/-! ## `patch/project.go`: the tasks the export functions submit -/

namespace patch

theorem addsPrefixOf_listAndSubmit {σ α : Type} (eff : Effect)
    (list : σ → (List α × Option Error) × σ) (task : α → Task) :
    AddsPrefixOf (listAndSubmit eff list task) (fun s => block eff (list s).1.1 task) := by
  intro w
  exact ⟨block eff (list w.state).1.1 task, rfl, List.prefix_refl _⟩

theorem addsPrefixOf_andThen {σ α : Type} (eff : Effect)
    (list : σ → (List α × Option Error) × σ) (task : α → Task)
    (b : Session σ → Option Error × Session σ) (full : σ → List Effect)
    (hb : AddsPrefixOf b full) :
    AddsPrefixOf (andThen (listAndSubmit eff list task) b)
      (fun s => block eff (list s).1.1 task ++ full (list s).2) := by
  intro w
  simp only [andThen, listAndSubmit]
  cases he : (list w.state).1.2 with
  | some e =>
    exact ⟨block eff (list w.state).1.1 task, rfl, List.prefix_append _ _⟩
  | none =>
    obtain ⟨done, hd, hp⟩ := hb
      { state := (list w.state).2
        effects := w.effects ++ eff :: (list w.state).1.1.map (fun m => Effect.Submit (task m)) }
    refine ⟨block eff (list w.state).1.1 task ++ done, ?_, ?_⟩
    · simp only [hd, block, List.append_assoc]
    · exact (List.prefix_append_right_inj _).2 hp

end patch

/-- C13: `ExportProject` exports into the directory of the project below the root and
makes its listings in this order: Apis, artifacts of the project, versions, specs,
deployments, artifacts of Apis, of versions, of specs, of deployments. For every resource
a listing visits, exactly one export task is sent to the task queue, in listing order,
and nothing else is sent; a listing that fails ends the export, so that what is done is
always a first part of the whole, and all of it when no listing fails. -/
theorem patch.exportProject_tasks {σ : Type} (env : patch.ExportEnv σ)
    (projectName : names.Project) (root : String) (w : patch.Session σ)
    (apis : List rpc.Api) (versions : List rpc.ApiVersion) (specs : List rpc.ApiSpec)
    (deployments : List rpc.ApiDeployment)
    (projectArtifacts apiArtifacts versionArtifacts specArtifacts deploymentArtifacts :
      List rpc.Artifact)
    (e1 e2 e3 e4 e5 e6 e7 e8 e9 : Option Error) (s1 s2 s3 s4 s5 s6 s7 s8 s9 : σ)
    (h1 : env.ListAPIs (projectName.Api "").String w.state = ((apis, e1), s1))
    (h2 : env.ListArtifacts (projectName.Artifact "").String s1 = ((projectArtifacts, e2), s2))
    (h3 : env.ListVersions ((projectName.Api "-").Version "-").String s2 = ((versions, e3), s3))
    (h4 : env.ListSpecs (((projectName.Api "-").Version "-").Spec "-").String s3
      = ((specs, e4), s4))
    (h5 : env.ListDeployments ((projectName.Api "-").Deployment "-").String s4
      = ((deployments, e5), s5))
    (h6 : env.ListArtifacts ((projectName.Api "-").Artifact "").String s5
      = ((apiArtifacts, e6), s6))
    (h7 : env.ListArtifacts (((projectName.Api "-").Version "-").Artifact "").String s6
      = ((versionArtifacts, e7), s7))
    (h8 : env.ListArtifacts ((((projectName.Api "-").Version "-").Spec "-").Artifact "").String s7
      = ((specArtifacts, e8), s8))
    (h9 : env.ListArtifacts (((projectName.Api "-").Deployment "-").Artifact "").String s8
      = ((deploymentArtifacts, e9), s9)) :
    (∃ done, (patch.ExportProject env projectName root w).2.effects = w.effects ++ done ∧
      done <+:
        patch.block (.ListAPIs (projectName.Api "").String) apis
          (fun m => .exportAPITask m (env.Join root projectName.ProjectID)) ++
        (patch.block (.ListArtifacts (projectName.Artifact "").String) projectArtifacts
          (fun m => .exportArtifactTask m (env.Join root projectName.ProjectID)) ++
        (patch.block (.ListVersions ((projectName.Api "-").Version "-").String) versions
          (fun m => .exportVersionTask m (env.Join root projectName.ProjectID)) ++
        (patch.block (.ListSpecs (((projectName.Api "-").Version "-").Spec "-").String) specs
          (fun m => .exportSpecTask m (env.Join root projectName.ProjectID)) ++
        (patch.block (.ListDeployments ((projectName.Api "-").Deployment "-").String)
          deployments (fun m => .exportDeploymentTask m (env.Join root projectName.ProjectID)) ++
        (patch.block (.ListArtifacts ((projectName.Api "-").Artifact "").String) apiArtifacts
          (fun m => .exportArtifactTask m (env.Join root projectName.ProjectID)) ++
        (patch.block (.ListArtifacts (((projectName.Api "-").Version "-").Artifact "").String)
          versionArtifacts
          (fun m => .exportArtifactTask m (env.Join root projectName.ProjectID)) ++
        (patch.block
          (.ListArtifacts ((((projectName.Api "-").Version "-").Spec "-").Artifact "").String)
          specArtifacts (fun m => .exportArtifactTask m (env.Join root projectName.ProjectID)) ++
        patch.block (.ListArtifacts (((projectName.Api "-").Deployment "-").Artifact "").String)
          deploymentArtifacts
          (fun m => .exportArtifactTask m (env.Join root projectName.ProjectID)))))))))) ∧
    (e1 = none ∧ e2 = none ∧ e3 = none ∧ e4 = none ∧ e5 = none ∧ e6 = none ∧ e7 = none ∧
        e8 = none ∧ e9 = none →
      patch.ExportProject env projectName root w =
        (none,
          { state := s9
            effects := w.effects ++
              (patch.block (.ListAPIs (projectName.Api "").String) apis
                (fun m => .exportAPITask m (env.Join root projectName.ProjectID)) ++
              (patch.block (.ListArtifacts (projectName.Artifact "").String) projectArtifacts
                (fun m => .exportArtifactTask m (env.Join root projectName.ProjectID)) ++
              (patch.block (.ListVersions ((projectName.Api "-").Version "-").String) versions
                (fun m => .exportVersionTask m (env.Join root projectName.ProjectID)) ++
              (patch.block (.ListSpecs (((projectName.Api "-").Version "-").Spec "-").String)
                specs (fun m => .exportSpecTask m (env.Join root projectName.ProjectID)) ++
              (patch.block (.ListDeployments ((projectName.Api "-").Deployment "-").String)
                deployments
                (fun m => .exportDeploymentTask m (env.Join root projectName.ProjectID)) ++
              (patch.block (.ListArtifacts ((projectName.Api "-").Artifact "").String)
                apiArtifacts
                (fun m => .exportArtifactTask m (env.Join root projectName.ProjectID)) ++
              (patch.block
                (.ListArtifacts (((projectName.Api "-").Version "-").Artifact "").String)
                versionArtifacts
                (fun m => .exportArtifactTask m (env.Join root projectName.ProjectID)) ++
              (patch.block
                (.ListArtifacts
                  ((((projectName.Api "-").Version "-").Spec "-").Artifact "").String)
                specArtifacts
                (fun m => .exportArtifactTask m (env.Join root projectName.ProjectID)) ++
              patch.block
                (.ListArtifacts (((projectName.Api "-").Deployment "-").Artifact "").String)
                deploymentArtifacts
                (fun m => .exportArtifactTask m (env.Join root projectName.ProjectID)))))))))) }))
    := by
  constructor
  · have H : patch.AddsPrefixOf (patch.ExportProject env projectName root) _ :=
      patch.addsPrefixOf_andThen _ _ _ _ _
      (patch.addsPrefixOf_andThen _ _ _ _ _
      (patch.addsPrefixOf_andThen _ _ _ _ _
      (patch.addsPrefixOf_andThen _ _ _ _ _
      (patch.addsPrefixOf_andThen _ _ _ _ _
      (patch.addsPrefixOf_andThen _ _ _ _ _
      (patch.addsPrefixOf_andThen _ _ _ _ _
      (patch.addsPrefixOf_andThen _ _ _ _ _
      (patch.addsPrefixOf_listAndSubmit _ _ _))))))))
    obtain ⟨done, hd, hp⟩ := H w
    simp only [h1, h2, h3, h4, h5, h6, h7, h8, h9] at hp
    exact ⟨done, hd, hp⟩
  · rintro ⟨rfl, rfl, rfl, rfl, rfl, rfl, rfl, rfl, rfl⟩
    simp only [patch.ExportProject, patch.andThen, patch.listAndSubmit, patch.block, h1, h2, h3,
      h4, h5, h6, h7, h8, h9, List.append_assoc]

theorem patch.addsPrefixOf_exportAPIChildren {σ : Type} (env : patch.ExportEnv σ)
    (apiName : names.Api) (dir : String) :
    patch.AddsPrefixOf (patch.exportAPIChildren env apiName dir)
      (fun s0 =>
        patch.block (.ListVersions (apiName.Version "-").String)
          (env.ListVersions (apiName.Version "-").String s0).1.1
          (fun m => .exportVersionTask m dir) ++
        (fun s1 =>
        patch.block (.ListSpecs ((apiName.Version "-").Spec "-").String)
          (env.ListSpecs ((apiName.Version "-").Spec "-").String s1).1.1
          (fun m => .exportSpecTask m dir) ++
        (fun s2 =>
        patch.block (.ListDeployments (apiName.Deployment "-").String)
          (env.ListDeployments (apiName.Deployment "-").String s2).1.1
          (fun m => .exportDeploymentTask m dir) ++
        (fun s3 =>
        patch.block (.ListArtifacts (apiName.Artifact "").String)
          (env.ListArtifacts (apiName.Artifact "").String s3).1.1
          (fun m => .exportArtifactTask m dir) ++
        (fun s4 =>
        patch.block (.ListArtifacts ((apiName.Version "-").Artifact "").String)
          (env.ListArtifacts ((apiName.Version "-").Artifact "").String s4).1.1
          (fun m => .exportArtifactTask m dir) ++
        (fun s5 =>
        patch.block (.ListArtifacts (((apiName.Version "-").Spec "-").Artifact "").String)
          (env.ListArtifacts (((apiName.Version "-").Spec "-").Artifact "").String s5).1.1
          (fun m => .exportArtifactTask m dir) ++
        (fun s6 =>
        patch.block (.ListArtifacts ((apiName.Deployment "-").Artifact "").String)
          (env.ListArtifacts ((apiName.Deployment "-").Artifact "").String s6).1.1
          (fun m => .exportArtifactTask m dir))
          (env.ListArtifacts (((apiName.Version "-").Spec "-").Artifact "").String s5).2)
          (env.ListArtifacts ((apiName.Version "-").Artifact "").String s4).2)
          (env.ListArtifacts (apiName.Artifact "").String s3).2)
          (env.ListDeployments (apiName.Deployment "-").String s2).2)
          (env.ListSpecs ((apiName.Version "-").Spec "-").String s1).2)
          (env.ListVersions (apiName.Version "-").String s0).2) :=
  patch.addsPrefixOf_andThen _ _ _ _ _
    (patch.addsPrefixOf_andThen _ _ _ _ _
    (patch.addsPrefixOf_andThen _ _ _ _ _
    (patch.addsPrefixOf_andThen _ _ _ _ _
    (patch.addsPrefixOf_andThen _ _ _ _ _
    (patch.addsPrefixOf_andThen _ _ _ _ _
    (patch.addsPrefixOf_listAndSubmit _ _ _))))))

/-- C12: `ExportAPI` without recursion lists the Apis of the given name, sends one task
for each Api the listing visits and makes no other listing. With recursion it goes on to
list the versions, the specs and the deployments of the Api and the artifacts of the Api,
of its versions, of its specs and of its deployments, in this order, and sends one task
for every resource visited; a listing that fails ends the export, so that what is done is
always a first part of the whole, and all of it when no listing fails. -/
theorem patch.exportAPI_tasks {σ : Type} (env : patch.ExportEnv σ) (apiName : names.Api)
    (root : String) (w : patch.Session σ)
    (apis : List rpc.Api) (versions : List rpc.ApiVersion) (specs : List rpc.ApiSpec)
    (deployments : List rpc.ApiDeployment)
    (apiArtifacts versionArtifacts specArtifacts deploymentArtifacts : List rpc.Artifact)
    (e1 e2 e3 e4 e5 e6 e7 e8 : Option Error) (s1 s2 s3 s4 s5 s6 s7 s8 : σ)
    (h1 : env.ListAPIs apiName.String w.state = ((apis, e1), s1))
    (h2 : env.ListVersions (apiName.Version "-").String s1 = ((versions, e2), s2))
    (h3 : env.ListSpecs ((apiName.Version "-").Spec "-").String s2 = ((specs, e3), s3))
    (h4 : env.ListDeployments (apiName.Deployment "-").String s3 = ((deployments, e4), s4))
    (h5 : env.ListArtifacts (apiName.Artifact "").String s4 = ((apiArtifacts, e5), s5))
    (h6 : env.ListArtifacts ((apiName.Version "-").Artifact "").String s5
      = ((versionArtifacts, e6), s6))
    (h7 : env.ListArtifacts (((apiName.Version "-").Spec "-").Artifact "").String s6
      = ((specArtifacts, e7), s7))
    (h8 : env.ListArtifacts ((apiName.Deployment "-").Artifact "").String s7
      = ((deploymentArtifacts, e8), s8)) :
    patch.ExportAPI env apiName false root w =
      (e1,
        { state := s1
          effects := w.effects ++ patch.block (.ListAPIs apiName.String) apis
            (fun m => .exportAPITask m (env.Join root apiName.ProjectID)) }) ∧
    (∃ done, (patch.ExportAPI env apiName true root w).2.effects = w.effects ++ done ∧
      done <+:
        patch.block (.ListAPIs apiName.String) apis
          (fun m => .exportAPITask m (env.Join root apiName.ProjectID)) ++
        (patch.block (.ListVersions (apiName.Version "-").String) versions
          (fun m => .exportVersionTask m (env.Join root apiName.ProjectID)) ++
        (patch.block (.ListSpecs ((apiName.Version "-").Spec "-").String) specs
          (fun m => .exportSpecTask m (env.Join root apiName.ProjectID)) ++
        (patch.block (.ListDeployments (apiName.Deployment "-").String) deployments
          (fun m => .exportDeploymentTask m (env.Join root apiName.ProjectID)) ++
        (patch.block (.ListArtifacts (apiName.Artifact "").String) apiArtifacts
          (fun m => .exportArtifactTask m (env.Join root apiName.ProjectID)) ++
        (patch.block (.ListArtifacts ((apiName.Version "-").Artifact "").String)
          versionArtifacts (fun m => .exportArtifactTask m (env.Join root apiName.ProjectID)) ++
        (patch.block (.ListArtifacts (((apiName.Version "-").Spec "-").Artifact "").String)
          specArtifacts (fun m => .exportArtifactTask m (env.Join root apiName.ProjectID)) ++
        patch.block (.ListArtifacts ((apiName.Deployment "-").Artifact "").String)
          deploymentArtifacts
          (fun m => .exportArtifactTask m (env.Join root apiName.ProjectID))))))))) ∧
    (e1 = none ∧ e2 = none ∧ e3 = none ∧ e4 = none ∧ e5 = none ∧ e6 = none ∧ e7 = none ∧
        e8 = none →
      patch.ExportAPI env apiName true root w =
        (none,
          { state := s8
            effects := w.effects ++
              (patch.block (.ListAPIs apiName.String) apis
                (fun m => .exportAPITask m (env.Join root apiName.ProjectID)) ++
              (patch.block (.ListVersions (apiName.Version "-").String) versions
                (fun m => .exportVersionTask m (env.Join root apiName.ProjectID)) ++
              (patch.block (.ListSpecs ((apiName.Version "-").Spec "-").String) specs
                (fun m => .exportSpecTask m (env.Join root apiName.ProjectID)) ++
              (patch.block (.ListDeployments (apiName.Deployment "-").String) deployments
                (fun m => .exportDeploymentTask m (env.Join root apiName.ProjectID)) ++
              (patch.block (.ListArtifacts (apiName.Artifact "").String) apiArtifacts
                (fun m => .exportArtifactTask m (env.Join root apiName.ProjectID)) ++
              (patch.block (.ListArtifacts ((apiName.Version "-").Artifact "").String)
                versionArtifacts
                (fun m => .exportArtifactTask m (env.Join root apiName.ProjectID)) ++
              (patch.block (.ListArtifacts (((apiName.Version "-").Spec "-").Artifact "").String)
                specArtifacts
                (fun m => .exportArtifactTask m (env.Join root apiName.ProjectID)) ++
              patch.block (.ListArtifacts ((apiName.Deployment "-").Artifact "").String)
                deploymentArtifacts
                (fun m => .exportArtifactTask m (env.Join root apiName.ProjectID))))))))) }))
    := by
  refine ⟨?_, ?_, ?_⟩
  · cases e1 <;>
      simp [patch.ExportAPI, patch.andThen, patch.listAndSubmit, patch.block, h1]
  · have H : patch.AddsPrefixOf (patch.ExportAPI env apiName true root) _ :=
      patch.addsPrefixOf_andThen _ _ _ _ _
        (patch.addsPrefixOf_exportAPIChildren env apiName (env.Join root apiName.ProjectID))
    obtain ⟨done, hd, hp⟩ := H w
    simp only [h1, h2, h3, h4, h5, h6, h7, h8] at hp
    exact ⟨done, hd, hp⟩
  · rintro ⟨rfl, rfl, rfl, rfl, rfl, rfl, rfl, rfl⟩
    simp [patch.ExportAPI, patch.exportAPIChildren, patch.andThen, patch.listAndSubmit,
      patch.block, h1, h2, h3, h4, h5, h6, h7, h8, List.append_assoc]

/-! ## `patch/project.go`: the files the export tasks write -/

theorem patch.writeInDir_ok {σ : Type} (env : patch.ExportEnv σ) (filename : String)
    (bytes : Option (List Nat)) (perm : Nat) (w w1 : patch.Session σ)
    (h : patch.writeInDir env filename bytes perm w = (none, w1)) :
    w1.effects = w.effects ++
      [.MkdirAll (env.Dir filename) 0o777, .WriteFile filename bytes perm] ∧
    w1.state = (env.WriteFile filename bytes perm
      (env.MkdirAll (env.Dir filename) 0o777 w.state).2).2 := by
  simp only [patch.writeInDir, patch.perform] at h
  split at h
  · cases h
  · rename_i w2 hm
    simp only [Prod.mk.injEq] at hm h
    rw [← h.2, ← hm.2]
    simp

/-- C14: a successful run of the version export task for a message named
`projects/P/locations/global/apis/A/versions/V` with directory `D` makes the directory of
`D/apis/A/versions/V/info.yaml` and writes the encoded version model to exactly that file;
and the version tasks `ExportAPIVersion` sends for root `R` have the directory
`filepath.Join(R, P)`, where `P` is the project of the version name it is called with. -/
theorem patch.exportVersion_file {σ : Type} (env : patch.ExportEnv σ) :
    (∀ (message : rpc.ApiVersion) (P A V dir : String) (w w1 : patch.Session σ),
      names.validID P = true → names.validID A = true → names.validID V = true →
      message.Name = "projects/" ++ P ++ "/locations/global/apis/" ++ A ++ "/versions/" ++ V →
      patch.exportVersionTask.Run env message dir w = (none, w1) →
      ∃ model bytes,
        patch.NewApiVersion env.toEnv message false { state := w.state, trace := [] }
          = (.ok model, { state := w.state, trace := [] }) ∧
        env.EncodeVersion model = .ok bytes ∧
        w1.effects = w.effects ++
          [.Infof ("Exported " ++ message.Name),
            .MkdirAll (env.Dir (dir ++ "/apis/" ++ A ++ "/versions/" ++ V ++ "/info.yaml")) 0o777,
            .WriteFile (dir ++ "/apis/" ++ A ++ "/versions/" ++ V ++ "/info.yaml") bytes 0o644]) ∧
    (∀ (versionName : names.Version) (recursive : Bool) (root : String) (w : patch.Session σ)
      (versions : List rpc.ApiVersion) (e1 : Option Error) (s1 : σ),
      env.ListVersions versionName.String w.state = ((versions, e1), s1) →
      ∃ rest, (patch.ExportAPIVersion env versionName recursive root w).2.effects =
          w.effects ++ patch.block (.ListVersions versionName.String) versions
            (fun m => .exportVersionTask m (env.Join root versionName.ProjectID)) ++ rest ∧
        (recursive = false → rest = [])) := by
  constructor
  · intro message P A V dir w w1 hP hA hV hname hrun
    have hnew := patch.newApiVersion_flat_ok env.toEnv message
      { state := w.state, trace := [] } P A V hP hA hV hname
    simp only [patch.exportVersionTask.Run, patch.viaVersion, hnew] at hrun
    cases henc : env.EncodeVersion
        { Header :=
            { ApiVersion := env.RegistryV1
              Kind := "Version"
              Metadata :=
                { Name := V
                  Parent := "apis/" ++ A
                  Labels := message.Labels
                  Annotations := message.Annotations } }
          Data :=
            { DisplayName := message.DisplayName
              Description := message.Description
              State := message.State
              PrimarySpec := message.PrimarySpec
              ApiSpecs := []
              Artifacts := [] } } with
    | error e =>
      rw [henc] at hrun
      cases hrun
    | ok bytes =>
      rw [henc] at hrun
      refine ⟨_, bytes, hnew, henc, ?_⟩
      have hfile : dir ++ "/" ++ ("apis/" ++ A) ++ "/versions/" ++ V ++ "/info.yaml"
          = dir ++ "/apis/" ++ A ++ "/versions/" ++ V ++ "/info.yaml" := by
        apply String.ext
        simp [String.data_append]
      simp only at hrun
      rw [hfile] at hrun
      have := (patch.writeInDir_ok env _ bytes _ _ w1 hrun).1
      rw [this]
      simp [patch.note]
  · intro versionName recursive root w versions e1 s1 h1
    cases recursive with
    | false =>
      refine ⟨[], ?_, fun _ => rfl⟩
      cases e1 <;>
        simp [patch.ExportAPIVersion, patch.andThen, patch.listAndSubmit, patch.block, h1]
    | true =>
      cases e1 with
      | some e =>
        refine ⟨[], ?_, fun h => by cases h⟩
        simp [patch.ExportAPIVersion, patch.andThen, patch.listAndSubmit, patch.block, h1]
      | none =>
        have H : patch.AddsPrefixOf
            (patch.andThen
              (patch.listAndSubmit (.ListSpecs (versionName.Spec "-").String)
                (env.ListSpecs (versionName.Spec "-").String)
                (fun m => .exportSpecTask m (env.Join root versionName.ProjectID)))
              (patch.andThen
                (patch.listAndSubmit (.ListArtifacts (versionName.Artifact "").String)
                  (env.ListArtifacts (versionName.Artifact "").String)
                  (fun m => .exportArtifactTask m (env.Join root versionName.ProjectID)))
                (patch.listAndSubmit
                  (.ListArtifacts ((versionName.Spec "-").Artifact "").String)
                  (env.ListArtifacts ((versionName.Spec "-").Artifact "").String)
                  (fun m => .exportArtifactTask m (env.Join root versionName.ProjectID))))) _ :=
          patch.addsPrefixOf_andThen _ _ _ _ _
            (patch.addsPrefixOf_andThen _ _ _ _ _ (patch.addsPrefixOf_listAndSubmit _ _ _))
        obtain ⟨done, hd, _⟩ := H
          { state := s1
            effects := w.effects ++ patch.block (.ListVersions versionName.String) versions
              (fun m => .exportVersionTask m (env.Join root versionName.ProjectID)) }
        refine ⟨done, ?_, fun h => by cases h⟩
        simp only [patch.ExportAPIVersion, patch.andThen, patch.listAndSubmit, h1,
          Bool.not_true, Bool.false_eq_true, if_false]
        simp only [patch.andThen, patch.listAndSubmit, patch.block] at hd
        simp only [patch.block]
        exact hd

/-- C15: when the artifact converts and its kind is not the generic `Artifact`, a
successful run of the artifact export task with directory `D` makes the directory of the
file and writes the encoded artifact to `D/artifacts/<name>.yaml` when the parent of the
model is empty and to `D/<parent>/artifacts/<name>.yaml` otherwise; and `ExportArtifact`
for root `R` looks the artifact up once and, when it is found, sends one task whose
directory is `filepath.Join(R, project of the artifact name)`. -/
theorem patch.exportArtifact_file {σ : Type} (env : patch.ExportEnv σ) :
    (∀ (message : rpc.Artifact) (dir : String) (w w1 : patch.Session σ)
      (artifact : models.Artifact) (s1 : σ),
      env.NewArtifact message w.state = (.ok artifact, s1) →
      artifact.Header.Kind ≠ "Artifact" →
      patch.exportArtifactTask.Run env message dir w = (none, w1) →
      ∃ bytes, env.EncodeArtifact artifact = .ok bytes ∧
        (artifact.Header.Metadata.Parent = "" →
          w1.effects = w.effects ++
            [.NewArtifact message, .Infof ("Exported " ++ message.Name),
              .MkdirAll
                (env.Dir (dir ++ "/artifacts/" ++ artifact.Header.Metadata.Name ++ ".yaml"))
                0o777,
              .WriteFile (dir ++ "/artifacts/" ++ artifact.Header.Metadata.Name ++ ".yaml")
                bytes 0o777]) ∧
        (artifact.Header.Metadata.Parent ≠ "" →
          w1.effects = w.effects ++
            [.NewArtifact message, .Infof ("Exported " ++ message.Name),
              .MkdirAll
                (env.Dir (dir ++ "/" ++ artifact.Header.Metadata.Parent ++ "/artifacts/"
                  ++ artifact.Header.Metadata.Name ++ ".yaml")) 0o777,
              .WriteFile
                (dir ++ "/" ++ artifact.Header.Metadata.Parent ++ "/artifacts/"
                  ++ artifact.Header.Metadata.Name ++ ".yaml") bytes 0o777])) ∧
    (∀ (artifactName : names.Artifact) (root : String) (w : patch.Session σ),
      (∀ message s1, env.client.GetArtifact artifactName.String w.state = (.ok message, s1) →
        patch.ExportArtifact env artifactName root w =
          (none,
            { state := s1
              effects := w.effects ++
                [.GetArtifact artifactName.String,
                  .Submit (.exportArtifactTask message
                    (env.Join root artifactName.ProjectID))] })) ∧
      (∀ e s1, env.client.GetArtifact artifactName.String w.state = (.error e, s1) →
        patch.ExportArtifact env artifactName root w =
          (some e, { state := s1, effects := w.effects ++ [.GetArtifact artifactName.String] })))
    := by
  constructor
  · intro message dir w w1 artifact s1 hnew hkind hrun
    simp only [patch.exportArtifactTask.Run, patch.perform, hnew, hkind, if_false] at hrun
    cases henc : env.EncodeArtifact artifact with
    | error e =>
      rw [henc] at hrun
      cases hrun
    | ok bytes =>
      rw [henc] at hrun
      refine ⟨bytes, rfl, ?_, ?_⟩
      · intro hp
        simp only [hp, if_true] at hrun
        have := (patch.writeInDir_ok env _ bytes _ _ w1 hrun).1
        rw [this]
        simp [patch.note]
      · intro hp
        simp only [hp, if_false] at hrun
        have := (patch.writeInDir_ok env _ bytes _ _ w1 hrun).1
        rw [this]
        simp [patch.note]
  · intro artifactName root w
    constructor
    · intro message s1 h
      simp [patch.ExportArtifact, core.GetArtifact, h, core.invoke]
    · intro e s1 h
      simp [patch.ExportArtifact, core.GetArtifact, h, core.failed]

/-- C16: a successful run of the spec export task makes the directory of
`D/<parent>/specs/<name>/info.yaml` and writes the encoded spec model to that file. If the
`Filename` of the message is empty it requests no contents and writes nothing else.
Otherwise it requests the contents once and writes them to `filepath.Join` of that
directory and `Filename`: what `core.GUnzippedBytes` gives for them when the content type
contains `+gzip`, and the contents as they are otherwise. -/
theorem patch.exportSpec_files {σ : Type} (env : patch.ExportEnv σ) (message : rpc.ApiSpec)
    (dir : String) (w w1 : patch.Session σ) (spec : models.ApiSpec) (s1 : σ)
    (hnew : env.NewApiSpec message false w.state = (.ok spec, s1))
    (hrun : patch.exportSpecTask.Run env message dir w = (none, w1)) :
    ∃ bytes, env.EncodeSpec spec = .ok bytes ∧
      (message.Filename = "" →
        w1.effects = w.effects ++
          [.NewApiSpec message false, .Infof ("Exported " ++ message.Name),
            .MkdirAll
              (env.Dir (dir ++ "/" ++ spec.Header.Metadata.Parent ++ "/specs/"
                ++ spec.Header.Metadata.Name ++ "/info.yaml")) 0o777,
            .WriteFile
              (dir ++ "/" ++ spec.Header.Metadata.Parent ++ "/specs/"
                ++ spec.Header.Metadata.Name ++ "/info.yaml") bytes 0o644]) ∧
      (message.Filename ≠ "" →
        ∃ contents : rpc.HttpBody,
          (env.client.GetApiSpecContents message.Name
            (env.WriteFile
              (dir ++ "/" ++ spec.Header.Metadata.Parent ++ "/specs/"
                ++ spec.Header.Metadata.Name ++ "/info.yaml") bytes 0o644
              (env.MkdirAll
                (env.Dir (dir ++ "/" ++ spec.Header.Metadata.Parent ++ "/specs/"
                  ++ spec.Header.Metadata.Name ++ "/info.yaml")) 0o777 s1).2).2).1
            = .ok contents ∧
          w1.effects = w.effects ++
            [.NewApiSpec message false, .Infof ("Exported " ++ message.Name),
              .MkdirAll
                (env.Dir (dir ++ "/" ++ spec.Header.Metadata.Parent ++ "/specs/"
                  ++ spec.Header.Metadata.Name ++ "/info.yaml")) 0o777,
              .WriteFile
                (dir ++ "/" ++ spec.Header.Metadata.Parent ++ "/specs/"
                  ++ spec.Header.Metadata.Name ++ "/info.yaml") bytes 0o644,
              .GetApiSpecContents message.Name,
              .WriteFile
                (env.Join
                  (env.Dir (dir ++ "/" ++ spec.Header.Metadata.Parent ++ "/specs/"
                    ++ spec.Header.Metadata.Name ++ "/info.yaml"))
                  message.Filename)
                (if patch.Contains contents.ContentType "+gzip" = true then
                  (env.GUnzippedBytes contents.Data).1
                else contents.Data) 0o644]) := by
  simp only [patch.exportSpecTask.Run, patch.perform, hnew] at hrun
  cases henc : env.EncodeSpec spec with
  | error e =>
    rw [henc] at hrun
    cases hrun
  | ok bytes =>
    rw [henc] at hrun
    simp only at hrun
    refine ⟨bytes, rfl, ?_, ?_⟩
    · intro hf
      split at hrun
      · cases hrun
      · rename_i w2 hw
        have := (patch.writeInDir_ok env _ bytes _ _ w2 hw).1
        simp only [hf, if_true, Prod.mk.injEq, true_and] at hrun
        rw [← hrun, this]
        simp [patch.note]
    · intro hf
      split at hrun
      · cases hrun
      · rename_i w2 hw
        have hw2 := patch.writeInDir_ok env _ bytes _ _ w2 hw
        simp only [hf, if_false] at hrun
        split at hrun
        · cases hrun
        · rename_i contents w3 hc
          simp only [Prod.mk.injEq] at hc hrun
          refine ⟨contents, ?_, ?_⟩
          · rw [← hc.1, hw2.2]
            rfl
          · rw [← hrun.2, ← hc.2, hw2.1]
            simp [patch.note]

/-- C20: the artifact export task skips an artifact that does not convert, and one whose
converted kind is the generic `Artifact`: the run returns `nil`, makes no directory and
writes no file, and only logs a warning that starts with `Skipped` and names the
artifact. -/
theorem patch.exportArtifact_skips {σ : Type} (env : patch.ExportEnv σ)
    (message : rpc.Artifact) (dir : String) (w : patch.Session σ) :
    (∀ e s1, env.NewArtifact message w.state = (.error e, s1) →
      patch.exportArtifactTask.Run env message dir w =
        (none,
          { state := s1
            effects := w.effects ++
              [.NewArtifact message, .Warnf ("Skipped " ++ message.Name ++ ": " ++ e)] })) ∧
    (∀ artifact s1, env.NewArtifact message w.state = (.ok artifact, s1) →
      artifact.Header.Kind = "Artifact" →
      patch.exportArtifactTask.Run env message dir w =
        (none,
          { state := s1
            effects := w.effects ++
              [.NewArtifact message, .Warnf ("Skipped " ++ message.Name)] })) := by
  constructor
  · intro e s1 h
    simp [patch.exportArtifactTask.Run, patch.perform, patch.note, h]
  · intro artifact s1 h hk
    simp [patch.exportArtifactTask.Run, patch.perform, patch.note, h, hk]

/-- Witness of C12: the export of `petstore`, without and with recursion. -/
theorem patch.exportAPI_tasks_witness :
    patch.ExportAPI examples.exportEnv ⟨"demo", "petstore"⟩ false "out" ⟨0, []⟩ =
      (none,
        ⟨1, [.ListAPIs "projects/demo/locations/global/apis/petstore",
          .Submit (.exportAPITask examples.petstore "out/demo")]⟩) ∧
    patch.ExportAPI examples.exportEnv ⟨"demo", "petstore"⟩ true "out" ⟨0, []⟩ =
      (none, ⟨8, examples.apiExport⟩) :=
  ⟨(patch.exportAPI_tasks examples.exportEnv ⟨"demo", "petstore"⟩ "out" ⟨0, []⟩
      [examples.petstore] [examples.version] [] [] [examples.lifecycle] [examples.lifecycle]
      [examples.lifecycle] [examples.lifecycle] none none none none none none none none
      1 2 3 4 5 6 7 8 rfl rfl rfl rfl rfl rfl rfl rfl).1,
    (patch.exportAPI_tasks examples.exportEnv ⟨"demo", "petstore"⟩ "out" ⟨0, []⟩
      [examples.petstore] [examples.version] [] [] [examples.lifecycle] [examples.lifecycle]
      [examples.lifecycle] [examples.lifecycle] none none none none none none none none
      1 2 3 4 5 6 7 8 rfl rfl rfl rfl rfl rfl rfl rfl).2.2
      ⟨rfl, rfl, rfl, rfl, rfl, rfl, rfl, rfl⟩⟩

/-- Witness of C13: the export of the project `demo`. -/
theorem patch.exportProject_tasks_witness :
    patch.ExportProject examples.exportEnv ⟨"demo"⟩ "out" ⟨0, []⟩ =
      (none, ⟨9, examples.projectExport⟩) :=
  (patch.exportProject_tasks examples.exportEnv ⟨"demo"⟩ "out" ⟨0, []⟩
    [examples.petstore] [examples.version] [] [] [examples.lifecycle] [examples.lifecycle]
    [examples.lifecycle] [examples.lifecycle] [examples.lifecycle]
    none none none none none none none none none
    1 2 3 4 5 6 7 8 9 rfl rfl rfl rfl rfl rfl rfl rfl rfl).2
    ⟨rfl, rfl, rfl, rfl, rfl, rfl, rfl, rfl, rfl⟩

/-- Witness of C14: the export of version `v1` of `petstore` into `out/demo`, and the
tasks of `ExportAPIVersion` for root `out`. -/
theorem patch.exportVersion_file_witness :
    (∃ bytes,
      (patch.exportVersionTask.Run examples.exportEnv examples.version "out/demo" ⟨0, []⟩).2.effects
        = [.Infof "Exported projects/demo/locations/global/apis/petstore/versions/v1",
            .MkdirAll "out/demo/apis/petstore/versions/v1" 0o777,
            .WriteFile "out/demo/apis/petstore/versions/v1/info.yaml" bytes 0o644]) ∧
    (∃ rest,
      (patch.ExportAPIVersion examples.exportEnv ⟨"demo", "petstore", "v1"⟩ false "out"
          ⟨0, []⟩).2.effects
        = [.ListVersions "projects/demo/locations/global/apis/petstore/versions/v1",
            .Submit (.exportVersionTask examples.version "out/demo")] ++ rest ∧
      rest = []) := by
  constructor
  · obtain ⟨_, bytes, _, _, h⟩ :=
      (patch.exportVersion_file examples.exportEnv).1 examples.version "demo" "petstore" "v1"
        "out/demo" ⟨0, []⟩
        (patch.exportVersionTask.Run examples.exportEnv examples.version "out/demo" ⟨0, []⟩).2
        (by decide) (by decide) (by decide) (by decide) rfl
    exact ⟨bytes, h⟩
  · obtain ⟨rest, h, hr⟩ :=
      (patch.exportVersion_file examples.exportEnv).2 ⟨"demo", "petstore", "v1"⟩ false "out"
        ⟨0, []⟩ [examples.version] none 1 rfl
    exact ⟨rest, h, hr rfl⟩

/-- Witness of C15: the export of the project artifact `lifecycle` into `out/demo`, and
the task `ExportArtifact` sends for an artifact that is not found. -/
theorem patch.exportArtifact_file_witness :
    (∃ bytes,
      (patch.exportArtifactTask.Run examples.exportEnv examples.lifecycle "out/demo"
          ⟨0, []⟩).2.effects
        = [.NewArtifact examples.lifecycle,
            .Infof "Exported projects/demo/locations/global/artifacts/lifecycle",
            .MkdirAll "out/demo/artifacts" 0o777,
            .WriteFile "out/demo/artifacts/lifecycle.yaml" bytes 0o777]) ∧
    patch.ExportArtifact examples.exportEnv
        (({ ProjectID := "demo" } : names.Project).Artifact "lifecycle") "out" ⟨0, []⟩
      = (some "not found",
          ⟨1, [.GetArtifact "projects/demo/locations/global/artifacts/lifecycle"]⟩) := by
  constructor
  · obtain ⟨bytes, _, h, _⟩ :=
      (patch.exportArtifact_file examples.exportEnv).1 examples.lifecycle "out/demo" ⟨0, []⟩
        (patch.exportArtifactTask.Run examples.exportEnv examples.lifecycle "out/demo"
          ⟨0, []⟩).2
        ⟨examples.header "Lifecycle" "lifecycle" "", ""⟩ 1 rfl (by decide) rfl
    exact ⟨bytes, h rfl⟩
  · exact ((patch.exportArtifact_file examples.exportEnv).2
      (({ ProjectID := "demo" } : names.Project).Artifact "lifecycle") "out" ⟨0, []⟩).2
      "not found" 1 rfl

/-- Witness of C16: the export of the spec `openapi`, whose contents are gzipped. -/
theorem patch.exportSpec_files_witness :
    ∃ bytes data,
      (patch.exportSpecTask.Run examples.exportEnv examples.openapi "out/demo" ⟨0, []⟩).2.effects
        = [.NewApiSpec examples.openapi false,
            .Infof "Exported projects/demo/locations/global/apis/petstore/versions/v1/specs/openapi",
            .MkdirAll "out/demo/apis/petstore/versions/v1/specs/openapi" 0o777,
            .WriteFile "out/demo/apis/petstore/versions/v1/specs/openapi/info.yaml" bytes 0o644,
            .GetApiSpecContents
              "projects/demo/locations/global/apis/petstore/versions/v1/specs/openapi",
            .WriteFile "out/demo/apis/petstore/versions/v1/specs/openapi/openapi.yaml" data
              0o644] := by
  obtain ⟨bytes, _, _, h⟩ :=
    patch.exportSpec_files examples.exportEnv examples.openapi "out/demo" ⟨0, []⟩
      (patch.exportSpecTask.Run examples.exportEnv examples.openapi "out/demo" ⟨0, []⟩).2
      ⟨examples.header "" "openapi" "apis/petstore/versions/v1", ""⟩ 1 rfl rfl
  obtain ⟨contents, _, h2⟩ := h (by decide)
  exact ⟨bytes, _, h2⟩

/-- Witness of C20: an artifact that does not convert, and one of the generic kind. -/
theorem patch.exportArtifact_skips_witness :
    patch.exportArtifactTask.Run examples.exportEnv examples.broken "out/demo" ⟨0, []⟩ =
      (none,
        ⟨1, [.NewArtifact examples.broken,
          .Warnf ("Skipped " ++ examples.broken.Name ++ ": " ++ "unsupported")]⟩) ∧
    patch.exportArtifactTask.Run examples.exportEnv examples.blob "out/demo" ⟨0, []⟩ =
      (none,
        ⟨1, [.NewArtifact examples.blob, .Warnf ("Skipped " ++ examples.blob.Name)]⟩) :=
  ⟨(patch.exportArtifact_skips examples.exportEnv examples.broken "out/demo" ⟨0, []⟩).1
      "unsupported" 1 rfl,
    (patch.exportArtifact_skips examples.exportEnv examples.blob "out/demo" ⟨0, []⟩).2
      ⟨examples.header "Artifact" "blob" "apis/petstore", ""⟩ 1 rfl rfl⟩

/-! ## `cmd/check/rules/rule102` -/

/-- C17 does not hold of the code: the rule that package `rule102` registers never looks
at `recommended_version`. The guard and the check give the same for every value of that
field; an Api with the recommended version `bad` and no recommended deployment is not
checked at all, and one that recommends an existing deployment of its own is checked
without a problem. -/
theorem rule102.recommended_version_not_checked {σ : Type} (quote : String → String)
    (client : RegistryClient σ) :
    (∀ (a : rpc.Api) (v : String) (s : σ),
      (rule102.recommendedDeploymentRef quote client).check { a with RecommendedVersion := v } s
        = (rule102.recommendedDeploymentRef quote client).check a s) ∧
    (∀ s : σ, (rule102.recommendedDeploymentRef quote client).check examples.badVersionApi s
      = ([], s)) ∧
    (rule102.recommendedDeploymentRef quote examples.deployed).check
      examples.badVersionGoodDeploymentApi 0 = ([], 1) := by
  refine ⟨fun a v s => rfl, fun s => ?_, ?_⟩
  · have h : (rule102.recommendedDeploymentRef quote client).OnlyIf examples.badVersionApi
        = false := rfl
    simp [lint.ApiRule.check, h]
  · have h : (rule102.recommendedDeploymentRef quote examples.deployed).OnlyIf
        examples.badVersionGoodDeploymentApi = true := rfl
    rw [lint.ApiRule.check, if_pos h]
    rfl


/-! ## `core/get.go`: fetching contents -/

/-- C27: `FetchSpecContents` and `FetchArtifactContents` make no request, return `nil` and
leave the resource as it is when its contents are not `nil`; otherwise they make one
contents request for the name of the resource and, when it succeeds, set `Contents` to the
data and `MimeType` to the content type returned and change no other field; when it
fails, they return its error and leave the resource as it is. -/
theorem core.fetchContents_frame {σ : Type} (client : RegistryClient σ) (s : σ) :
    (∀ spec : rpc.ApiSpec,
      (spec.Contents ≠ none → core.FetchSpecContents client spec s = (none, spec, s)) ∧
      (spec.Contents = none → ∀ contents s1,
        client.GetApiSpecContents spec.Name s = (.ok contents, s1) →
        core.FetchSpecContents client spec s =
          (none,
            { Name := spec.Name, Filename := spec.Filename, MimeType := contents.ContentType,
              Contents := contents.Data }, s1)) ∧
      (spec.Contents = none → ∀ e s1,
        client.GetApiSpecContents spec.Name s = (.error e, s1) →
        core.FetchSpecContents client spec s = (some e, spec, s1))) ∧
    (∀ artifact : rpc.Artifact,
      (artifact.Contents ≠ none →
        core.FetchArtifactContents client artifact s = (none, artifact, s)) ∧
      (artifact.Contents = none → ∀ contents s1,
        client.GetArtifactContents artifact.Name s = (.ok contents, s1) →
        core.FetchArtifactContents client artifact s =
          (none,
            { Name := artifact.Name, MimeType := contents.ContentType,
              Contents := contents.Data }, s1)) ∧
      (artifact.Contents = none → ∀ e s1,
        client.GetArtifactContents artifact.Name s = (.error e, s1) →
        core.FetchArtifactContents client artifact s = (some e, artifact, s1))) := by
  constructor
  · intro spec
    refine ⟨?_, ?_, ?_⟩
    · intro h
      simp [core.FetchSpecContents, h]
    · intro h contents s1 hc
      simp [core.FetchSpecContents, h, hc]
    · intro h e s1 hc
      simp [core.FetchSpecContents, h, hc]
  · intro artifact
    refine ⟨?_, ?_, ?_⟩
    · intro h
      simp [core.FetchArtifactContents, h]
    · intro h contents s1 hc
      simp [core.FetchArtifactContents, h, hc]
    · intro h e s1 hc
      simp [core.FetchArtifactContents, h, hc]

/-- Witness of C27: the contents of the spec `openapi` are fetched once; a spec that has
contents is left alone. -/
theorem core.fetchContents_frame_witness :
    core.FetchSpecContents examples.client examples.openapi 0 =
      (none,
        { Name := examples.openapi.Name, Filename := examples.openapi.Filename,
          MimeType := "application/x.openapi", Contents := some [111, 112] }, 1) ∧
    core.FetchSpecContents examples.client { examples.openapi with Contents := some [] } 0 =
      (none, { examples.openapi with Contents := some [] }, 0) :=
  ⟨((core.fetchContents_frame examples.client 0).1 examples.openapi).2.1 rfl
      ⟨"application/x.openapi", some [111, 112]⟩ 1 rfl,
    ((core.fetchContents_frame examples.client 0).1
      { examples.openapi with Contents := some [] }).1 (by decide)⟩

/-! ## `cmd/check/rules/rule102`: the recommended deployment -/

/-- C26: `recommendedDeploymentRef` applies exactly when `recommended_deployment` holds a
character that is not white space. For an Api with a valid name, `ApplyToApi` reports at
most one problem, of severity `ERROR`: `is not a valid ApiDeployment name` when the
untrimmed value does not parse as a deployment name; otherwise `is not a child of this
Api` when the Api of the deployment is not this Api; otherwise `not found in registry`
when the lookup fails; otherwise nothing. The registry is queried only in the last two
cases: in the first two the state is left as it is. -/
theorem rule102.recommendedDeploymentRef_problems {σ : Type} (quote : String → String)
    (client : RegistryClient σ) (a : rpc.Api) (apiName : names.Api)
    (hname : names.ParseApi a.Name = .ok apiName) (s : σ) :
    ((rule102.recommendedDeploymentRef quote client).OnlyIf a = true ↔
      ∃ c ∈ a.RecommendedDeployment.data, isSpace c = false) ∧
    (∀ err, names.ParseDeployment a.RecommendedDeployment = .error err →
      (rule102.recommendedDeploymentRef quote client).ApplyToApi a s =
        ([{ Severity := .ERROR
            Message := "recommended_deployment " ++ quote a.RecommendedDeployment
              ++ " is not a valid ApiDeployment name."
            Suggestion := "Parse error: " ++ err }], s)) ∧
    (∀ d, names.ParseDeployment a.RecommendedDeployment = .ok d → d.Api ≠ apiName →
      (rule102.recommendedDeploymentRef quote client).ApplyToApi a s =
        ([{ Severity := .ERROR
            Message := "recommended_deployment " ++ quote a.RecommendedDeployment
              ++ " is not a child of this Api."
            Suggestion := "Correct the recommended_deployment." }], s)) ∧
    (∀ d, names.ParseDeployment a.RecommendedDeployment = .ok d → d.Api = apiName →
      (∀ e s1, client.GetApiDeployment a.RecommendedDeployment s = (.error e, s1) →
        (rule102.recommendedDeploymentRef quote client).ApplyToApi a s =
          ([{ Severity := .ERROR
              Message := "recommended_deployment " ++ quote a.RecommendedDeployment
                ++ " not found in registry."
              Suggestion := "Correct the recommended_deployment." }], s1)) ∧
      (∀ found s1, client.GetApiDeployment a.RecommendedDeployment s = (.ok found, s1) →
        (rule102.recommendedDeploymentRef quote client).ApplyToApi a s = ([], s1))) := by
  refine ⟨?_, ?_, ?_, ?_⟩
  · simp only [rule102.recommendedDeploymentRef, decide_eq_true_eq, ne_eq,
      trimSpace_eq_empty]
    constructor
    · intro h
      by_contra hc
      apply h
      intro c hcm
      by_contra hsp
      exact hc ⟨c, hcm, by simpa using hsp⟩
    · rintro ⟨c, hcm, hsp⟩ h
      rw [h c hcm] at hsp
      cases hsp
  · intro err hp
    simp [rule102.recommendedDeploymentRef, hp]
  · intro d hp hne
    simp [rule102.recommendedDeploymentRef, hp, hname, hne]
  · intro d hp heq
    constructor
    · intro e s1 hg
      simp [rule102.recommendedDeploymentRef, hp, hname, heq, hg]
    · intro found s1 hg
      simp [rule102.recommendedDeploymentRef, hp, hname, heq, hg]

/-- Witness of C26: the Api `petstore` recommends its deployment `prod`, which is found. -/
theorem rule102.recommendedDeploymentRef_problems_witness :
    (rule102.recommendedDeploymentRef id examples.deployed).ApplyToApi
      examples.badVersionGoodDeploymentApi 0 = ([], 1) :=
  ((rule102.recommendedDeploymentRef_problems id examples.deployed
      examples.badVersionGoodDeploymentApi ⟨"demo", "petstore"⟩ rfl 0).2.2.2
    ⟨"demo", "petstore", "prod"⟩ rfl rfl).2
    ⟨"projects/demo/locations/global/apis/petstore/deployments/prod", "", ""⟩ 1 rfl

/-! ## `patch/version.go`: the order of the calls of an import -/

/-- C28: `applyApiVersionPatch` makes no call and returns the error of `versionName` when
`versionName` fails. Otherwise it issues, in this order, the update of the version, the
patches of the nested specs in declared order and the patches of the nested artifacts in
declared order, stops at the first call that fails and returns its error: the calls made
are the first `k` of that list, all of them when `nil` is returned and at least one when an
error is returned, and the state is the one these `k` calls have left: nothing is undone. -/
theorem patch.applyApiVersionPatch_call_order {σ : Type} (env : patch.Env σ)
    (version : models.ApiVersion) (parent : String) (w : patch.World σ) :
    (∀ e, patch.versionName parent version.Header.Metadata = .error e →
      patch.applyApiVersionPatch env version parent w = (some e, w)) ∧
    (∀ name, patch.versionName parent version.Header.Metadata = .ok name →
      patch.applyApiVersionPatch env version parent w =
        patch.issueInOrder env (patch.patchCalls name version) w ∧
      ∃ k, k ≤ (patch.patchCalls name version).length ∧
        (patch.applyApiVersionPatch env version parent w).2.trace =
          w.trace ++ (patch.patchCalls name version).take k ∧
        (patch.applyApiVersionPatch env version parent w).2.state =
          patch.stateAfter env ((patch.patchCalls name version).take k) w.state ∧
        ((patch.applyApiVersionPatch env version parent w).1 = none →
          k = (patch.patchCalls name version).length) ∧
        (∀ e, (patch.applyApiVersionPatch env version parent w).1 = some e → 0 < k)) := by
  constructor
  · intro e he
    simp [patch.applyApiVersionPatch, he]
  · intro name hname
    rw [patch.applyApiVersionPatch_eq env version parent name hname w]
    exact ⟨rfl, patch.issueInOrder_trace env (patch.patchCalls name version) w⟩

/-- Witness of C28: the patch of the second nested spec fails, so the update and two spec
patches are issued, and neither the third spec nor the artifact is patched. -/
theorem patch.applyApiVersionPatch_call_order_witness :
    patch.applyApiVersionPatch examples.nestedEnv examples.nestedVersion
        "projects/demo/locations/global" ⟨0, []⟩ =
      patch.issueInOrder examples.nestedEnv
        (patch.patchCalls ⟨"demo", "petstore", "v1"⟩ examples.nestedVersion) ⟨0, []⟩ ∧
    (patch.issueInOrder examples.nestedEnv
        (patch.patchCalls ⟨"demo", "petstore", "v1"⟩ examples.nestedVersion) ⟨0, []⟩).1 =
      some "invalid spec" ∧
    (patch.issueInOrder examples.nestedEnv
        (patch.patchCalls ⟨"demo", "petstore", "v1"⟩ examples.nestedVersion) ⟨0, []⟩).2.trace =
      (patch.patchCalls ⟨"demo", "petstore", "v1"⟩ examples.nestedVersion).take 3 ∧
    (patch.issueInOrder examples.nestedEnv
        (patch.patchCalls ⟨"demo", "petstore", "v1"⟩ examples.nestedVersion) ⟨0, []⟩).2.state = 3 :=
  ⟨((patch.applyApiVersionPatch_call_order examples.nestedEnv examples.nestedVersion
      "projects/demo/locations/global" ⟨0, []⟩).2 ⟨"demo", "petstore", "v1"⟩ rfl).1,
    rfl, rfl, rfl⟩

/-! ## `patch/version.go`: the nested specs of an exported version -/

/-- C22: let the name of the version message parse and let the listing of its specs visit
`messages` and end with `listErr`. With `nested` true, `NewApiVersion` converts the visited
messages in order, each in the state the conversions before it have left. The error of the
first conversion that fails is returned, with no model; if no conversion fails, the error of
the listing is returned, if it has one, and else the error of the collection of the
artifacts, if it fails; otherwise the specs of the model are the conversions of the visited
messages, one for each message and in that order, each with `ApiVersion`, `Kind` and
`Metadata.Parent` empty. On import, `applyApiVersionPatch` issues the update of the version
and then the patch of every nested spec, in declared order, with the full name of the
version as parent and no file name: the patch of a nested spec is issued whenever the calls
before it return no error, no other spec patch is issued, and all have been issued when
`nil` is returned. -/
theorem patch.newApiVersion_nested_specs {σ : Type} (env : patch.Env σ)
    (message : rpc.ApiVersion) (versionName : names.Version)
    (hname : names.ParseVersion message.Name = .ok versionName) (w : patch.World σ)
    (messages : List rpc.ApiSpec) (listErr : Option Error) (s0 : σ)
    (hlist : env.ListSpecs (versionName.Spec "-").String w.state = ((messages, listErr), s0)) :
    (∀ e w2,
      patch.issueInOrder env (patch.conversionCalls messages)
        { state := s0, trace := w.trace ++ [.ListSpecs (versionName.Spec "-").String] }
          = (some e, w2) →
      patch.NewApiVersion env message true w = (.error e, w2)) ∧
    (∀ i m e, messages[i]? = some m →
      (∀ j m1, j < i → messages[j]? = some m1 →
        ∃ c, (env.NewApiSpec m1 true
          (patch.stateAfter env ((patch.conversionCalls messages).take j) s0)).1 = .ok c) →
      (env.NewApiSpec m true
        (patch.stateAfter env ((patch.conversionCalls messages).take i) s0)).1 = .error e →
      (patch.NewApiVersion env message true w).1 = .error e) ∧
    (∀ w2,
      patch.issueInOrder env (patch.conversionCalls messages)
        { state := s0, trace := w.trace ++ [.ListSpecs (versionName.Spec "-").String] }
          = (none, w2) →
      (∀ e, listErr = some e → patch.NewApiVersion env message true w = (.error e, w2)) ∧
      (listErr = none → ∀ e s3,
        env.collectChildArtifacts (versionName.Artifact "-").String w2.state = (.error e, s3) →
        patch.NewApiVersion env message true w =
          (.error e,
            { state := s3
              trace := w2.trace
                ++ [.collectChildArtifacts (versionName.Artifact "-").String] })) ∧
      (listErr = none → ∀ artifacts s3,
        env.collectChildArtifacts (versionName.Artifact "-").String w2.state
          = (.ok artifacts, s3) →
        ∃ convs : List models.ApiSpec,
          patch.NewApiVersion env message true w =
            (.ok (patch.versionModel env versionName message (convs.map patch.inferable)
                artifacts),
              { state := s3
                trace := w2.trace
                  ++ [.collectChildArtifacts (versionName.Artifact "-").String] }) ∧
          convs.length = messages.length ∧
          ∀ i m, messages[i]? = some m → ∃ c, convs[i]? = some c ∧
            (env.NewApiSpec m true
              (patch.stateAfter env ((patch.conversionCalls messages).take i) s0)).1
              = .ok c)) ∧
    ((∀ j m1, messages[j]? = some m1 →
        ∃ c, (env.NewApiSpec m1 true
          (patch.stateAfter env ((patch.conversionCalls messages).take j) s0)).1 = .ok c) →
      (∀ e, listErr = some e → (patch.NewApiVersion env message true w).1 = .error e) ∧
      (listErr = none → ∀ e,
        (env.collectChildArtifacts (versionName.Artifact "-").String
          (patch.stateAfter env (patch.conversionCalls messages) s0)).1 = .error e →
        (patch.NewApiVersion env message true w).1 = .error e)) ∧
    (∀ model w1, patch.NewApiVersion env message true w = (.ok model, w1) →
      listErr = none ∧
      ∃ converted,
        List.Forall₂ (fun m c => ∃ s, (env.NewApiSpec m true s).1 = .ok c) messages converted ∧
        model.Data.ApiSpecs = converted.map patch.inferable ∧
        ∀ spec ∈ model.Data.ApiSpecs,
          spec.Header.ApiVersion = "" ∧ spec.Header.Kind = ""
            ∧ spec.Header.Metadata.Parent = "") ∧
    (∀ e w1, patch.NewApiVersion env message true w = (.error e, w1) →
      (∃ m ∈ messages, ∃ s, (env.NewApiSpec m true s).1 = .error e) ∨
      listErr = some e ∨
      ∃ s, (env.collectChildArtifacts (versionName.Artifact "-").String s).1 = .error e) ∧
    (∀ (version : models.ApiVersion) (parent : String) (name : names.Version),
      patch.versionName parent version.Header.Metadata = .ok name →
      patch.applyApiVersionPatch env version parent w =
        patch.issueInOrder env
          (.UpdateApiVersion (patch.updateRequest name version)
            :: (version.Data.ApiSpecs.map
                (fun spec => patch.Event.applyApiSpecPatch spec name.String "")
              ++ version.Data.Artifacts.map
                (fun artifact => patch.Event.applyArtifactPatch artifact name.String))) w ∧
      (∀ i spec, version.Data.ApiSpecs[i]? = some spec →
        (∀ j ev, j ≤ i → (patch.patchCalls name version)[j]? = some ev →
          (ev.perform env
            (patch.stateAfter env ((patch.patchCalls name version).take j) w.state)).1
            = none) →
        ∃ after, (patch.applyApiVersionPatch env version parent w).2.trace =
          w.trace ++ (patch.patchCalls name version).take (i + 1)
            ++ patch.Event.applyApiSpecPatch spec name.String "" :: after) ∧
      ∃ issued,
        (patch.applyApiVersionPatch env version parent w).2.trace = w.trace ++ issued ∧
        (∀ spec p f, patch.Event.applyApiSpecPatch spec p f ∈ issued →
          p = name.String ∧ f = "" ∧ spec ∈ version.Data.ApiSpecs) ∧
        ((patch.applyApiVersionPatch env version parent w).1 = none →
          ∀ spec ∈ version.Data.ApiSpecs,
            patch.Event.applyApiSpecPatch spec name.String "" ∈ issued)) := by
  have hspec := patch.visitSpecs_spec env messages []
    { state := s0, trace := w.trace ++ [patch.Event.ListSpecs (versionName.Spec "-").String] }
  have hissue := patch.visitSpecs_issue env messages []
    { state := s0, trace := w.trace ++ [patch.Event.ListSpecs (versionName.Spec "-").String] }
  have hrun0 : ∀ le : Option Error, le = listErr →
      patch.NewApiVersion env message true w =
      match patch.visitSpecs env messages []
        { state := s0
          trace := w.trace ++ [patch.Event.ListSpecs (versionName.Spec "-").String] } with
      | (.error e, w2) => (.error e, w2)
      | (.ok specs, w2) =>
        match le with
        | some e => (.error e, w2)
        | none =>
          match patch.record (.collectChildArtifacts (versionName.Artifact "-").String)
              (env.collectChildArtifacts (versionName.Artifact "-").String) w2 with
          | (.error e, w3) => (.error e, w3)
          | (.ok artifacts, w3) =>
            (.ok (patch.versionModel env versionName message specs artifacts), w3) := by
    intro le hle
    subst hle
    simp only [patch.NewApiVersion, hname, patch.record, if_true, hlist]
  have hrun := hrun0 listErr rfl
  have hfirst : ∀ e w2,
      patch.issueInOrder env (patch.conversionCalls messages)
        { state := s0, trace := w.trace ++ [.ListSpecs (versionName.Spec "-").String] }
          = (some e, w2) →
      patch.NewApiVersion env message true w = (.error e, w2) := by
    intro e w2 h
    rw [hrun, hissue.1 e w2 h]
  refine ⟨hfirst, ?_, ?_, ?_, ?_, ?_, ?_⟩
  · intro i m e hm hbefore hfail
    have hev : (patch.conversionCalls messages)[i]? = some (patch.Event.NewApiSpec m true) := by
      simp [patch.conversionCalls, hm]
    obtain ⟨w2, h2⟩ := patch.issueInOrder_first_error env i (patch.conversionCalls messages)
      { state := s0, trace := w.trace ++ [.ListSpecs (versionName.Spec "-").String] }
      (patch.Event.NewApiSpec m true) e hev
      (by
        intro j ev1 hj hev1
        simp only [patch.conversionCalls, List.getElem?_map, Option.map_eq_some'] at hev1
        obtain ⟨m1, hm1, he1⟩ := hev1
        obtain ⟨c, hc⟩ := hbefore j m1 hj hm1
        rw [← he1]
        simp only [patch.Event.perform, hc, errorOf])
      (by simp only [patch.Event.perform, hfail, errorOf])
    rw [hfirst e w2 h2]
  · intro w2 h
    obtain ⟨convs, hv, hlen, hat⟩ := hissue.2 w2 h
    rw [List.nil_append] at hv
    refine ⟨?_, ?_, ?_⟩
    · intro e hl
      rw [hrun, hv, hl]
    · intro hl e s3 hc
      rw [hrun, hv, hl]
      simp [patch.record, hc]
    · intro hl artifacts s3 hc
      refine ⟨convs, ?_, hlen, hat⟩
      rw [hrun, hv, hl]
      simp [patch.record, hc]
  · intro hall
    have hok := patch.issueInOrder_all_ok env (patch.conversionCalls messages)
      { state := s0, trace := w.trace ++ [.ListSpecs (versionName.Spec "-").String] }
      (by
        intro j ev1 hev1
        simp only [patch.conversionCalls, List.getElem?_map, Option.map_eq_some'] at hev1
        obtain ⟨m1, hm1, he1⟩ := hev1
        obtain ⟨c, hc⟩ := hall j m1 hm1
        rw [← he1]
        simp only [patch.Event.perform, hc, errorOf])
    obtain ⟨convs, hv, _, _⟩ := hissue.2 _ hok
    rw [List.nil_append] at hv
    refine ⟨?_, ?_⟩
    · intro e hl
      rw [hrun, hv, hl]
    · intro hl e hfail
      rcases hc : env.collectChildArtifacts (versionName.Artifact "-").String
        (patch.stateAfter env (patch.conversionCalls messages) s0) with ⟨rc, s3⟩
      rw [hc] at hfail
      simp only at hfail
      subst hfail
      rw [hrun, hv, hl]
      simp [patch.record, hc]
  · intro model w1 h
    rw [hrun] at h
    rcases hv : patch.visitSpecs env messages []
      { state := s0
        trace := w.trace ++ [patch.Event.ListSpecs (versionName.Spec "-").String] }
      with ⟨r, w2⟩
    rw [hv] at h
    cases r with
    | error e => simp at h
    | ok specs =>
      obtain ⟨converted, hf, hs⟩ := hspec.1 specs w2 hv
      cases listErr with
      | some e => simp at h
      | none =>
        simp only [patch.record] at h
        rcases hc : env.collectChildArtifacts (versionName.Artifact "-").String w2.state
          with ⟨rc, s3⟩
        cases rc with
        | error e => simp [hc] at h
        | ok artifacts =>
          simp only [hc, Prod.mk.injEq, Except.ok.injEq] at h
          have hm : model.Data.ApiSpecs = converted.map patch.inferable := by
            rw [← h.1, hs]
            simp [patch.versionModel]
          refine ⟨rfl, converted, hf, hm, ?_⟩
          intro spec hmem
          rw [hm, List.mem_map] at hmem
          obtain ⟨c, _, hc2⟩ := hmem
          rw [← hc2]
          exact ⟨rfl, rfl, rfl⟩
  · intro e w1 h
    rw [hrun] at h
    rcases hv : patch.visitSpecs env messages []
      { state := s0
        trace := w.trace ++ [patch.Event.ListSpecs (versionName.Spec "-").String] }
      with ⟨r, w2⟩
    rw [hv] at h
    cases r with
    | error e0 =>
      simp only [Prod.mk.injEq, Except.error.injEq] at h
      left
      rw [← h.1]
      exact hspec.2 e0 w2 hv
    | ok specs =>
      cases listErr with
      | some e0 =>
        simp only [Prod.mk.injEq, Except.error.injEq] at h
        right; left
        rw [← h.1]
      | none =>
        simp only [patch.record] at h
        rcases hc : env.collectChildArtifacts (versionName.Artifact "-").String w2.state
          with ⟨rc, s3⟩
        cases rc with
        | error e0 =>
          simp only [hc, Prod.mk.injEq, Except.error.injEq] at h
          right; right
          exact ⟨w2.state, by rw [hc, ← h.1]⟩
        | ok artifacts => simp [hc] at h
  · intro version parent name hn
    have heq := patch.applyApiVersionPatch_eq env version parent name hn w
    refine ⟨heq, ?_, ?_⟩
    · intro i spec hs hbefore
      rw [heq]
      have hev : (patch.patchCalls name version)[i + 1]?
          = some (patch.Event.applyApiSpecPatch spec name.String "") := by
        have hlt : i < version.Data.ApiSpecs.length := by
          rcases Nat.lt_or_ge i version.Data.ApiSpecs.length with h | h
          · exact h
          · rw [List.getElem?_eq_none h] at hs
            cases hs
        simp only [patch.patchCalls, List.getElem?_cons_succ]
        rw [List.getElem?_append_left (by simpa using hlt)]
        simp [hs]
      exact patch.issueInOrder_issued env (i + 1) (patch.patchCalls name version) w _ hev
        (fun j ev1 hj h1 => hbefore j ev1 (Nat.lt_succ_iff.1 hj) h1)
    · rw [heq]
      obtain ⟨k, hk, ht, _, hnone, _⟩ :=
        patch.issueInOrder_trace env (patch.patchCalls name version) w
      refine ⟨(patch.patchCalls name version).take k, ht, ?_, ?_⟩
      · intro spec p f hmem
        have hin := List.mem_of_mem_take hmem
        simp only [patch.patchCalls, List.mem_cons, List.mem_append, List.mem_map] at hin
        rcases hin with h | ⟨s1, hs1, h⟩ | ⟨a0, _, h⟩
        · cases h
        · cases h
          exact ⟨rfl, rfl, hs1⟩
        · cases h
      · intro hr spec hmem
        rw [hnone hr, List.take_length]
        simp only [patch.patchCalls, List.mem_cons, List.mem_append, List.mem_map]
        exact Or.inr (Or.inl ⟨spec, hmem, rfl⟩)

/-- Witness of C22: the listing visits the spec `openapi`, whose conversion has a parent and
comes back without it; when no spec converts, the conversion error is returned; the import
patches the second nested spec once the update and the first patch have returned no error;
and when no patch fails, every nested spec has been patched under the name of the
version. -/
theorem patch.newApiVersion_nested_specs_witness :
    (∃ convs : List models.ApiSpec,
      patch.NewApiVersion examples.nestedEnv examples.version true ⟨1, []⟩ =
        (.ok (patch.versionModel examples.nestedEnv ⟨"demo", "petstore", "v1"⟩ examples.version
            (convs.map patch.inferable) []),
          ⟨4, [.ListSpecs "projects/demo/locations/global/apis/petstore/versions/v1/specs/-",
            .NewApiSpec examples.openapi true,
            .collectChildArtifacts
              "projects/demo/locations/global/apis/petstore/versions/v1/artifacts/-"]⟩) ∧
      convs.length = 1 ∧
      ∀ i m, [examples.openapi][i]? = some m → ∃ c, convs[i]? = some c ∧
        (examples.nestedEnv.NewApiSpec m true
          (patch.stateAfter examples.nestedEnv
            ((patch.conversionCalls [examples.openapi]).take i) 2)).1 = .ok c) ∧
    (patch.NewApiVersion examples.failingEnv examples.version true ⟨1, []⟩).1
      = .error "no spec" ∧
    (∃ after,
      (patch.applyApiVersionPatch examples.nestedEnv examples.nestedVersion
        "projects/demo/locations/global" ⟨1, []⟩).2.trace =
        [] ++ (patch.patchCalls ⟨"demo", "petstore", "v1"⟩ examples.nestedVersion).take 2
          ++ patch.Event.applyApiSpecPatch (examples.nestedSpec "broken")
            "projects/demo/locations/global/apis/petstore/versions/v1" "" :: after) ∧
    ∃ issued,
      (patch.applyApiVersionPatch examples.exportEnv.toEnv examples.nestedVersion
        "projects/demo/locations/global" ⟨1, []⟩).2.trace = [] ++ issued ∧
      (∀ spec p f, patch.Event.applyApiSpecPatch spec p f ∈ issued →
        p = "projects/demo/locations/global/apis/petstore/versions/v1" ∧ f = ""
          ∧ spec ∈ examples.nestedVersion.Data.ApiSpecs) ∧
      ∀ spec ∈ examples.nestedVersion.Data.ApiSpecs,
        patch.Event.applyApiSpecPatch spec
          "projects/demo/locations/global/apis/petstore/versions/v1" "" ∈ issued := by
  refine ⟨?_, ?_, ?_, ?_⟩
  · exact ((patch.newApiVersion_nested_specs examples.nestedEnv examples.version
      ⟨"demo", "petstore", "v1"⟩ rfl ⟨1, []⟩ [examples.openapi] none 2 rfl).2.2.1
      ⟨3, [.ListSpecs "projects/demo/locations/global/apis/petstore/versions/v1/specs/-",
        .NewApiSpec examples.openapi true]⟩ rfl).2.2 rfl [] 4 rfl
  · exact (patch.newApiVersion_nested_specs examples.failingEnv examples.version
      ⟨"demo", "petstore", "v1"⟩ rfl ⟨1, []⟩ [examples.openapi] none 2 rfl).2.1
      0 examples.openapi "no spec" rfl (fun j m1 hj _ => absurd hj (Nat.not_lt_zero j)) rfl
  · refine ((patch.newApiVersion_nested_specs examples.nestedEnv examples.version
      ⟨"demo", "petstore", "v1"⟩ rfl ⟨1, []⟩ [examples.openapi] none 2 rfl).2.2.2.2.2.2
      examples.nestedVersion "projects/demo/locations/global" ⟨"demo", "petstore", "v1"⟩
      rfl).2.1 1 (examples.nestedSpec "broken") rfl ?_
    intro j ev hj hev
    match j, hj with
    | 0, _ =>
      simp only [patch.patchCalls, List.getElem?_cons_zero, Option.some.injEq] at hev
      subst hev
      rfl
    | 1, _ =>
      have h1 : (patch.patchCalls ⟨"demo", "petstore", "v1"⟩ examples.nestedVersion)[1]?
          = some (patch.Event.applyApiSpecPatch (examples.nestedSpec "openapi")
            "projects/demo/locations/global/apis/petstore/versions/v1" "") := rfl
      rw [h1] at hev
      cases hev
      rfl
  · obtain ⟨issued, h1, h2, h3⟩ :=
      ((patch.newApiVersion_nested_specs examples.exportEnv.toEnv examples.version
        ⟨"demo", "petstore", "v1"⟩ rfl ⟨1, []⟩ [] none 2 rfl).2.2.2.2.2.2
        examples.nestedVersion "projects/demo/locations/global" ⟨"demo", "petstore", "v1"⟩
        rfl).2.2
    exact ⟨issued, h1, h2, h3 rfl⟩

/-! ## `cmd/check/rules/rule110`: the mime type of contents -/

/-- C24: `mimeTypeContents.ApplyToField` returns at most one problem, and the same whatever
the field and the value are. It returns none exactly when the contents are empty, which
is so for a resource that is neither an ApiSpec nor an Artifact, or the declared mime type
starts with an allowed prefix, or the declared mime type is not blank and parses as the
media type of the detected type (the empty type if the detected type does not parse). For
a library in which a blank text does not parse as a media type, "is not blank" can be
left out. -/
theorem rule110.mimeTypeContents_none_iff (lib : rule110.Library) (resource : lint.Resource)
    (field value : String) :
    ((rule110.mimeTypeContents lib).ApplyToField resource field value).length ≤ 1 ∧
    (∀ field1 value1, (rule110.mimeTypeContents lib).ApplyToField resource field1 value1 =
      (rule110.mimeTypeContents lib).ApplyToField resource field value) ∧
    (rule110.declaredAndContents lint.Resource.other).2 = [] ∧
    ((rule110.mimeTypeContents lib).ApplyToField resource field value = [] ↔
      (rule110.declaredAndContents resource).2 = [] ∨
      (∃ p ∈ ["application/octet-stream", "application/x.", "application/x-", "application/vnd"],
        rule110.HasPrefix (rule110.declaredAndContents resource).1 p = true) ∨
      (TrimSpace (rule110.declaredAndContents resource).1 ≠ "" ∧
        ∃ t, lib.ParseMediaType (rule110.declaredAndContents resource).1 = .ok t ∧
          t = (match lib.ParseMediaType
                (lib.DetectContentType (rule110.declaredAndContents resource).2) with
              | .ok d => d
              | .error _ => ""))) ∧
    ((∀ s, TrimSpace s = "" → ∃ e, lib.ParseMediaType s = .error e) →
      ((rule110.mimeTypeContents lib).ApplyToField resource field value = [] ↔
        (rule110.declaredAndContents resource).2 = [] ∨
        (∃ p ∈ ["application/octet-stream", "application/x.", "application/x-",
            "application/vnd"],
          rule110.HasPrefix (rule110.declaredAndContents resource).1 p = true) ∨
        ∃ t, lib.ParseMediaType (rule110.declaredAndContents resource).1 = .ok t ∧
          t = (match lib.ParseMediaType
                (lib.DetectContentType (rule110.declaredAndContents resource).2) with
              | .ok d => d
              | .error _ => ""))) := by
  have hiff : (rule110.mimeTypeContents lib).ApplyToField resource field value = [] ↔
      (rule110.declaredAndContents resource).2 = [] ∨
      (∃ p ∈ ["application/octet-stream", "application/x.", "application/x-", "application/vnd"],
        rule110.HasPrefix (rule110.declaredAndContents resource).1 p = true) ∨
      (TrimSpace (rule110.declaredAndContents resource).1 ≠ "" ∧
        ∃ t, lib.ParseMediaType (rule110.declaredAndContents resource).1 = .ok t ∧
          t = (match lib.ParseMediaType
                (lib.DetectContentType (rule110.declaredAndContents resource).2) with
              | .ok d => d
              | .error _ => "")) := by
    simp only [rule110.mimeTypeContents, rule110.allowPrefixes]
    by_cases h1 : (rule110.declaredAndContents resource).2 = []
    · simp [h1]
    · have h1l : ¬ (rule110.declaredAndContents resource).2.length = 0 := by
        simpa [List.length_eq_zero] using h1
      by_cases h2 : (["application/octet-stream", "application/x.", "application/x-",
          "application/vnd"].any
            (fun p => rule110.HasPrefix (rule110.declaredAndContents resource).1 p)) = true
      · rw [if_neg h1l, if_pos h2]
        simp only [true_iff]
        right; left
        simpa [List.any_eq_true] using h2
      · rw [if_neg h1l, if_neg h2]
        have h2e : ¬ ∃ p ∈ ["application/octet-stream", "application/x.", "application/x-",
            "application/vnd"],
            rule110.HasPrefix (rule110.declaredAndContents resource).1 p = true := by
          intro hex
          apply h2
          simpa [List.any_eq_true] using hex
        by_cases h3 : TrimSpace (rule110.declaredAndContents resource).1 = ""
        · rw [if_pos h3]
          constructor
          · intro h
            cases h
          · rintro (h | h | ⟨h, _⟩)
            · exact absurd h h1
            · exact absurd h h2e
            · exact absurd h3 h
        · rw [if_neg h3]
          cases hp : lib.ParseMediaType (rule110.declaredAndContents resource).1 with
          | error err =>
            constructor
            · intro h
              cases h
            · rintro (h | h | ⟨_, t, ht, _⟩)
              · exact absurd h h1
              · exact absurd h h2e
              · cases ht
          | ok t =>
            simp only []
            split_ifs with h5
            · constructor
              · intro h
                cases h
              · rintro (h | h | ⟨_, t1, ht, heq⟩)
                · exact absurd h h1
                · exact absurd h h2e
                · cases ht
                  exact absurd heq h5
            · exact ⟨fun _ => Or.inr (Or.inr ⟨h3, t, rfl, not_not.1 h5⟩), fun _ => rfl⟩
  refine ⟨?_, fun _ _ => rfl, rfl, hiff, ?_⟩
  · simp only [rule110.mimeTypeContents]
    split_ifs
    · simp
    · simp
    · simp
    · split
      · simp
      · split_ifs <;> simp
  · intro hblank
    rw [hiff]
    constructor
    · rintro (h | h | ⟨_, h⟩)
      · exact Or.inl h
      · exact Or.inr (Or.inl h)
      · exact Or.inr (Or.inr h)
    · rintro (h | h | ⟨t, ht, heq⟩)
      · exact Or.inl h
      · exact Or.inr (Or.inl h)
      · refine Or.inr (Or.inr ⟨?_, t, ht, heq⟩)
        intro hb
        obtain ⟨e, he⟩ := hblank _ hb
        rw [he] at ht
        cases ht

/-- Witness of C24: a spec with XML contents declared as `text/xml` has no problem. -/
theorem rule110.mimeTypeContents_none_iff_witness :
    (rule110.mimeTypeContents examples.library).ApplyToField
      (.ApiSpec (examples.xmlSpec "text/xml")) "MimeType" "text/xml" = [] :=
  ((rule110.mimeTypeContents_none_iff examples.library (.ApiSpec (examples.xmlSpec "text/xml"))
      "MimeType" "text/xml").2.2.2.2
    (fun s hs => ⟨"mime: no media type", by simp [examples.library, hs]⟩)).2
    (Or.inr (Or.inr ⟨"text/xml", rfl, rfl⟩))

/-- C25: when the contents are not empty and the declared mime type has no allowed prefix,
`mimeTypeContents.ApplyToField` decides in this order: a blank declared type gives the
`ERROR` `Empty mime_type.` with the detected type as suggestion; otherwise a declared type
that does not parse gives the `ERROR` `Unable to parse mime_type` with no suggestion;
otherwise a parsed type that differs from the detected one gives the `WARNING`
`Unexpected mime_type` with the detected type as suggestion, and one that equals it gives
nothing. So a reported problem has the first message exactly when the declared type is
blank, is another `ERROR` exactly when the declared type is not blank and does not parse,
and is a `WARNING` exactly when the declared type is not blank and parses as a type other
than the detected one. -/
theorem rule110.mimeTypeContents_problem_order (lib : rule110.Library)
    (resource : lint.Resource) (field value : String) :
    ((rule110.declaredAndContents resource).2 ≠ [] →
      (∀ p ∈ ["application/octet-stream", "application/x.", "application/x-",
          "application/vnd"],
        rule110.HasPrefix (rule110.declaredAndContents resource).1 p = false) →
      (TrimSpace (rule110.declaredAndContents resource).1 = "" →
        (rule110.mimeTypeContents lib).ApplyToField resource field value =
          [{ Severity := .ERROR
             Message := "Empty mime_type."
             Suggestion := "Detected mime_type: "
               ++ lib.quote (lib.DetectContentType (rule110.declaredAndContents resource).2)
               ++ "." }]) ∧
      (TrimSpace (rule110.declaredAndContents resource).1 ≠ "" →
        (∀ err, lib.ParseMediaType (rule110.declaredAndContents resource).1 = .error err →
          (rule110.mimeTypeContents lib).ApplyToField resource field value =
            [{ Severity := .ERROR
               Message := "Unable to parse mime_type "
                 ++ lib.quote (rule110.declaredAndContents resource).1 ++ ": " ++ err ++ "."
               Suggestion := "" }]) ∧
        (∀ t, lib.ParseMediaType (rule110.declaredAndContents resource).1 = .ok t →
          (t ≠ (match lib.ParseMediaType
                  (lib.DetectContentType (rule110.declaredAndContents resource).2) with
                | .ok d => d
                | .error _ => "") →
            (rule110.mimeTypeContents lib).ApplyToField resource field value =
              [{ Severity := .WARNING
                 Message := "Unexpected mime_type "
                   ++ lib.quote (rule110.declaredAndContents resource).1 ++ " for contents."
                 Suggestion := "Detected mime_type: "
                   ++ lib.quote (lib.DetectContentType (rule110.declaredAndContents resource).2)
                   ++ "." }]) ∧
          (t = (match lib.ParseMediaType
                  (lib.DetectContentType (rule110.declaredAndContents resource).2) with
                | .ok d => d
                | .error _ => "") →
            (rule110.mimeTypeContents lib).ApplyToField resource field value = [])))) ∧
    (∀ p ∈ (rule110.mimeTypeContents lib).ApplyToField resource field value,
      (p.Message = "Empty mime_type." ↔
        TrimSpace (rule110.declaredAndContents resource).1 = "") ∧
      (p.Severity = .ERROR ∧ p.Message ≠ "Empty mime_type." ↔
        TrimSpace (rule110.declaredAndContents resource).1 ≠ "" ∧
          ∃ err, lib.ParseMediaType (rule110.declaredAndContents resource).1 = .error err) ∧
      (p.Severity = .WARNING ↔
        TrimSpace (rule110.declaredAndContents resource).1 ≠ "" ∧
          ∃ t, lib.ParseMediaType (rule110.declaredAndContents resource).1 = .ok t ∧
            t ≠ (match lib.ParseMediaType
                  (lib.DetectContentType (rule110.declaredAndContents resource).2) with
                | .ok d => d
                | .error _ => ""))) := by
  constructor
  · intro h1 h2
    have h1l : ¬ (rule110.declaredAndContents resource).2.length = 0 := by
      simpa [List.length_eq_zero] using h1
    have h2a : ¬ (rule110.allowPrefixes.any
        (fun p => rule110.HasPrefix (rule110.declaredAndContents resource).1 p)) = true := by
      intro h
      obtain ⟨p, hp, hpre⟩ := List.any_eq_true.1 h
      rw [h2 p hp] at hpre
      cases hpre
    refine ⟨?_, ?_⟩
    · intro h3
      simp only [rule110.mimeTypeContents]
      rw [if_neg h1l, if_neg h2a, if_pos h3]
    · intro h3
      refine ⟨?_, ?_⟩
      · intro err hp
        simp only [rule110.mimeTypeContents]
        rw [if_neg h1l, if_neg h2a, if_neg h3]
        simp only [hp]
      · intro t hp
        refine ⟨?_, ?_⟩
        · intro h4
          simp only [rule110.mimeTypeContents]
          rw [if_neg h1l, if_neg h2a, if_neg h3]
          simp only [hp]
          rw [if_pos h4]
        · intro h4
          simp only [rule110.mimeTypeContents]
          rw [if_neg h1l, if_neg h2a, if_neg h3]
          simp only [hp]
          rw [if_neg (not_not.2 h4)]
  · intro p hmem
    simp only [rule110.mimeTypeContents] at hmem
    split_ifs at hmem with h1 h2 h3
    · cases hmem
    · cases hmem
    · rw [List.mem_singleton] at hmem
      subst hmem
      refine ⟨⟨fun _ => h3, fun _ => rfl⟩, ⟨fun h => absurd rfl h.2, fun h => absurd h3 h.1⟩,
        ⟨fun h => ?_, fun h => absurd h3 h.1⟩⟩
      cases h
    · cases hp : lib.ParseMediaType (rule110.declaredAndContents resource).1 with
      | error err =>
        simp only [hp, List.mem_singleton] at hmem
        subst hmem
        have hne : "Unable to parse mime_type "
            ++ lib.quote (rule110.declaredAndContents resource).1 ++ ": " ++ err ++ "."
            ≠ "Empty mime_type." := by
          rw [String.append_assoc, String.append_assoc, String.append_assoc]
          exact rule110.unable_ne_empty _
        refine ⟨⟨fun h => absurd h hne, fun h => absurd h h3⟩,
          ⟨fun _ => ⟨h3, err, rfl⟩, fun _ => ⟨rfl, hne⟩⟩, ⟨fun h => ?_, fun h => ?_⟩⟩
        · cases h
        · obtain ⟨_, t, ht, _⟩ := h
          cases ht
      | ok t =>
        simp only [hp] at hmem
        split_ifs at hmem with h4
        · rw [List.mem_singleton] at hmem
          subst hmem
          have hne : "Unexpected mime_type "
              ++ lib.quote (rule110.declaredAndContents resource).1 ++ " for contents."
              ≠ "Empty mime_type." := by
            rw [String.append_assoc]
            exact rule110.unexpected_ne_empty _
          refine ⟨⟨fun h => absurd h hne, fun h => absurd h h3⟩,
            ⟨fun h => ?_, fun h => ?_⟩, ⟨fun _ => ⟨h3, t, rfl, h4⟩, fun _ => rfl⟩⟩
          · cases h.1
          · obtain ⟨_, err, he⟩ := h
            cases he
        · cases hmem

/-- Witness of C25: a spec with XML contents and a declared type of blanks has the problem
`Empty mime_type.`, and the message tells that the declared type is blank. -/
theorem rule110.mimeTypeContents_problem_order_witness :
    (rule110.mimeTypeContents examples.library).ApplyToField
        (.ApiSpec (examples.xmlSpec "  ")) "MimeType" "  " =
      [{ Severity := .ERROR
         Message := "Empty mime_type."
         Suggestion := "Detected mime_type: \"text/xml; charset=utf-8\"." }] ∧
    (rule110.mimeTypeContents examples.library).ApplyToField
        (.ApiSpec (examples.xmlSpec "text/plain")) "MimeType" "text/plain" =
      [{ Severity := .WARNING
         Message := "Unexpected mime_type \"text/plain\" for contents."
         Suggestion := "Detected mime_type: \"text/xml; charset=utf-8\"." }] :=
  ⟨((rule110.mimeTypeContents_problem_order examples.library
      (.ApiSpec (examples.xmlSpec "  ")) "MimeType" "  ").1 (by decide) (by decide)).1 rfl,
    ((((rule110.mimeTypeContents_problem_order examples.library
      (.ApiSpec (examples.xmlSpec "text/plain")) "MimeType" "text/plain").1
        (by decide) (by decide)).2 (by decide)).2 "text/plain" rfl).1 (by decide)⟩

/-! ## `patch/project.go`: the log lines of the export tasks -/

/-- C21 does not hold as it is written: the task of an artifact that does not convert logs
the warning `Skipped ...`, which is not a line `Exported ...`. -/
theorem patch.export_task_logs_skipped :
    patch.logLines
        (patch.Task.Run examples.exportEnv (.exportArtifactTask examples.broken "out/demo")
          ⟨0, []⟩).2.effects =
      [.Warnf "Skipped projects/demo/locations/global/artifacts/broken: unsupported"] ∧
    patch.logLines
        (patch.Task.Run examples.exportEnv (.exportArtifactTask examples.blob "out/demo")
          ⟨0, []⟩).2.effects =
      [.Warnf "Skipped projects/demo/locations/global/apis/petstore/artifacts/blob"] := by
  constructor <;> rfl

/-- C21, amended: a run of the export task of an Api, a version, a spec or a deployment
logs nothing or the one line `Exported <name>` for the name of its message, and a run of
the export task of an artifact logs nothing, that line, or one warning `Skipped <name>` or
`Skipped <name>: <error>`. When the conversion and the encoding of an Api, a version, a
spec or a deployment succeed, the line is logged next, and the directory is made right
after it: the line is logged whatever making the directory and writing the file return. -/
theorem patch.export_task_log_lines {σ : Type} (env : patch.ExportEnv σ) (dir : String)
    (w : patch.Session σ) :
    (∀ message : rpc.Api, ∃ done,
      (patch.exportAPITask.Run env message dir w).2.effects = w.effects ++ done ∧
      (patch.logLines done = [] ∨
        patch.logLines done = [.Infof ("Exported " ++ message.Name)]) ∧
      (∀ api s1 bytes, env.NewApi message false w.state = (.ok api, s1) →
        env.EncodeApi api = .ok bytes →
        ∃ rest,
          done = [.NewApi message false, .Infof ("Exported " ++ message.Name),
            .MkdirAll (env.Dir (dir ++ "/apis/" ++ api.Header.Metadata.Name ++ "/info.yaml"))
              0o777] ++ rest ∧
          patch.logLines rest = [])) ∧
    (∀ message : rpc.ApiVersion, ∃ done,
      (patch.exportVersionTask.Run env message dir w).2.effects = w.effects ++ done ∧
      (patch.logLines done = [] ∨
        patch.logLines done = [.Infof ("Exported " ++ message.Name)]) ∧
      (∀ version bytes,
        (patch.NewApiVersion env.toEnv message false { state := w.state, trace := [] }).1
          = .ok version →
        env.EncodeVersion version = .ok bytes →
        ∃ rest,
          done = [.Infof ("Exported " ++ message.Name),
            .MkdirAll (env.Dir (dir ++ "/" ++ version.Header.Metadata.Parent ++ "/versions/"
              ++ version.Header.Metadata.Name ++ "/info.yaml")) 0o777] ++ rest ∧
          patch.logLines rest = [])) ∧
    (∀ message : rpc.ApiSpec, ∃ done,
      (patch.exportSpecTask.Run env message dir w).2.effects = w.effects ++ done ∧
      (patch.logLines done = [] ∨
        patch.logLines done = [.Infof ("Exported " ++ message.Name)]) ∧
      (∀ spec s1 bytes, env.NewApiSpec message false w.state = (.ok spec, s1) →
        env.EncodeSpec spec = .ok bytes →
        ∃ rest,
          done = [.NewApiSpec message false, .Infof ("Exported " ++ message.Name),
            .MkdirAll (env.Dir (dir ++ "/" ++ spec.Header.Metadata.Parent ++ "/specs/"
              ++ spec.Header.Metadata.Name ++ "/info.yaml")) 0o777] ++ rest ∧
          patch.logLines rest = [])) ∧
    (∀ message : rpc.ApiDeployment, ∃ done,
      (patch.exportDeploymentTask.Run env message dir w).2.effects = w.effects ++ done ∧
      (patch.logLines done = [] ∨
        patch.logLines done = [.Infof ("Exported " ++ message.Name)]) ∧
      (∀ deployment s1 bytes,
        env.NewApiDeployment message false w.state = (.ok deployment, s1) →
        env.EncodeDeployment deployment = .ok bytes →
        ∃ rest,
          done = [.NewApiDeployment message false, .Infof ("Exported " ++ message.Name),
            .MkdirAll (env.Dir (dir ++ "/" ++ deployment.Header.Metadata.Parent
              ++ "/deployments/" ++ deployment.Header.Metadata.Name ++ "/info.yaml"))
              0o777] ++ rest ∧
          patch.logLines rest = [])) ∧
    (∀ message : rpc.Artifact, ∃ done,
      (patch.exportArtifactTask.Run env message dir w).2.effects = w.effects ++ done ∧
      (patch.logLines done = [] ∨
        patch.logLines done = [.Infof ("Exported " ++ message.Name)] ∨
        patch.logLines done = [.Warnf ("Skipped " ++ message.Name)] ∨
        ∃ e, patch.logLines done = [.Warnf ("Skipped " ++ message.Name ++ ": " ++ e)])) := by
  refine ⟨?_, ?_, ?_, ?_, ?_⟩
  · intro message
    rcases hc : env.NewApi message false w.state with ⟨r, s1⟩
    cases r with
    | error e =>
      refine ⟨[.NewApi message false], by simp [patch.exportAPITask.Run, patch.perform, hc],
        Or.inl rfl, ?_⟩
      intro api s2 bytes h
      cases h
    | ok api =>
      cases he : env.EncodeApi api with
      | error e =>
        refine ⟨[.NewApi message false],
          by simp [patch.exportAPITask.Run, patch.perform, hc, he], Or.inl rfl, ?_⟩
        intro api2 s2 bytes h h2
        cases h
        rw [he] at h2
        cases h2
      | ok bytes =>
        obtain ⟨rest, h, hl⟩ := patch.logged_write env
          (dir ++ "/apis/" ++ api.Header.Metadata.Name ++ "/info.yaml") bytes 0o644
          ("Exported " ++ message.Name)
          { state := s1, effects := w.effects ++ [.NewApi message false] }
        refine ⟨[.NewApi message false, .Infof ("Exported " ++ message.Name),
          .MkdirAll (env.Dir (dir ++ "/apis/" ++ api.Header.Metadata.Name ++ "/info.yaml"))
            0o777] ++ rest, ?_, Or.inr ?_, ?_⟩
        · simp only [patch.exportAPITask.Run, patch.perform, hc, he]
          rw [h]
          simp
        · simp [patch.logLines_append, patch.logLines, hl]
        · intro api2 s2 bytes2 h2 _
          cases h2
          exact ⟨rest, rfl, hl⟩
  · intro message
    have hf := patch.newApiVersion_flat_frame env.toEnv message { state := w.state, trace := [] }
    rcases hc : patch.NewApiVersion env.toEnv message false { state := w.state, trace := [] }
      with ⟨r, w0⟩
    rw [hc] at hf
    simp only at hf
    subst hf
    cases r with
    | error e =>
      refine ⟨[], by simp [patch.exportVersionTask.Run, patch.viaVersion, hc], Or.inl rfl, ?_⟩
      intro version bytes h
      cases h
    | ok version =>
      cases he : env.EncodeVersion version with
      | error e =>
        refine ⟨[], by simp [patch.exportVersionTask.Run, patch.viaVersion, hc, he],
          Or.inl rfl, ?_⟩
        intro version2 bytes h h2
        cases h
        rw [he] at h2
        cases h2
      | ok bytes =>
        obtain ⟨rest, h, hl⟩ := patch.logged_write env
          (dir ++ "/" ++ version.Header.Metadata.Parent ++ "/versions/"
            ++ version.Header.Metadata.Name ++ "/info.yaml") bytes 0o644
          ("Exported " ++ message.Name) w
        refine ⟨[.Infof ("Exported " ++ message.Name),
          .MkdirAll (env.Dir (dir ++ "/" ++ version.Header.Metadata.Parent ++ "/versions/"
            ++ version.Header.Metadata.Name ++ "/info.yaml")) 0o777] ++ rest, ?_, Or.inr ?_, ?_⟩
        · simp only [patch.exportVersionTask.Run, patch.viaVersion, hc, he, List.map_nil,
            List.append_nil]
          exact h
        · simp [patch.logLines_append, patch.logLines, hl]
        · intro version2 bytes2 h2 _
          cases h2
          exact ⟨rest, rfl, hl⟩
  · intro message
    rcases hc : env.NewApiSpec message false w.state with ⟨r, s1⟩
    cases r with
    | error e =>
      refine ⟨[.NewApiSpec message false],
        by simp [patch.exportSpecTask.Run, patch.perform, hc], Or.inl rfl, ?_⟩
      intro spec s2 bytes h
      cases h
    | ok spec =>
      cases he : env.EncodeSpec spec with
      | error e =>
        refine ⟨[.NewApiSpec message false],
          by simp [patch.exportSpecTask.Run, patch.perform, hc, he], Or.inl rfl, ?_⟩
        intro spec2 s2 bytes h h2
        cases h
        rw [he] at h2
        cases h2
      | ok bytes =>
        obtain ⟨rest, h, hl⟩ := patch.logged_write env
          (dir ++ "/" ++ spec.Header.Metadata.Parent ++ "/specs/"
            ++ spec.Header.Metadata.Name ++ "/info.yaml") bytes 0o644
          ("Exported " ++ message.Name)
          { state := s1, effects := w.effects ++ [.NewApiSpec message false] }
        have htail : ∃ more,
            (patch.exportSpecTask.Run env message dir w).2.effects =
              (patch.writeInDir env (dir ++ "/" ++ spec.Header.Metadata.Parent ++ "/specs/"
                ++ spec.Header.Metadata.Name ++ "/info.yaml") bytes 0o644
                (patch.note (.Infof ("Exported " ++ message.Name))
                  { state := s1, effects := w.effects ++ [.NewApiSpec message false] })).2.effects
                ++ more ∧
            patch.logLines more = [] := by
          simp only [patch.exportSpecTask.Run, patch.perform, hc, he]
          rcases patch.writeInDir env (dir ++ "/" ++ spec.Header.Metadata.Parent ++ "/specs/"
              ++ spec.Header.Metadata.Name ++ "/info.yaml") bytes 0o644
              (patch.note (.Infof ("Exported " ++ message.Name))
                { state := s1, effects := w.effects ++ [.NewApiSpec message false] })
            with ⟨o, w2⟩
          cases o with
          | some e => exact ⟨[], by simp, rfl⟩
          | none =>
            by_cases hfn : message.Filename = ""
            · exact ⟨[], by simp [hfn], rfl⟩
            · rcases hg : env.client.GetApiSpecContents message.Name w2.state with ⟨rc, s3⟩
              cases rc with
              | error e =>
                exact ⟨[.GetApiSpecContents message.Name], by simp [hfn, hg], rfl⟩
              | ok contents =>
                exact ⟨[.GetApiSpecContents message.Name,
                  .WriteFile (env.Join (env.Dir (dir ++ "/" ++ spec.Header.Metadata.Parent
                    ++ "/specs/" ++ spec.Header.Metadata.Name ++ "/info.yaml"))
                    message.Filename)
                    (if Contains contents.ContentType "+gzip" = true then
                      (env.GUnzippedBytes contents.Data).1
                    else contents.Data) 0o644], by simp [hfn, hg], rfl⟩
        obtain ⟨more, hm, hml⟩ := htail
        refine ⟨[.NewApiSpec message false, .Infof ("Exported " ++ message.Name),
          .MkdirAll (env.Dir (dir ++ "/" ++ spec.Header.Metadata.Parent ++ "/specs/"
            ++ spec.Header.Metadata.Name ++ "/info.yaml")) 0o777] ++ (rest ++ more),
          ?_, Or.inr ?_, ?_⟩
        · rw [hm, h]
          simp
        · simp [patch.logLines_append, patch.logLines, hl, hml]
        · intro spec2 s2 bytes2 h2 _
          cases h2
          exact ⟨rest ++ more, rfl, by simp [patch.logLines_append, hl, hml]⟩
  · intro message
    rcases hc : env.NewApiDeployment message false w.state with ⟨r, s1⟩
    cases r with
    | error e =>
      refine ⟨[.NewApiDeployment message false],
        by simp [patch.exportDeploymentTask.Run, patch.perform, hc], Or.inl rfl, ?_⟩
      intro deployment s2 bytes h
      cases h
    | ok deployment =>
      cases he : env.EncodeDeployment deployment with
      | error e =>
        refine ⟨[.NewApiDeployment message false],
          by simp [patch.exportDeploymentTask.Run, patch.perform, hc, he], Or.inl rfl, ?_⟩
        intro deployment2 s2 bytes h h2
        cases h
        rw [he] at h2
        cases h2
      | ok bytes =>
        obtain ⟨rest, h, hl⟩ := patch.logged_write env
          (dir ++ "/" ++ deployment.Header.Metadata.Parent ++ "/deployments/"
            ++ deployment.Header.Metadata.Name ++ "/info.yaml") bytes 0o644
          ("Exported " ++ message.Name)
          { state := s1, effects := w.effects ++ [.NewApiDeployment message false] }
        refine ⟨[.NewApiDeployment message false, .Infof ("Exported " ++ message.Name),
          .MkdirAll (env.Dir (dir ++ "/" ++ deployment.Header.Metadata.Parent
            ++ "/deployments/" ++ deployment.Header.Metadata.Name ++ "/info.yaml")) 0o777]
            ++ rest, ?_, Or.inr ?_, ?_⟩
        · simp only [patch.exportDeploymentTask.Run, patch.perform, hc, he]
          rw [h]
          simp
        · simp [patch.logLines_append, patch.logLines, hl]
        · intro deployment2 s2 bytes2 h2 _
          cases h2
          exact ⟨rest, rfl, hl⟩
  · intro message
    rcases hc : env.NewArtifact message w.state with ⟨r, s1⟩
    cases r with
    | error e =>
      exact ⟨[.NewArtifact message, .Warnf ("Skipped " ++ message.Name ++ ": " ++ e)],
        by simp [patch.exportArtifactTask.Run, patch.perform, patch.note, hc],
        Or.inr (Or.inr (Or.inr ⟨e, rfl⟩))⟩
    | ok artifact =>
      by_cases hk : artifact.Header.Kind = "Artifact"
      · exact ⟨[.NewArtifact message, .Warnf ("Skipped " ++ message.Name)],
          by simp [patch.exportArtifactTask.Run, patch.perform, patch.note, hc, hk],
          Or.inr (Or.inr (Or.inl rfl))⟩
      · cases he : env.EncodeArtifact artifact with
        | error e =>
          exact ⟨[.NewArtifact message],
            by simp [patch.exportArtifactTask.Run, patch.perform, hc, hk, he], Or.inl rfl⟩
        | ok bytes =>
          obtain ⟨rest, h, hl⟩ := patch.logged_write env
            (if artifact.Header.Metadata.Parent = "" then
              dir ++ "/artifacts/" ++ artifact.Header.Metadata.Name ++ ".yaml"
            else
              dir ++ "/" ++ artifact.Header.Metadata.Parent ++ "/artifacts/"
                ++ artifact.Header.Metadata.Name ++ ".yaml") bytes 0o777
            ("Exported " ++ message.Name)
            { state := s1, effects := w.effects ++ [.NewArtifact message] }
          refine ⟨[.NewArtifact message, .Infof ("Exported " ++ message.Name),
            .MkdirAll (env.Dir (if artifact.Header.Metadata.Parent = "" then
              dir ++ "/artifacts/" ++ artifact.Header.Metadata.Name ++ ".yaml"
            else
              dir ++ "/" ++ artifact.Header.Metadata.Parent ++ "/artifacts/"
                ++ artifact.Header.Metadata.Name ++ ".yaml")) 0o777] ++ rest, ?_,
            Or.inr (Or.inl ?_)⟩
          · simp only [patch.exportArtifactTask.Run, patch.perform, hc, hk, he, if_false]
            rw [h]
            simp
          · simp [patch.logLines_append, patch.logLines, hl]

/-- Witness of C21, amended: no directory can be made, the export task of the Api
`petstore` returns that error, and `Exported ...` has been logged before. -/
theorem patch.export_task_log_lines_witness :
    (patch.exportAPITask.Run examples.readOnlyEnv examples.petstore "out/demo" ⟨0, []⟩).1 =
      some "permission denied" ∧
    ∃ done rest,
      (patch.exportAPITask.Run examples.readOnlyEnv examples.petstore "out/demo"
        ⟨0, []⟩).2.effects = [] ++ done ∧
      done = [.NewApi examples.petstore false,
        .Infof "Exported projects/demo/locations/global/apis/petstore",
        .MkdirAll "out/demo/apis/petstore" 0o777] ++ rest ∧
      patch.logLines rest = [] := by
  refine ⟨rfl, ?_⟩
  obtain ⟨done, h1, _, h3⟩ :=
    (patch.export_task_log_lines examples.readOnlyEnv "out/demo" ⟨0, []⟩).1 examples.petstore
  obtain ⟨rest, h4, h5⟩ := h3 ⟨examples.header "API" "petstore" "", ""⟩ 1 (some [1]) rfl rfl
  exact ⟨done, rest, h1, h4, h5⟩

/-! ## `controller/controller-error-path_test.go`: the project of the test -/

/-- C23 does not hold of the test: the project it passes to `processManifestResource`,
`controller-error-demo`, is not the project `controller-test` that it deletes and whose
three specs it seeds. No seeded resource lies in the project passed, so a pattern scoped
to it matches nothing; in the model of the resolver the third scenario, which is rejected
against the seeded project because of its missing dependency, yields no action and no
error against the project passed. -/
theorem controller.test_project_differs_from_seeded :
    controller.TestControllerErrors.projectID ≠ "controller-test" ∧
    controller.TestControllerErrors.deleted = "projects/controller-test" ∧
    controller.TestControllerErrors.seed.map (fun name => (pieces name).take 2) =
      [["projects", "controller-test"], ["projects", "controller-test"],
        ["projects", "controller-test"]] ∧
    (∀ pattern, controller.ListMatching (examples.seeded "controller-test")
      (controller.scope controller.TestControllerErrors.projectID ++ pattern) = []) ∧
    controller.processManifestResource (examples.seeded "controller-test")
      controller.TestControllerErrors.projectID examples.nonexistentDependency = .ok [] ∧
    controller.processManifestResource (examples.seeded "controller-test")
      "controller-test" examples.nonexistentDependency = .error .NotFound := by
  refine ⟨by decide, rfl, by decide, ?_, rfl, rfl⟩
  intro pattern
  simp [controller.ListMatching, examples.seeded, examples.petstoreVersion, controller.scope,
    controller.Match, controller.TestControllerErrors.projectID]

end Registry
